import Mathlib

/-!
The PDU layer of dicom-dimse (`src/PDU.js`).

A shallow embedding of the PDU/Item framing, of the fragmentation loop of
`PDU.generatePDatas`, of `PDU.prototype.loadPDV` and of `mergePDVs`, followed by the
properties of these functions.

Conventions of the embedding:

* bytes are natural numbers below 256, byte strings are `List Nat`;
* lengths, offsets and counts are natural numbers (JavaScript numbers holding
  non-negative integers, far below `2 ^ 53`);
* a JavaScript `while` loop becomes a function that is structurally recursive on a
  `fuel` argument bounding the number of iterations; a loop that has not finished
  within `fuel` iterations gives `none`, or the error `outOfFuel` where the function
  can also throw; the statements about a result hold for every `fuel` above a bound
  that is given with them;
* a function that can throw returns `Except Error`;
* `Field.js`, `RWStream.js`, `constants.js` and `Message.js` are not part of the
  sources at hand: what is used from them is modelled from the specification and
  marked as such.
-/

namespace Dimse

/-! ## Errors -/

/-- What a function of the embedding raises instead of returning: the exceptions of
the source, and `outOfFuel` for a loop that was not given enough iterations.
`unrecognizedType` is the error `Unrecoginized pdu type` of `PDU.createByStream`; it
carries the tag read and the position at which the cursor of the stream is left. -/
inductive Error where
  | outOfFuel
  | rangeError
  | typeError
  | invalidLengthBytes
  | unrecognizedType (tag offset : Nat)
deriving DecidableEq, Repr

deriving instance DecidableEq for Except

/-! ## Byte cursor (`RWStream.js`) -/

/-- Big-endian bytes of `v` on `width` bytes (the value is taken modulo
`256 ^ width`). -/
def bigEndian : Nat → Nat → List Nat
  | 0, _ => []
  | width + 1, v => bigEndian width (v / 256) ++ [v % 256]

/-- Value of a big-endian byte string. -/
def beValue (bytes : List Nat) : Nat :=
  bytes.foldl (fun acc b => acc * 256 + b) 0

/-- Modelled from the spec: the read cursor of `RWStream.js`, a "sequential big-endian
reader over a byte sequence" with a position. -/
structure ReadStream where
  rawBuffer : List Nat
  offset : Nat
deriving DecidableEq, Repr

/-- Modelled from the spec: the end-of-data test `stream.end()`. -/
def ReadStream.isEnd (s : ReadStream) : Bool :=
  decide (s.rawBuffer.length ≤ s.offset)

/-- Modelled from the spec: `stream.read(C.TYPE_UINT8)`; reading past the end of the
data raises a range error. -/
def ReadStream.readUInt8 (s : ReadStream) : Except Error (Nat × ReadStream) :=
  if s.offset + 1 ≤ s.rawBuffer.length then
    .ok (beValue ((s.rawBuffer.drop s.offset).take 1), { s with offset := s.offset + 1 })
  else .error .rangeError

/-- Modelled from the spec: `stream.read(C.TYPE_UINT32)`, big-endian. -/
def ReadStream.readUInt32 (s : ReadStream) : Except Error (Nat × ReadStream) :=
  if s.offset + 4 ≤ s.rawBuffer.length then
    .ok (beValue ((s.rawBuffer.drop s.offset).take 4), { s with offset := s.offset + 4 })
  else .error .rangeError

/-- Modelled from the spec: `stream.more(length)`, "slicing out a sub-range as a new
independently-addressed sub-stream": the next `length` bytes (as many of them as the
data holds, none for a negative `length`) as a stream of their own, and the cursor
advanced by `length`. -/
def ReadStream.more (s : ReadStream) (length : Int) : ReadStream × ReadStream :=
  ({ rawBuffer := (s.rawBuffer.drop s.offset).take length.toNat, offset := 0 },
   { s with offset := ((s.offset : Int) + length).toNat })

/-- Modelled from the spec: `stream.concat(other)` appends the data region of `other`
to the stream's own data. -/
def ReadStream.concat (s other : ReadStream) : ReadStream :=
  { s with rawBuffer := s.rawBuffer ++ other.rawBuffer }

/-! ## Primitive fields (`Field.js`) and the PDU/Item framing -/

/-- A member of a `fields` array. `prim` is a primitive field of `Field.js`, given by
what its `length()` returns and by the bytes its `write` appends. `node` is an object
with a `getFields` method (a PDU, an item or a PDV): its `type` (`null` for a PDV), its
`lengthBytes`, and the payload fields that its own `getFields` hands to
`PDU.prototype.getFields`. -/
inductive Field where
  | prim (length : Nat) (bytes : List Nat) : Field
  | node (type : Option Nat) (lengthBytes : Nat) (fields : List Field) : Field
deriving Repr

/-- Modelled from the spec: `UInt8Field`, one byte. -/
def UInt8Field (v : Nat) : Field := .prim 1 (bigEndian 1 v)

/-- Modelled from the spec: `UInt16Field`, two bytes, big-endian. -/
def UInt16Field (v : Nat) : Field := .prim 2 (bigEndian 2 v)

/-- Modelled from the spec: `UInt32Field`, four bytes, big-endian. -/
def UInt32Field (v : Nat) : Field := .prim 4 (bigEndian 4 v)

/-- Modelled from the spec: `ReservedField(n)`, `n` reserved (zero) bytes; the source
writes `new ReservedField()` for one byte. -/
def ReservedField (n : Nat) : Field := .prim n (List.replicate n 0)

/-- Modelled from the spec: `HexField`, the one tag byte. -/
def HexField (type : Nat) : Field := .prim 1 (bigEndian 1 type)

/-- Modelled from the spec: `BufferField(buffer, start, length)`, a raw byte range:
it reports `length` and writes the bytes of `buffer` from `start`, `length` of them
(those that `buffer` holds). -/
def BufferField (buffer : List Nat) (start length : Nat) : Field :=
  .prim length ((buffer.drop start).take length)

/-- The constructor `PDU` sets `this.lengthBytes = 4`. -/
def PDU.lengthBytes : Nat := 4

/-- The constructor `Item` sets `this.lengthBytes = 2`. -/
def Item.lengthBytes : Nat := 2

/-- The constructors `PresentationDataValueItem` and `RawDataPDV` set
`this.lengthBytes = 4` after `Item.call(this)`. -/
def PDV.lengthBytes : Nat := 4

/-- `PDU.prototype.lengthField`, given the value of `this.length(fields)`. -/
def lengthField (lengthBytes len : Nat) : Except Error Field :=
  if lengthBytes = 4 then .ok (UInt32Field len)
  else if lengthBytes = 2 then .ok (UInt16Field len)
  else .error .invalidLengthBytes

/-- The fields that `PDU.prototype.getFields` puts in front of the length field:
`HexField(this.type)` and one `ReservedField` when `this.type !== null`. -/
def tagFields : Option Nat → List Field
  | none => []
  | some t => [HexField t, ReservedField 1]

/-- What `length()` of a primitive field returns (`0` is never used for a node). -/
def Field.primLength : Field → Nat
  | .prim l _ => l
  | .node _ _ _ => 0

/-- What `write` of a primitive field appends. -/
def Field.primBytes : Field → List Nat
  | .prim _ b => b
  | .node _ _ _ => []

mutual
/-- One summand of `PDU.prototype.length`:
`f.getFields ? f.length(f.getFields()) : f.length()`. For a node, `getFields()` is
`tagFields ++ [lengthField] ++ fields`, and `lengthField` throws for a `lengthBytes`
other than 4 and 2. -/
def Field.length : Field → Except Error Nat
  | .prim l _ => .ok l
  | .node type lengthBytes fields =>
    match PDU.length fields with
    | .error e => .error e
    | .ok n =>
      match lengthField lengthBytes n with
      | .error e => .error e
      | .ok len => .ok (((tagFields type).map Field.primLength).sum + len.primLength + n)
/-- `PDU.prototype.length(fields)`: the sum over the fields. -/
def PDU.length : List Field → Except Error Nat
  | [] => .ok 0
  | f :: fs =>
    match Field.length f with
    | .error e => .error e
    | .ok a =>
      match PDU.length fs with
      | .error e => .error e
      | .ok b => .ok (a + b)
end

mutual
/-- The bytes `field.write(stream)` appends. For a node this is `Item.prototype.write`,
`stream.concat(this.stream())`, and `PDU.prototype.stream` writes the fields of
`getFields()` in order: tag and reserved byte (if any), length field, payload. -/
def Field.write : Field → Except Error (List Nat)
  | .prim _ bytes => .ok bytes
  | .node type lengthBytes fields =>
    match PDU.length fields with
    | .error e => .error e
    | .ok n =>
      match lengthField lengthBytes n with
      | .error e => .error e
      | .ok len =>
        match writeList fields with
        | .error e => .error e
        | .ok payload =>
          .ok (((tagFields type).map Field.primBytes).flatten ++ len.primBytes ++ payload)
/-- The loop `fields.forEach(field => field.write(stream))`. -/
def writeList : List Field → Except Error (List Nat)
  | [] => .ok []
  | f :: fs =>
    match Field.write f with
    | .error e => .error e
    | .ok a =>
      match writeList fs with
      | .error e => .error e
      | .ok b => .ok (a ++ b)
end

/-- The bytes that the tag and reserved fields of a node write: none for a PDV. -/
def tagBytes (type : Option Nat) : List Nat :=
  ((tagFields type).map Field.primBytes).flatten

/-- `PDU.prototype.buffer` of a node: the bytes of `this.stream()`. -/
def PDU.buffer (type : Option Nat) (lengthBytes : Nat) (fields : List Field) :
    Except Error (List Nat) :=
  Field.write (.node type lengthBytes fields)

mutual
/-- Every primitive field below reports the number of bytes it writes ("each knows its
own encoded length"), and every node below has `lengthBytes` 4 or 2. -/
def Field.wellFormed : Field → Bool
  | .prim l bytes => decide (l = bytes.length)
  | .node _ lengthBytes fields =>
    (decide (lengthBytes = 4) || decide (lengthBytes = 2)) && wellFormedList fields
/-- The same for each field of a list. -/
def wellFormedList : List Field → Bool
  | [] => true
  | f :: fs => Field.wellFormed f && wellFormedList fs
end

/-! ## Two items of the negotiation -/

/-- The tag `C.ITEM_TYPE_USER_INFORMATION` (`0x50`, from the tag table of the spec). -/
def ITEM_TYPE_USER_INFORMATION : Nat := 0x50

/-- The tag `C.ITEM_TYPE_MAXIMUM_LENGTH` (`0x51`, from the tag table of the spec). -/
def ITEM_TYPE_MAXIMUM_LENGTH : Nat := 0x51

/-- `MaximumLengthItem.prototype.getFields`, as the node it stands for. -/
def MaximumLengthItem.getFields (maximumLengthReceived : Nat) : Field :=
  .node (some ITEM_TYPE_MAXIMUM_LENGTH) Item.lengthBytes [UInt32Field maximumLengthReceived]

/-- `UserInformationItem.prototype.getFields` on the list `userDataItems`. -/
def UserInformationItem.getFields (userDataItems : List Field) : Field :=
  .node (some ITEM_TYPE_USER_INFORMATION) Item.lengthBytes userDataItems

/-! ## PDVs and P-DATA-TF -/

/-- The object built by `new RawDataPDV(context, buffer, start, length, isLast)`; its
`type` is `null` and its `lengthBytes` is 4. -/
structure RawDataPDV where
  isLast : Bool
  dataFragmentBuffer : List Nat
  bufferStart : Nat
  bufferLength : Nat
  contextId : Nat
deriving DecidableEq, Repr

/-- The constructor `RawDataPDV(context, buffer, start, length, isLast)`. -/
def RawDataPDV.new (context : Nat) (buffer : List Nat) (start length : Nat) (isLast : Bool) :
    RawDataPDV :=
  { isLast := isLast, dataFragmentBuffer := buffer, bufferStart := start,
    bufferLength := length, contextId := context }

/-- `RawDataPDV.prototype.getFields`, as the node it stands for in a `fields` array:
context ID, header `(this.isLast ? 1 : 0) << 1`, the buffer field; no tag. -/
def RawDataPDV.getFields (p : RawDataPDV) : Field :=
  .node none PDV.lengthBytes
    [UInt8Field p.contextId,
     UInt8Field ((if p.isLast then 1 else 0) * 2),
     BufferField p.dataFragmentBuffer p.bufferStart p.bufferLength]

/-- The tag `C.ITEM_TYPE_PDU_PDATA` (`0x04`, from the tag table of the spec). -/
def ITEM_TYPE_PDU_PDATA : Nat := 0x04

/-- `PDataTF.prototype.getFields` on the list `presentationDataValueItems`. -/
def PDataTF.getFields (presentationDataValueItems : List Field) : Field :=
  .node (some ITEM_TYPE_PDU_PDATA) PDU.lengthBytes presentationDataValueItems

/-- `PDataTF.prototype.totalLength`: `this.length(this.presentationDataValueItems)`. -/
def PDataTF.totalLength (presentationDataValueItems : List Field) : Except Error Nat :=
  PDU.length presentationDataValueItems

/-- The two values of `type` that `PresentationDataValueItem.prototype.readBytes`
assigns, `C.DATA_TYPE_COMMAND` and `C.DATA_TYPE_DATA`. -/
inductive DataType where
  | command
  | data
deriving DecidableEq, Repr

/-- A `PresentationDataValueItem` after `readBytes`. `isLast` is the number
`messageHeader >> 1`; it is used as a truth value (non-zero is true). -/
structure PresentationDataValueItem where
  type : DataType
  isLast : Nat
  contextId : Nat
  messageStream : ReadStream
deriving DecidableEq, Repr

/-- `PresentationDataValueItem.prototype.readBytes(stream, length)`. -/
def PresentationDataValueItem.readBytes (stream : ReadStream) (length : Nat) :
    Except Error (PresentationDataValueItem × ReadStream) :=
  match stream.readUInt8 with
  | .error e => .error e
  | .ok (contextId, s1) =>
    match s1.readUInt8 with
    | .error e => .error e
    | .ok (messageHeader, s2) =>
      let sub := s2.more ((length : Int) - 2)
      .ok ({ type := if messageHeader % 2 = 1 then DataType.command else DataType.data
             isLast := messageHeader / 2
             contextId := contextId
             messageStream := sub.1 }, sub.2)

/-- The loop `while (bytesRead < length) { ... }` of `PDU.prototype.loadPDV`. It
returns the PDVs read, the stream and the final value of `bytesRead`. -/
def loadPDVLoop : Nat → ReadStream → Nat → Nat → List PresentationDataValueItem →
    Except Error (List PresentationDataValueItem × ReadStream × Nat)
  | 0, _, _, _, _ => .error .outOfFuel
  | fuel + 1, stream, length, bytesRead, pdvs =>
    if bytesRead < length then
      match stream.readUInt32 with
      | .error e => .error e
      | .ok (plength, s1) =>
        match PresentationDataValueItem.readBytes s1 plength with
        | .error e => .error e
        | .ok (pdv, s2) => loadPDVLoop fuel s2 length (bytesRead + (plength + 4)) (pdvs ++ [pdv])
    else .ok (pdvs, stream, bytesRead)

/-- `PDU.prototype.loadPDV(stream, length)`: `none` is the source's `false` (stream at
its end), otherwise the list `pdvs`. The stream after the call is returned too. -/
def loadPDV (fuel : Nat) (stream : ReadStream) (length : Nat) :
    Except Error (Option (List PresentationDataValueItem) × ReadStream) :=
  if stream.isEnd then .ok (none, stream)
  else
    match loadPDVLoop fuel stream length 0 [] with
    | .error e => .error e
    | .ok (pdvs, s, _) => .ok (some pdvs, s)

/-- `PDataTF.prototype.readBytes(stream, length)`: the value it stores in
`presentationDataValueItems` (`items ? items : []`), and the stream afterwards. -/
def PDataTF.readBytes (fuel : Nat) (stream : ReadStream) (length : Nat) :
    Except Error (List PresentationDataValueItem × ReadStream) :=
  match loadPDV fuel stream length with
  | .error e => .error e
  | .ok (none, s) => .ok ([], s)
  | .ok (some pdvs, s) => .ok (pdvs, s)

/-! ## Reassembly: `mergePDVs` -/

/-- The inner loop of `mergePDVs`,
`while (!pdvs[j++].isLast && j < count) pdvs[i].messageStream.concat(pdvs[j].messageStream)`.
`acc` is the message stream of `pdvs[i]`, the only part of the array that the loop
changes; the result is this stream and `j` after the loop. Reading a property of an
element that is not there raises a type error. -/
def mergeInner : Nat → List PresentationDataValueItem → ReadStream → Nat →
    Except Error (ReadStream × Nat)
  | 0, _, _, _ => .error .outOfFuel
  | fuel + 1, pdvs, acc, j =>
    match pdvs[j]? with
    | none => .error .typeError
    | some p =>
      if p.isLast = 0 ∧ j + 1 < pdvs.length then
        match pdvs[j + 1]? with
        | none => .error .typeError
        | some q => mergeInner fuel pdvs (acc.concat q.messageStream) (j + 1)
      else .ok (acc, j + 1)

/-- The outer loop `while (i < count) { ... }` of `mergePDVs`; `fuel` bounds the
iterations of this loop and of each run of the inner loop. -/
def mergeOuter : Nat → List PresentationDataValueItem → Nat →
    List PresentationDataValueItem →
    Except Error (List PresentationDataValueItem)
  | 0, _, _, _ => .error .outOfFuel
  | fuel + 1, pdvs, i, merges =>
    if i < pdvs.length then
      match pdvs[i]? with
      | none => .error .typeError
      | some p =>
        if p.isLast = 0 then
          match mergeInner (fuel + 1) pdvs p.messageStream i with
          | .error e => .error e
          | .ok (acc, j) => mergeOuter fuel pdvs j (merges ++ [{ p with messageStream := acc }])
        else mergeOuter fuel pdvs (i + 1) (merges ++ [p])
    else .ok merges

/-- `mergePDVs(pdvs)`. -/
def mergePDVs (fuel : Nat) (pdvs : List PresentationDataValueItem) :
    Except Error (List PresentationDataValueItem) :=
  mergeOuter fuel pdvs 0 []

/-! ## Fragmentation: the slice descriptors of `PDU.generatePDatas` -/

/-- One entry `{ start, length, isLast, index }` of the `slices` array of
`PDU.generatePDatas`. -/
structure Slice where
  start : Nat
  length : Nat
  isLast : Bool
  index : Nat
deriving DecidableEq, Repr

/-- The loop `while (start < total) { ... }` of `PDU.generatePDatas` (lines 193-207).
`maxSize` is the value after `maxSize -= 6`. The slices are returned in the order in
which the source pushes them. `fuel` bounds the number of iterations: the result is
`none` when the loop has not finished after `fuel` iterations. -/
def slicesLoop : Nat → Nat → Nat → Nat → Nat → Option (List Slice)
  | 0, _, _, _, _ => none
  | fuel + 1, maxSize, total, start, index =>
    if start < total then
      let sliceLength := if total - start < maxSize then total - start else maxSize
      let isLast := if total - start < maxSize then true else false
      match slicesLoop fuel maxSize total (start + sliceLength) (index + 1) with
      | none => none
      | some rest =>
        some ({ start := start, length := sliceLength, isLast := isLast, index := index } :: rest)
    else some []

/-- Lines 188-207 of `PDU.generatePDatas`: `start = metaLength + 144`, `index = 0`,
`maxSize -= 6`, then the loop. For `maxSize ≤ 6` the source subtracts below or to zero
and its loop never ends when there is a byte to split; truncated subtraction keeps
this (the loop makes no progress with slice length `0`). -/
def generateSlices (fuel total metaLength maxSize : Nat) : Option (List Slice) :=
  slicesLoop fuel (maxSize - 6) total (metaLength + 144) 0

/-- Node's `buffer.slice(start, end)` for non-negative indices: the bytes from `start`
up to, not including, `end`, both clamped to the length of the buffer. -/
def Buffer.slice (buffer : List Nat) (start stop : Nat) : List Nat :=
  (buffer.take stop).drop start

/-- What `PDU.generatePDatas` emits on its handler. -/
inductive Event where
  | pdv (p : RawDataPDV)
  | finished
deriving DecidableEq, Repr

/-- The loop `for (let i = 0; i < slices.length; i++)` of the buffer branch of
`PDU.generatePDatas` (lines 242-253): a `pdv` event per slice, and `end` after the
last one. -/
def emitSlices (context : Nat) (bufferOrFile : List Nat) : List Slice → List Event
  | [] => []
  | toSlice :: rest =>
    let buffer := Buffer.slice bufferOrFile toSlice.start toSlice.length
    let pdv := RawDataPDV.new context buffer 0 toSlice.length toSlice.isLast
    Event.pdv pdv ::
      (if rest.isEmpty then [Event.finished] else emitSlices context bufferOrFile rest)

/-- `PDU.generatePDatas(context, bufferOrFile, maxSize, length, metaLength)` for a
`Buffer`: `total = length ? length : bufferOrFile.length`, the slice loop, then the
events. `none`: the slice loop did not finish within `fuel` iterations. -/
def generatePDatas (fuel context : Nat) (bufferOrFile : List Nat)
    (maxSize length metaLength : Nat) : Option (List Event) :=
  let total := if length ≠ 0 then length else bufferOrFile.length
  match generateSlices fuel total metaLength maxSize with
  | none => none
  | some slices => some (emitSlices context bufferOrFile slices)

/-- The PDVs among the events, in the order of emission. -/
def emittedPDVs : List Event → List RawDataPDV
  | [] => []
  | Event.pdv p :: rest => p :: emittedPDVs rest
  | Event.finished :: rest => emittedPDVs rest

/-- The round trip through fragmentation and reassembly: the PDVs that
`generatePDatas` emits for a buffer are encoded one after the other as the payload of a
P-DATA-TF, decoded with `PDataTF.prototype.readBytes` (that is `loadPDV`) for the
declared length `totalLength()`, and merged with `mergePDVs`. -/
def splitEncodeDecodeMerge (fuel context : Nat) (bufferOrFile : List Nat)
    (maxSize length metaLength : Nat) : Except Error (List PresentationDataValueItem) :=
  match generatePDatas fuel context bufferOrFile maxSize length metaLength with
  | none => .error .outOfFuel
  | some events =>
    let items := (emittedPDVs events).map RawDataPDV.getFields
    match writeList items with
    | .error e => .error e
    | .ok payload =>
      match PDataTF.totalLength items with
      | .error e => .error e
      | .ok declared =>
        match PDataTF.readBytes fuel { rawBuffer := payload, offset := 0 } declared with
        | .error e => .error e
        | .ok (pdvs, _) => mergePDVs fuel pdvs

/-! ## Presentation contexts and `allAccepted` -/

/-- The fields that `PresentationContextItem` and `PresentationContextItemAC` objects
hold for `accepted()`: `resultReason` is `undefined` (`none`) until `setResultReason`
is called, which only the accept variant's `readBytes` does. -/
structure PresentationContextItem where
  type : Nat
  presentationContextID : Nat
  resultReason : Option Nat
deriving DecidableEq, Repr

/-- `PresentationContextItem.prototype.accepted`: `this.resultReason == 0`
(`undefined == 0` is false). -/
def PresentationContextItem.accepted (item : PresentationContextItem) : Bool :=
  match item.resultReason with
  | some r => r == 0
  | none => false

/-- The fields of an `AssociateRQ` (and of an `AssociateAC`, which inherits from it)
that `allAccepted` concerns: the tag, the protocol version, the two titles and the
list of presentation contexts. -/
structure AssociateRQ where
  type : Nat
  protocolVersion : Nat
  calledAETitle : List Nat
  callingAETitle : List Nat
  presentationContextItems : List PresentationContextItem
deriving DecidableEq, Repr

/-- The loop `for (const i in this.presentationContextItems)` of
`AssociateRQ.prototype.allAccepted`: it returns `false` at the first item that is not
accepted, and `true` after the loop. -/
def allAcceptedLoop : List PresentationContextItem → Bool
  | [] => true
  | item :: rest => if !item.accepted then false else allAcceptedLoop rest

/-- `AssociateRQ.prototype.allAccepted`. -/
def AssociateRQ.allAccepted (pdu : AssociateRQ) : Bool :=
  allAcceptedLoop pdu.presentationContextItems

/-- The slice that iteration `i` of the loop pushes, when the loop is entered with
`start` and `index`. -/
def sliceAt (maxSize total start index i : Nat) : Slice :=
  { start := start + i * maxSize
    length := if total - (start + i * maxSize) < maxSize then total - (start + i * maxSize)
              else maxSize
    isLast := if total - (start + i * maxSize) < maxSize then true else false
    index := index + i }

/-! ## Auxiliary definitions for the statements about `mergePDVs` -/

/-- The message stream of the first fragment after the streams of `ps` have been
appended to it one after the other. -/
def concatStreams (acc : ReadStream) (ps : List PresentationDataValueItem) : ReadStream :=
  ps.foldl (fun a p => a.concat p.messageStream) acc

/-- A run: a first PDV and the PDVs after it, which are non-final fragments followed by
one final fragment. -/
def ValidRun (r : PresentationDataValueItem × List PresentationDataValueItem) : Prop :=
  ∃ pre fin, r.1 :: r.2 = pre ++ [fin] ∧ (∀ p ∈ pre, p.isLast = 0) ∧ fin.isLast ≠ 0

/-- The entry that `mergePDVs` pushes for a run: the first PDV of the run, its message
stream having received the streams of the PDVs after it. -/
def entryOf (r : PresentationDataValueItem × List PresentationDataValueItem) :
    PresentationDataValueItem :=
  { r.1 with messageStream := concatStreams r.1.messageStream r.2 }

/-- The PDV sequence made of the runs `rs`, one after the other. -/
def unruns (rs : List (PresentationDataValueItem × List PresentationDataValueItem)) :
    List PresentationDataValueItem :=
  (rs.map (fun r => r.1 :: r.2)).flatten

/-- The entry that `mergePDVs` pushes for the fragments left after the last final
fragment, when there are any. -/
def tailEntry : List PresentationDataValueItem → List PresentationDataValueItem
  | [] => []
  | t :: ts => [entryOf (t, ts)]

/-- The entry that stands for a run in the result of a merge: the first PDV of the
run, with a message stream that holds the data regions of all the fragments of the run,
in arrival order. -/
def mergedEntry (r : PresentationDataValueItem × List PresentationDataValueItem) :
    PresentationDataValueItem :=
  { r.1 with
    messageStream :=
      { rawBuffer := ((r.1 :: r.2).map (fun p => p.messageStream.rawBuffer)).flatten
        offset := r.1.messageStream.offset } }

/-- A sequence of five received PDVs: two non-final fragments and their final one,
then a message of one final fragment, then a message of one fragment with header 6. -/
def examplePDVs : List PresentationDataValueItem :=
  [{ type := .data, isLast := 0, contextId := 1, messageStream := ⟨[1, 2], 0⟩ },
   { type := .data, isLast := 0, contextId := 1, messageStream := ⟨[3], 0⟩ },
   { type := .data, isLast := 1, contextId := 1, messageStream := ⟨[4], 0⟩ },
   { type := .command, isLast := 1, contextId := 3, messageStream := ⟨[5], 0⟩ },
   { type := .data, isLast := 3, contextId := 1, messageStream := ⟨[6, 7], 0⟩ }]

/-! ## The byte cursor, continued -/

/-- Modelled from the spec: `stream.increment(n)`, the "relative position advance
(including negative)" of the cursor. -/
def ReadStream.increment (s : ReadStream) (n : Int) : ReadStream :=
  { s with offset := ((s.offset : Int) + n).toNat }

/-- Modelled from the spec: `stream.read(C.TYPE_HEX, 1)`, the next byte, read as a tag
(the source compares it with the tag constants and takes `parseInt(..., 16)` of it). -/
def ReadStream.readHex (s : ReadStream) : Except Error (Nat × ReadStream) :=
  s.readUInt8

/-- Modelled from the spec: `stream.read(C.TYPE_UINT16)`, big-endian. -/
def ReadStream.readUInt16 (s : ReadStream) : Except Error (Nat × ReadStream) :=
  if s.offset + 2 ≤ s.rawBuffer.length then
    .ok (beValue ((s.rawBuffer.drop s.offset).take 2), { s with offset := s.offset + 2 })
  else .error .rangeError

/-- Modelled from the spec: `stream.read(C.TYPE_ASCII, length)`, the next `length`
bytes as a string (a list of character codes); reading past the end of the data
raises a range error. -/
def ReadStream.readAscii (s : ReadStream) (length : Nat) :
    Except Error (List Nat × ReadStream) :=
  if s.offset + length ≤ s.rawBuffer.length then
    .ok ((s.rawBuffer.drop s.offset).take length, { s with offset := s.offset + length })
  else .error .rangeError

/-! ## Tags (`constants.js`) and more primitive fields -/

/-- The tag `C.ITEM_TYPE_PDU_ASSOCIATE_RQ` (`0x01`, from the tag table of the spec). -/
def ITEM_TYPE_PDU_ASSOCIATE_RQ : Nat := 0x01

/-- The tag `C.ITEM_TYPE_PDU_ASSOCIATE_AC` (`0x02`, from the tag table of the spec). -/
def ITEM_TYPE_PDU_ASSOCIATE_AC : Nat := 0x02

/-- Modelled from the spec: the tag `C.ITEM_TYPE_PDU_RELEASE_RQ`. The spec has it as a
constant that is "absent from both the decode dispatch table and the human-readable
tag-name table" and gives no value; `0x05` is the A-RELEASE-RQ type of the protocol. -/
def ITEM_TYPE_PDU_RELEASE_RQ : Nat := 0x05

/-- The tag `C.ITEM_TYPE_PDU_RELEASE_RP` (`0x06`, from the tag table of the spec). -/
def ITEM_TYPE_PDU_RELEASE_RP : Nat := 0x06

/-- The tag `C.ITEM_TYPE_PDU_AABORT` (`0x07`, from the tag table of the spec). -/
def ITEM_TYPE_PDU_AABORT : Nat := 0x07

/-- The tag `C.ITEM_TYPE_APPLICATION_CONTEXT` (`0x10`, from the tag table of the spec). -/
def ITEM_TYPE_APPLICATION_CONTEXT : Nat := 0x10

/-- The tag `C.ITEM_TYPE_PRESENTATION_CONTEXT` (`0x20`, from the tag table of the
spec). -/
def ITEM_TYPE_PRESENTATION_CONTEXT : Nat := 0x20

/-- The tag `C.ITEM_TYPE_PRESENTATION_CONTEXT_AC` (`0x21`, from the tag table of the
spec). -/
def ITEM_TYPE_PRESENTATION_CONTEXT_AC : Nat := 0x21

/-- The tag `C.ITEM_TYPE_ABSTRACT_CONTEXT` (`0x30`, from the tag table of the spec). -/
def ITEM_TYPE_ABSTRACT_CONTEXT : Nat := 0x30

/-- The tag `C.ITEM_TYPE_TRANSFER_CONTEXT` (`0x40`, from the tag table of the spec). -/
def ITEM_TYPE_TRANSFER_CONTEXT : Nat := 0x40

/-- The tag `C.ITEM_TYPE_IMPLEMENTATION_UID` (`0x52`, from the tag table of the spec). -/
def ITEM_TYPE_IMPLEMENTATION_UID : Nat := 0x52

/-- The tag `C.ITEM_TYPE_IMPLEMENTATION_VERSION` (`0x55`, from the tag table of the
spec). -/
def ITEM_TYPE_IMPLEMENTATION_VERSION : Nat := 0x55

/-- Modelled from the spec: `StringField(value)`, a "variable-length ASCII string": the
characters of the string, one byte each. -/
def StringField (value : List Nat) : Field := .prim value.length value

/-- Modelled from the spec: `FilledField(value, length)`, a "fixed-width blank-padded
string": it reports `length` and writes the string followed by blanks up to `length`
bytes. -/
def FilledField (value : List Nat) (length : Nat) : Field :=
  .prim length (value ++ List.replicate (length - value.length) 0x20)

/-! ## Objects -/

/-- A value that `PDU.createByStream` returns or that a field of a PDU or item holds:
`null` (also standing for a field that was never set), or an object of one of the
classes of `PDU.js`, with the fields that its constructor, setters and `readBytes`
assign. For the two association PDUs `type` is a field of its own: the constructors
set it to the request tag and `readBytes` assigns it; for every other class it is the
constant that the constructor sets. A title is `none` until its setter is called. -/
inductive PDUObject where
  | null : PDUObject
  | AssociateRQ (type protocolVersion : Nat) (calledAETitle callingAETitle : Option (List Nat))
      (applicationContextItem : PDUObject) (presentationContextItems : List PDUObject)
      (userInformationItem : PDUObject) : PDUObject
  | AssociateAC (type protocolVersion : Nat) (calledAETitle callingAETitle : Option (List Nat))
      (applicationContextItem : PDUObject) (presentationContextItems : List PDUObject)
      (userInformationItem : PDUObject) : PDUObject
  | AssociateAbort (source reason : Nat) : PDUObject
  | ReleaseRQ : PDUObject
  | ReleaseRP : PDUObject
  | PDataTF (presentationDataValueItems : List PresentationDataValueItem) : PDUObject
  | ApplicationContextItem (applicationContextName : List Nat) : PDUObject
  | PresentationContextItem (presentationContextID : Nat) (resultReason : Option Nat)
      (abstractSyntaxItem : PDUObject) (transferSyntaxesItems : List PDUObject) : PDUObject
  | PresentationContextItemAC (presentationContextID : Nat) (resultReason : Option Nat)
      (abstractSyntaxItem : PDUObject) (transferSyntaxesItems : List PDUObject) : PDUObject
  | AbstractSyntaxItem (abstractSyntaxName : List Nat) : PDUObject
  | TransferSyntaxItem (transferSyntaxName : List Nat) : PDUObject
  | UserInformationItem (userDataItems : List PDUObject) : PDUObject
  | ImplementationClassUIDItem (implementationClassUID : List Nat) : PDUObject
  | ImplementationVersionNameItem (implementationVersionName : List Nat) : PDUObject
  | MaximumLengthItem (maximumLengthReceived : Nat) : PDUObject
deriving Repr

/-- Whether the value is `null`. -/
def PDUObject.isNull : PDUObject → Bool
  | .null => true
  | _ => false

/-- The property `type` of an object (`none` for `null`, which has no properties). -/
def PDUObject.type : PDUObject → Option Nat
  | .null => none
  | .AssociateRQ type _ _ _ _ _ _ => some type
  | .AssociateAC type _ _ _ _ _ _ => some type
  | .AssociateAbort _ _ => some ITEM_TYPE_PDU_AABORT
  | .ReleaseRQ => some ITEM_TYPE_PDU_RELEASE_RQ
  | .ReleaseRP => some ITEM_TYPE_PDU_RELEASE_RP
  | .PDataTF _ => some ITEM_TYPE_PDU_PDATA
  | .ApplicationContextItem _ => some ITEM_TYPE_APPLICATION_CONTEXT
  | .PresentationContextItem _ _ _ _ => some ITEM_TYPE_PRESENTATION_CONTEXT
  | .PresentationContextItemAC _ _ _ _ => some ITEM_TYPE_PRESENTATION_CONTEXT_AC
  | .AbstractSyntaxItem _ => some ITEM_TYPE_ABSTRACT_CONTEXT
  | .TransferSyntaxItem _ => some ITEM_TYPE_TRANSFER_CONTEXT
  | .UserInformationItem _ => some ITEM_TYPE_USER_INFORMATION
  | .ImplementationClassUIDItem _ => some ITEM_TYPE_IMPLEMENTATION_UID
  | .ImplementationVersionNameItem _ => some ITEM_TYPE_IMPLEMENTATION_VERSION
  | .MaximumLengthItem _ => some ITEM_TYPE_MAXIMUM_LENGTH

/-- Whether the object is of a class that inherits from `Item`. -/
def PDUObject.isItem : PDUObject → Bool
  | .ApplicationContextItem _ => true
  | .PresentationContextItem _ _ _ _ => true
  | .PresentationContextItemAC _ _ _ _ => true
  | .AbstractSyntaxItem _ => true
  | .TransferSyntaxItem _ => true
  | .UserInformationItem _ => true
  | .ImplementationClassUIDItem _ => true
  | .ImplementationVersionNameItem _ => true
  | .MaximumLengthItem _ => true
  | _ => false

/-- The object after `new AssociateRQ()` and its six setters. -/
def AssociateRQ.build (protocolVersion : Nat) (calledAETitle callingAETitle : List Nat)
    (applicationContextItem : PDUObject) (presentationContextItems : List PDUObject)
    (userInformationItem : PDUObject) : PDUObject :=
  .AssociateRQ ITEM_TYPE_PDU_ASSOCIATE_RQ protocolVersion (some calledAETitle)
    (some callingAETitle) applicationContextItem presentationContextItems userInformationItem

/-- The object after `new AssociateAC()` and the six setters that it inherits. The
constructor is `AssociateRQ.call(this)`, which sets `this.type` to
`C.ITEM_TYPE_PDU_ASSOCIATE_RQ`; no setter assigns `type`. -/
def AssociateAC.build (protocolVersion : Nat) (calledAETitle callingAETitle : List Nat)
    (applicationContextItem : PDUObject) (presentationContextItems : List PDUObject)
    (userInformationItem : PDUObject) : PDUObject :=
  .AssociateAC ITEM_TYPE_PDU_ASSOCIATE_RQ protocolVersion (some calledAETitle)
    (some callingAETitle) applicationContextItem presentationContextItems userInformationItem

/-! ## Encoding of objects -/

/-- `PresentationDataValueItem.prototype.getFields` of a PDV after `readBytes`:
`this.dataFragment` is still `null`, and `this.dataFragment.type` raises a type
error. -/
def PresentationDataValueItem.getFields (_p : PresentationDataValueItem) : Except Error Field :=
  .error .typeError

/-- The title that `AssociateRQ.prototype.getFields` hands to `FilledField`; a title
that was never set is `undefined`, for which the embedding raises a type error (what
`FilledField` does with it cannot be told from the sources at hand). -/
def titleField : Option (List Nat) → Except Error Field
  | none => .error .typeError
  | some title => .ok (FilledField title 16)

mutual
/-- The node that an object stands for as a member of a `fields` array: its `type`,
its `lengthBytes` and the payload fields of its `getFields` method. Reading
`getFields` of `null` raises a type error. -/
def PDUObject.getFields : PDUObject → Except Error Field
  | .null => .error .typeError
  | .AssociateRQ type protocolVersion calledAETitle callingAETitle applicationContextItem
      presentationContextItems userInformationItem => do
    let called ← titleField calledAETitle
    let calling ← titleField callingAETitle
    let app ← PDUObject.getFields applicationContextItem
    let contexts ← getFieldsList presentationContextItems
    let user ← PDUObject.getFields userInformationItem
    return .node (some type) PDU.lengthBytes
      ([UInt16Field protocolVersion, ReservedField 2, called, calling, ReservedField 32, app]
        ++ contexts ++ [user])
  | .AssociateAC type protocolVersion calledAETitle callingAETitle applicationContextItem
      presentationContextItems userInformationItem => do
    let called ← titleField calledAETitle
    let calling ← titleField callingAETitle
    let app ← PDUObject.getFields applicationContextItem
    let contexts ← getFieldsList presentationContextItems
    let user ← PDUObject.getFields userInformationItem
    return .node (some type) PDU.lengthBytes
      ([UInt16Field protocolVersion, ReservedField 2, called, calling, ReservedField 32, app]
        ++ contexts ++ [user])
  | .AssociateAbort source reason =>
    .ok (.node (some ITEM_TYPE_PDU_AABORT) PDU.lengthBytes
      [ReservedField 1, ReservedField 1, UInt8Field source, UInt8Field reason])
  | .ReleaseRQ => .ok (.node (some ITEM_TYPE_PDU_RELEASE_RQ) PDU.lengthBytes [ReservedField 4])
  | .ReleaseRP => .ok (.node (some ITEM_TYPE_PDU_RELEASE_RP) PDU.lengthBytes [ReservedField 4])
  | .PDataTF presentationDataValueItems => do
    let items ← presentationDataValueItems.mapM PresentationDataValueItem.getFields
    return PDataTF.getFields items
  | .ApplicationContextItem applicationContextName =>
    .ok (.node (some ITEM_TYPE_APPLICATION_CONTEXT) Item.lengthBytes
      [StringField applicationContextName])
  | .PresentationContextItem presentationContextID _ abstractSyntaxItem
      transferSyntaxesItems => do
    let abstract ← PDUObject.getFields abstractSyntaxItem
    let transfers ← getFieldsList transferSyntaxesItems
    return .node (some ITEM_TYPE_PRESENTATION_CONTEXT) Item.lengthBytes
      ([UInt8Field presentationContextID, ReservedField 1, ReservedField 1, ReservedField 1,
        abstract] ++ transfers)
  | .PresentationContextItemAC presentationContextID _ abstractSyntaxItem
      transferSyntaxesItems => do
    let abstract ← PDUObject.getFields abstractSyntaxItem
    let transfers ← getFieldsList transferSyntaxesItems
    return .node (some ITEM_TYPE_PRESENTATION_CONTEXT_AC) Item.lengthBytes
      ([UInt8Field presentationContextID, ReservedField 1, ReservedField 1, ReservedField 1,
        abstract] ++ transfers)
  | .AbstractSyntaxItem abstractSyntaxName =>
    .ok (.node (some ITEM_TYPE_ABSTRACT_CONTEXT) Item.lengthBytes
      [StringField abstractSyntaxName])
  | .TransferSyntaxItem transferSyntaxName =>
    .ok (.node (some ITEM_TYPE_TRANSFER_CONTEXT) Item.lengthBytes
      [StringField transferSyntaxName])
  | .UserInformationItem userDataItems => do
    let items ← getFieldsList userDataItems
    return UserInformationItem.getFields items
  | .ImplementationClassUIDItem implementationClassUID =>
    .ok (.node (some ITEM_TYPE_IMPLEMENTATION_UID) Item.lengthBytes
      [StringField implementationClassUID])
  | .ImplementationVersionNameItem implementationVersionName =>
    .ok (.node (some ITEM_TYPE_IMPLEMENTATION_VERSION) Item.lengthBytes
      [StringField implementationVersionName])
  | .MaximumLengthItem maximumLengthReceived =>
    .ok (MaximumLengthItem.getFields maximumLengthReceived)
/-- The nodes of the objects of a list. -/
def getFieldsList : List PDUObject → Except Error (List Field)
  | [] => .ok []
  | o :: os => do
    let f ← PDUObject.getFields o
    let fs ← getFieldsList os
    return f :: fs
end

/-- `buffer()` of an object: the bytes of `this.stream()`. -/
def PDUObject.buffer (o : PDUObject) : Except Error (List Nat) := do
  let node ← PDUObject.getFields o
  Field.write node

/-! ## Decoding: `PDU.createByStream` -/

/-- `nextItemIs(stream, pduType)`: at the end of the data `false`; otherwise one tag
byte is read, the cursor is moved back by one, and the tag read is compared with
`pduType`. -/
def nextItemIs (stream : ReadStream) (pduType : Nat) : Except Error (Bool × ReadStream) :=
  if stream.isEnd then .ok (false, stream)
  else do
    let (nextType, s1) ← stream.readHex
    let s2 := s1.increment (-1)
    return (decide (pduType = nextType), s2)

/-- The loop `do { items.push(this.load(stream)); } while (nextItemIs(stream, pduType))`
of the `readBytes` methods; `load` is `this.load`, that is `PDU.createByStream`. -/
def loadWhile (load : ReadStream → Except Error (PDUObject × ReadStream)) (pduType : Nat) :
    Nat → ReadStream → List PDUObject → Except Error (List PDUObject × ReadStream)
  | 0, _, _ => .error .outOfFuel
  | fuel + 1, stream, items => do
    let (item, s1) ← load stream
    let (again, s2) ← nextItemIs s1 pduType
    if again then loadWhile load pduType fuel s2 (items ++ [item])
    else return (items ++ [item], s2)

/-- `AssociateRQ.prototype.readBytes`. -/
def AssociateRQ.readBytes (load : ReadStream → Except Error (PDUObject × ReadStream))
    (fuel : Nat) (stream : ReadStream) (_length : Nat) :
    Except Error (PDUObject × ReadStream) := do
  let (version, s1) ← stream.readUInt16
  let s2 := s1.increment 2
  let (calledAE, s3) ← s2.readAscii 16
  let (callingAE, s4) ← s3.readAscii 16
  let s5 := s4.increment 32
  let (appContext, s6) ← load s5
  let (presContexts, s7) ← loadWhile load ITEM_TYPE_PRESENTATION_CONTEXT fuel s6 []
  let (userItem, s8) ← load s7
  return (.AssociateRQ ITEM_TYPE_PDU_ASSOCIATE_RQ version (some calledAE) (some callingAE)
    appContext presContexts userItem, s8)

/-- `AssociateAC.prototype.readBytes`; the titles are not assigned. -/
def AssociateAC.readBytes (load : ReadStream → Except Error (PDUObject × ReadStream))
    (fuel : Nat) (stream : ReadStream) (_length : Nat) :
    Except Error (PDUObject × ReadStream) := do
  let (version, s1) ← stream.readUInt16
  let s2 := s1.increment 66
  let (appContext, s3) ← load s2
  let (presContexts, s4) ← loadWhile load ITEM_TYPE_PRESENTATION_CONTEXT_AC fuel s3 []
  let (userItem, s5) ← load s4
  return (.AssociateAC ITEM_TYPE_PDU_ASSOCIATE_AC version none none
    appContext presContexts userItem, s5)

/-- `AssociateAbort.prototype.readBytes`. -/
def AssociateAbort.readBytes (stream : ReadStream) (_length : Nat) :
    Except Error (PDUObject × ReadStream) := do
  let s1 := stream.increment 2
  let (source, s2) ← s1.readUInt8
  let (reason, s3) ← s2.readUInt8
  return (.AssociateAbort source reason, s3)

/-- `ReleaseRP.prototype.readBytes`. -/
def ReleaseRP.readBytes (stream : ReadStream) (_length : Nat) :
    Except Error (PDUObject × ReadStream) :=
  .ok (.ReleaseRP, stream.increment 4)

/-- `PDataTF.prototype.readBytes`, giving the object. -/
def PDataTF.readObject (fuel : Nat) (stream : ReadStream) (length : Nat) :
    Except Error (PDUObject × ReadStream) := do
  let (pdvs, s1) ← PDataTF.readBytes fuel stream length
  return (.PDataTF pdvs, s1)

/-- `ApplicationContextItem.prototype.readBytes`. -/
def ApplicationContextItem.readBytes (stream : ReadStream) (length : Nat) :
    Except Error (PDUObject × ReadStream) := do
  let (appContext, s1) ← stream.readAscii length
  return (.ApplicationContextItem appContext, s1)

/-- `PresentationContextItem.prototype.readBytes`. -/
def PresentationContextItem.readBytes
    (load : ReadStream → Except Error (PDUObject × ReadStream))
    (fuel : Nat) (stream : ReadStream) (_length : Nat) :
    Except Error (PDUObject × ReadStream) := do
  let (contextId, s1) ← stream.readUInt8
  let s2 := ((s1.increment 1).increment 1).increment 1
  let (abstractItem, s3) ← load s2
  let (transContexts, s4) ← loadWhile load ITEM_TYPE_TRANSFER_CONTEXT fuel s3 []
  return (.PresentationContextItem contextId none abstractItem transContexts, s4)

/-- `PresentationContextItemAC.prototype.readBytes`; the abstract syntax item is not
assigned. -/
def PresentationContextItemAC.readBytes
    (load : ReadStream → Except Error (PDUObject × ReadStream))
    (stream : ReadStream) (_length : Nat) :
    Except Error (PDUObject × ReadStream) := do
  let (contextId, s1) ← stream.readUInt8
  let s2 := s1.increment 1
  let (resultReason, s3) ← s2.readUInt8
  let s4 := s3.increment 1
  let (transItem, s5) ← load s4
  return (.PresentationContextItemAC contextId (some resultReason) .null [transItem], s5)

/-- `AbstractSyntaxItem.prototype.readBytes`. -/
def AbstractSyntaxItem.readBytes (stream : ReadStream) (length : Nat) :
    Except Error (PDUObject × ReadStream) := do
  let (name, s1) ← stream.readAscii length
  return (.AbstractSyntaxItem name, s1)

/-- `TransferSyntaxItem.prototype.readBytes`. -/
def TransferSyntaxItem.readBytes (stream : ReadStream) (length : Nat) :
    Except Error (PDUObject × ReadStream) := do
  let (transfer, s1) ← stream.readAscii length
  return (.TransferSyntaxItem transfer, s1)

/-- The loop `do { items.push(pdu); } while (pdu === this.load(stream))` of
`UserInformationItem.prototype.readBytes`. `this.load` returns `null` or an object
that it has just made, so `pdu === this.load(stream)` holds exactly when both are
`null`. -/
def UserInformationItem.pushLoop (load : ReadStream → Except Error (PDUObject × ReadStream))
    (pdu : PDUObject) : Nat → ReadStream → List PDUObject →
    Except Error (List PDUObject × ReadStream)
  | 0, _, _ => .error .outOfFuel
  | fuel + 1, stream, items => do
    let (next, s1) ← load stream
    if pdu.isNull && next.isNull then
      UserInformationItem.pushLoop load pdu fuel s1 (items ++ [pdu])
    else return (items ++ [pdu], s1)

/-- `UserInformationItem.prototype.readBytes`. -/
def UserInformationItem.readBytes (load : ReadStream → Except Error (PDUObject × ReadStream))
    (fuel : Nat) (stream : ReadStream) (_length : Nat) :
    Except Error (PDUObject × ReadStream) := do
  let (pdu, s1) ← load stream
  let (items, s2) ← UserInformationItem.pushLoop load pdu fuel s1 []
  return (.UserInformationItem items, s2)

/-- `ImplementationClassUIDItem.prototype.readBytes`. -/
def ImplementationClassUIDItem.readBytes (stream : ReadStream) (length : Nat) :
    Except Error (PDUObject × ReadStream) := do
  let (uid, s1) ← stream.readAscii length
  return (.ImplementationClassUIDItem uid, s1)

/-- `ImplementationVersionNameItem.prototype.readBytes`. -/
def ImplementationVersionNameItem.readBytes (stream : ReadStream) (length : Nat) :
    Except Error (PDUObject × ReadStream) := do
  let (name, s1) ← stream.readAscii length
  return (.ImplementationVersionNameItem name, s1)

/-- `MaximumLengthItem.prototype.readBytes`. -/
def MaximumLengthItem.readBytes (stream : ReadStream) (_length : Nat) :
    Except Error (PDUObject × ReadStream) := do
  let (l, s1) ← stream.readUInt32
  return (.MaximumLengthItem l, s1)

/-- `PDU.prototype.read`: the reserved byte, the 4-byte length, then `readBytes`. -/
def PDU.read (readBytes : ReadStream → Nat → Except Error (PDUObject × ReadStream))
    (stream : ReadStream) : Except Error (PDUObject × ReadStream) := do
  let (_, s1) ← stream.readHex
  let (length, s2) ← s1.readUInt32
  readBytes s2 length

/-- `Item.prototype.read`: the reserved byte, the 2-byte length, then `readBytes`. -/
def Item.read (readBytes : ReadStream → Nat → Except Error (PDUObject × ReadStream))
    (stream : ReadStream) : Except Error (PDUObject × ReadStream) := do
  let (_, s1) ← stream.readHex
  let (length, s2) ← s1.readUInt16
  readBytes s2 length

/-- The classes that the `switch` of `PDU.createByStream` makes an object of. -/
inductive PDUClass where
  | AssociateRQ
  | AssociateAC
  | PDataTF
  | ReleaseRP
  | AssociateAbort
  | ApplicationContextItem
  | PresentationContextItem
  | PresentationContextItemAC
  | AbstractSyntaxItem
  | TransferSyntaxItem
  | UserInformationItem
  | MaximumLengthItem
  | ImplementationClassUIDItem
  | ImplementationVersionNameItem
deriving DecidableEq, Repr

/-- The `switch (typeNum)` of `PDU.createByStream` (lines 294-310): the class of
`new ...()` for each case, `none` for `default`. -/
def classOfType : Nat → Option PDUClass
  | 0x01 => some .AssociateRQ
  | 0x02 => some .AssociateAC
  | 0x04 => some .PDataTF
  | 0x06 => some .ReleaseRP
  | 0x07 => some .AssociateAbort
  | 0x10 => some .ApplicationContextItem
  | 0x20 => some .PresentationContextItem
  | 0x21 => some .PresentationContextItemAC
  | 0x30 => some .AbstractSyntaxItem
  | 0x40 => some .TransferSyntaxItem
  | 0x50 => some .UserInformationItem
  | 0x51 => some .MaximumLengthItem
  | 0x52 => some .ImplementationClassUIDItem
  | 0x55 => some .ImplementationVersionNameItem
  | _ => none

/-- `pdu.read(stream)` for the object `pdu` that the `switch` has made: `PDU.read` or
`Item.read` with the `readBytes` of the class. -/
def readOfClass (load : ReadStream → Except Error (PDUObject × ReadStream)) (fuel : Nat) :
    PDUClass → ReadStream → Except Error (PDUObject × ReadStream)
  | .AssociateRQ => PDU.read (AssociateRQ.readBytes load fuel)
  | .AssociateAC => PDU.read (AssociateAC.readBytes load fuel)
  | .PDataTF => PDU.read (PDataTF.readObject fuel)
  | .ReleaseRP => PDU.read ReleaseRP.readBytes
  | .AssociateAbort => PDU.read AssociateAbort.readBytes
  | .ApplicationContextItem => Item.read ApplicationContextItem.readBytes
  | .PresentationContextItem => Item.read (PresentationContextItem.readBytes load fuel)
  | .PresentationContextItemAC => Item.read (PresentationContextItemAC.readBytes load)
  | .AbstractSyntaxItem => Item.read AbstractSyntaxItem.readBytes
  | .TransferSyntaxItem => Item.read TransferSyntaxItem.readBytes
  | .UserInformationItem => Item.read (UserInformationItem.readBytes load fuel)
  | .MaximumLengthItem => Item.read MaximumLengthItem.readBytes
  | .ImplementationClassUIDItem => Item.read ImplementationClassUIDItem.readBytes
  | .ImplementationVersionNameItem => Item.read ImplementationVersionNameItem.readBytes

/-- `PDU.createByStream(stream)`: `null` at the end of the data; otherwise the tag byte
is read, the `switch` makes the object or throws, and the object reads itself. `fuel`
bounds the depth of the nested calls and the iterations of each loop. The error for an
unknown tag carries the tag and the position at which the cursor is left (the stream
keeps it when the exception is thrown). -/
def createByStream : Nat → ReadStream → Except Error (PDUObject × ReadStream)
  | 0, _ => .error .outOfFuel
  | fuel + 1, stream =>
    if stream.isEnd then .ok (.null, stream)
    else
      match stream.readHex with
      | .error e => .error e
      | .ok (typeNum, s1) =>
        match classOfType typeNum with
        | none => .error (.unrecognizedType typeNum s1.offset)
        | some c => readOfClass (createByStream fuel) fuel c s1

/-- `PDU.typeToString(type)` (lines 259-283), on the number `parseInt(type, 16)`. -/
def typeToString : Nat → Option String
  | 0x01 => some "ASSOCIATE-RQ"
  | 0x02 => some "ASSOCIATE-AC"
  | 0x04 => some "P-DATA-TF"
  | 0x06 => some "RELEASE-RP"
  | 0x07 => some "ASSOCIATE-ABORT"
  | 0x10 => some "APPLICATION-CONTEXT-ITEM"
  | 0x20 => some "PRESENTATION-CONTEXT-ITEM"
  | 0x21 => some "PRESENTATION-CONTEXT-ITEM-AC"
  | 0x30 => some "ABSTRACT-SYNTAX-ITEM"
  | 0x40 => some "TRANSFER-SYNTAX-ITEM"
  | 0x50 => some "USER-INFORMATION-ITEM"
  | 0x51 => some "MAXIMUM-LENGTH-ITEM"
  | 0x52 => some "IMPLEMENTATION-CLASS-UID-ITEM"
  | 0x55 => some "IMPLEMENTATION-VERSION-NAME-ITEM"
  | _ => none

/-! ## `getMaxSize` -/

/-- The loop of `AssociateAC.prototype.getMaxSize` over `items`: the
`maximumLengthReceived` of the first item for which `is(C.ITEM_TYPE_MAXIMUM_LENGTH)`
holds (`none`, for `undefined`, when that item has no such property), `none` (the
initial `null`) if there is no such item. Reading `is` of `null` raises a type
error. -/
def getMaxSizeLoop : List PDUObject → Except Error (Option Nat)
  | [] => .ok none
  | item :: rest =>
    match item.type with
    | none => .error .typeError
    | some t =>
      if t = ITEM_TYPE_MAXIMUM_LENGTH then
        match item with
        | .MaximumLengthItem maximumLengthReceived => .ok (some maximumLengthReceived)
        | _ => .ok none
      else getMaxSizeLoop rest

/-- `getMaxSize()` called on an object: the method exists on `AssociateAC` objects
only, and it reads `this.userInformationItem.userDataItems.length`; calling a method
that an object does not have, or reading a property of `null` or `undefined`, raises a
type error. -/
def PDUObject.getMaxSize : PDUObject → Except Error (Option Nat)
  | .AssociateAC _ _ _ _ _ _ (.UserInformationItem items) => getMaxSizeLoop items
  | _ => .error .typeError

/-! ## Encoding a P-DATA-TF, with its effect on the object -/

/-- A `PDataTF` object on the sending side: `presentationDataValueItems` is an array of
PDVs, each given by the node it stands for. -/
structure PDataTF where
  type : Nat
  presentationDataValueItems : List Field
deriving Repr

/-- The constructor `PDataTF` followed by `setPresentationDataValueItems(items)`. -/
def PDataTF.build (items : List Field) : PDataTF :=
  { type := ITEM_TYPE_PDU_PDATA, presentationDataValueItems := items }

/-- `PDU.prototype.getFields(fields)`: the length field, then the reserved field and
the tag field if `this.type !== null`, are put in front of the array `fields` with
`unshift`, and this same array is returned. -/
def PDU.getFields (type : Option Nat) (lengthBytes : Nat) (fields : List Field) :
    Except Error (List Field) := do
  let n ← PDU.length fields
  let len ← lengthField lengthBytes n
  return tagFields type ++ [len] ++ fields

/-- `PDataTF.prototype.getFields` with its effect: the array handed to
`PDU.prototype.getFields` is `this.presentationDataValueItems` itself, so the fields
put in front of it are in `presentationDataValueItems` afterwards. The result is the
array returned and the object after the call. -/
def PDataTF.getFieldsInPlace (pdu : PDataTF) : Except Error (List Field × PDataTF) := do
  let fields ← PDU.getFields (some pdu.type) PDU.lengthBytes pdu.presentationDataValueItems
  return (fields, { pdu with presentationDataValueItems := fields })

/-- `buffer()` of a `PDataTF`: `PDU.prototype.stream` writes the fields of
`this.getFields()`. The result is the bytes and the object after the call. -/
def PDataTF.buffer (pdu : PDataTF) : Except Error (List Nat × PDataTF) := do
  let (fields, after) ← PDataTF.getFieldsInPlace pdu
  let bytes ← writeList fields
  return (bytes, after)

/-! ## Auxiliary definitions for the statements about decoding -/

/-- The fourteen tags of the cases of the `switch` of `PDU.createByStream`. -/
def registeredTags : List Nat :=
  [0x01, 0x02, 0x04, 0x06, 0x07, 0x10, 0x20, 0x21, 0x30, 0x40, 0x50, 0x51, 0x52, 0x55]

/-- The character codes of a string. -/
def ascii (s : String) : List Nat := s.toList.map Char.toNat

/-- The accept PDU of the example of the spec, built with `new AssociateAC()` and the
setters: protocol version 1, the two titles, one application context, one
presentation context (ID 1, one abstract syntax, one transfer syntax) and a
User-Information item holding a Maximum-Length item of value 16384. -/
def exampleAssociateAC : PDUObject :=
  AssociateAC.build 1 (ascii "STORAGE_SCP") (ascii "STORAGE_SCU")
    (.ApplicationContextItem (ascii "1.2.840.10008.3.1.1.1"))
    [.PresentationContextItem 1 none (.AbstractSyntaxItem (ascii "1.2.840.10008.1.1"))
      [.TransferSyntaxItem (ascii "1.2.840.10008.1.2")]]
    (.UserInformationItem [.MaximumLengthItem 16384])

/-- A P-DATA-TF holding one PDV: context 1, last fragment, the bytes 10, 20, 30. -/
def examplePDataTF : PDataTF :=
  PDataTF.build [RawDataPDV.getFields (RawDataPDV.new 1 [10, 20, 30] 0 3 true)]

/-- The stream has the cursor inside its data (or at the end of it) and the bytes from
the cursor on are `bytes`. -/
def ReadStream.AtBytes (s : ReadStream) (bytes : List Nat) : Prop :=
  s.rawBuffer.drop s.offset = bytes ∧ s.offset ≤ s.rawBuffer.length

/-- The stream with the cursor moved forward by `n` bytes. -/
def ReadStream.advance (s : ReadStream) (n : Nat) : ReadStream :=
  { s with offset := s.offset + n }

/-- The byte range that a `RawDataPDV` refers to. -/
def RawDataPDV.fragment (p : RawDataPDV) : List Nat :=
  (p.dataFragmentBuffer.drop p.bufferStart).take p.bufferLength

/-- The PDV that is expected from decoding the encoding of a `RawDataPDV`: the same
context ID, `isLast` set exactly when it was, the data classification, and the byte
range as message stream. -/
def RawDataPDV.decoded (p : RawDataPDV) : PresentationDataValueItem :=
  { type := .data
    isLast := if p.isLast then 1 else 0
    contextId := p.contextId
    messageStream := { rawBuffer := p.fragment, offset := 0 } }

/-- The encoding of a `RawDataPDV` according to the wire format of the spec:
`length(4) | contextId(1) | header(1) | fragment`. -/
def RawDataPDV.wire (p : RawDataPDV) : List Nat :=
  bigEndian 4 (p.fragment.length + 2) ++ [p.contextId, if p.isLast then 2 else 0] ++ p.fragment

/-- The encoding of an item according to the wire format of the spec:
`tag(1) | reserved(1) | length(2) | payload`. -/
def itemBytes (type : Nat) (payload : List Nat) : List Nat :=
  [type, 0] ++ bigEndian 2 payload.length ++ payload

/-- The field writes `bytes` and counts for the length of `bytes` in
`PDU.prototype.length`. -/
def EncodesOne (field : Field) (bytes : List Nat) : Prop :=
  Field.write field = .ok bytes ∧ Field.length field = .ok bytes.length

/-- Each field of the list writes its bytes and counts for their length; `bytes` is
what the fields write one after the other. -/
inductive Encodes : List Field → List Nat → Prop where
  | nil : Encodes [] []
  | cons {f : Field} {fs : List Field} {a b : List Nat} :
      EncodesOne f a → Encodes fs b → Encodes (f :: fs) (a ++ b)

/-- What a presentation context of a request is made of: a context ID, the name of one
abstract syntax and the names of the transfer syntaxes. -/
structure PresentationContextData where
  presentationContextID : Nat
  abstractSyntaxName : List Nat
  transferSyntaxNames : List (List Nat)
deriving DecidableEq, Repr

/-- The object after `new PresentationContextItem()` and its setters for the context
ID, the abstract syntax item and the transfer syntax items. -/
def PresentationContextData.build (c : PresentationContextData) : PDUObject :=
  .PresentationContextItem c.presentationContextID none
    (.AbstractSyntaxItem c.abstractSyntaxName)
    (c.transferSyntaxNames.map PDUObject.TransferSyntaxItem)

/-- The encoding of a presentation context of a request according to the wire format
of the spec. -/
def PresentationContextData.wire (c : PresentationContextData) : List Nat :=
  itemBytes ITEM_TYPE_PRESENTATION_CONTEXT
    ([c.presentationContextID, 0, 0, 0] ++
      itemBytes ITEM_TYPE_ABSTRACT_CONTEXT c.abstractSyntaxName ++
      (c.transferSyntaxNames.map (itemBytes ITEM_TYPE_TRANSFER_CONTEXT)).flatten)

/-- A sub-item of a User-Information item of one of the three classes
Maximum-Length, Implementation-Class-UID and Implementation-Version-Name, with a value
that fits its field. -/
def PDUObject.isUserData : PDUObject → Bool
  | .MaximumLengthItem v => decide (v < 2 ^ 32)
  | .ImplementationClassUIDItem uid => decide (uid.length < 65536)
  | .ImplementationVersionNameItem name => decide (name.length < 65536)
  | _ => false

/-- The encoding of such a sub-item according to the wire format of the spec. -/
def userDataWire : PDUObject → List Nat
  | .MaximumLengthItem v => itemBytes ITEM_TYPE_MAXIMUM_LENGTH (bigEndian 4 v)
  | .ImplementationClassUIDItem uid => itemBytes ITEM_TYPE_IMPLEMENTATION_UID uid
  | .ImplementationVersionNameItem name => itemBytes ITEM_TYPE_IMPLEMENTATION_VERSION name
  | _ => []

/-- A title, blank-padded to 16 bytes. -/
def padTitle (title : List Nat) : List Nat :=
  title ++ List.replicate (16 - title.length) 0x20


/-- The payload of an A-ASSOCIATE-RQ according to the wire format of the spec: protocol
version, two reserved bytes, the two titles padded to 16 bytes, 32 reserved bytes, the
Application-Context item, the Presentation-Context items and the User-Information
item. -/
def AssociateRQ.payload (version : Nat) (called calling app : List Nat)
    (contexts : List PresentationContextData) (userData : List PDUObject) : List Nat :=
  bigEndian 2 version ++ ([0, 0] ++ (padTitle called ++ (padTitle calling ++
    (List.replicate 32 0 ++ (itemBytes ITEM_TYPE_APPLICATION_CONTEXT app ++
      ((contexts.map PresentationContextData.wire).flatten ++
        itemBytes ITEM_TYPE_USER_INFORMATION (userData.map userDataWire).flatten))))))

/-- The encoding of an A-ASSOCIATE-RQ according to the wire format of the spec:
`tag(1) | reserved(1) | length(4) | payload`. -/
def AssociateRQ.wire (version : Nat) (called calling app : List Nat)
    (contexts : List PresentationContextData) (userData : List PDUObject) : List Nat :=
  [ITEM_TYPE_PDU_ASSOCIATE_RQ, 0] ++
    bigEndian 4 (AssociateRQ.payload version called calling app contexts userData).length ++
    AssociateRQ.payload version called calling app contexts userData

/-! ## Auxiliary definitions for the statements about the slices -/

/-- The slices follow one another from `start` without gap or overlap, each has a
positive length, and they are numbered from `index`. -/
def Slice.Chain : Nat → Nat → List Slice → Prop
  | _, _, [] => True
  | start, index, s :: rest =>
    s.start = start ∧ s.index = index ∧ 0 < s.length ∧
      Slice.Chain (start + s.length) (index + 1) rest

/-! ## Properties of the slice computation -/

theorem slicesLoop_closed_form (maxSize total : Nat) (hm : 0 < maxSize) :
    ∀ (fuel start index : Nat), total - start < fuel →
      slicesLoop fuel maxSize total start index =
        some ((List.range ((total - start + maxSize - 1) / maxSize)).map
          (sliceAt maxSize total start index)) := by
  intro fuel
  induction fuel with
  | zero => intro start index h; omega
  | succ fuel ih =>
    intro start index hfuel
    unfold slicesLoop
    by_cases hlt : start < total
    · simp only [hlt, if_true]
      by_cases hshort : total - start < maxSize
      · -- the last, short slice
        simp only [hshort, if_true]
        have hrest : total - (start + (total - start)) < fuel := by omega
        rw [ih (start + (total - start)) (index + 1) hrest]
        have h0 : (total - (start + (total - start)) + maxSize - 1) / maxSize = 0 := by
          apply Nat.div_eq_of_lt; omega
        have h1 : (total - start + maxSize - 1) / maxSize = 1 := by
          apply Nat.div_eq_of_lt_le <;> omega
        rw [h0, h1]
        simp [sliceAt, hshort, List.range_succ]
      · simp only [hshort, if_false]
        have hrest : total - (start + maxSize) < fuel := by omega
        rw [ih (start + maxSize) (index + 1) hrest]
        have hn : (total - start + maxSize - 1) / maxSize
            = (total - (start + maxSize) + maxSize - 1) / maxSize + 1 := by
          have : total - start + maxSize - 1
              = (total - (start + maxSize) + maxSize - 1) + maxSize := by omega
          rw [this, Nat.add_div_right _ hm]
        rw [hn, List.range_succ_eq_map, List.map_cons, List.map_map]
        have hhead : sliceAt maxSize total start index 0
            = { start := start, length := maxSize, isLast := false, index := index } := by
          simp [sliceAt, hshort]
        rw [hhead]
        simp only [Option.some.injEq, List.cons.injEq, true_and]
        apply List.map_congr_left
        intro i _
        simp only [Function.comp, sliceAt, Nat.succ_eq_add_one]
        have e : start + maxSize + i * maxSize = start + (i + 1) * maxSize := by ring
        rw [e]
        congr 1
        omega
    · simp only [hlt, if_false]
      have h0 : (total - start + maxSize - 1) / maxSize = 0 := by
        apply Nat.div_eq_of_lt; omega
      rw [h0]; rfl

theorem pred_mul_add (n m : Nat) (hn : 1 ≤ n) : (n - 1) * m + m = n * m := by
  have h := Nat.succ_mul (n - 1) m
  have e : (n - 1).succ = n := by omega
  rw [e] at h
  exact h.symm

theorem ceilDiv_spec (L m : Nat) (hm : 0 < m) (hL : 0 < L) :
    1 ≤ (L + m - 1) / m ∧
      ((L + m - 1) / m - 1) * m + (if L % m = 0 then m else L % m) = L := by
  have hdm := Nat.div_add_mod L m
  have hr := Nat.mod_lt L hm
  generalize L / m = q at hdm
  generalize L % m = r at hdm hr
  have e : q * m = m * q := Nat.mul_comm _ _
  by_cases h0 : r = 0
  · have hq : 1 ≤ q := by
      rcases Nat.eq_zero_or_pos q with hz | hp
      · rw [hz, h0] at hdm; simp at hdm; omega
      · exact hp
    have hn : (L + m - 1) / m = q := by
      apply Nat.div_eq_of_lt_le
      · rw [e]; omega
      · rw [Nat.succ_mul, e]; omega
    rw [hn, if_pos h0, pred_mul_add q m hq, e]
    exact ⟨hq, by omega⟩
  · have hn : (L + m - 1) / m = q + 1 := by
      apply Nat.div_eq_of_lt_le
      · rw [Nat.succ_mul, e]; omega
      · rw [Nat.succ_mul, Nat.succ_mul, e]; omega
    rw [hn, if_neg h0, Nat.add_sub_cancel, e]
    exact ⟨by omega, hdm⟩

theorem generateSlices_eq (fuel total metaLength M : Nat) (hM : 6 < M)
    (hfuel : total - (metaLength + 144) < fuel) :
    generateSlices fuel total metaLength M =
      some ((List.range ((total - (metaLength + 144) + (M - 6) - 1) / (M - 6))).map
        (sliceAt (M - 6) total (metaLength + 144) 0)) :=
  slicesLoop_closed_form (M - 6) total (by omega) fuel (metaLength + 144) 0 hfuel

theorem allAcceptedLoop_iff (items : List PresentationContextItem) :
    allAcceptedLoop items = true ↔ ∀ item ∈ items, item.resultReason = some 0 := by
  induction items with
  | nil => simp [allAcceptedLoop]
  | cons item rest ih =>
    have hacc : item.accepted = true ↔ item.resultReason = some 0 := by
      unfold PresentationContextItem.accepted
      cases item.resultReason <;> simp
    unfold allAcceptedLoop
    by_cases h : item.accepted = true
    · simp [h, ih, hacc.mp h]
    · have h2 : item.accepted = false := by simpa using h
      have h3 : ¬ item.resultReason = some 0 := fun e => h (hacc.mpr e)
      simp [h2, h3]

/-! ## Properties of `mergePDVs` -/

theorem getElem?_append_cons_length {α : Type} (pre : List α) (x : α) (rest : List α) :
    (pre ++ x :: rest)[pre.length]? = some x := by
  induction pre with
  | nil => simp
  | cons a pre ih => simpa using ih

theorem getElem?_append_cons_succ {α : Type} (pre : List α) (x y : α) (rest : List α) :
    (pre ++ x :: y :: rest)[pre.length + 1]? = some y := by
  induction pre with
  | nil => simp
  | cons a pre ih => simpa using ih

theorem mergeInner_run (fin : PresentationDataValueItem) (post : List PresentationDataValueItem)
    (hfin : fin.isLast ≠ 0) :
    ∀ (mids pre : List PresentationDataValueItem) (cur : PresentationDataValueItem)
      (fuel : Nat) (acc : ReadStream),
      cur.isLast = 0 → (∀ p ∈ mids, p.isLast = 0) → mids.length + 1 < fuel →
      mergeInner fuel (pre ++ cur :: (mids ++ fin :: post)) acc pre.length =
        .ok (concatStreams acc (mids ++ [fin]), pre.length + mids.length + 2) := by
  intro mids
  induction mids with
  | nil =>
    intro pre cur fuel acc hcur _ hfuel
    obtain ⟨f, rfl⟩ : ∃ f, fuel = f + 2 := ⟨fuel - 2, by simp at hfuel; omega⟩
    have h0 := getElem?_append_cons_length pre cur (fin :: post)
    have h1 := getElem?_append_cons_succ pre cur fin post
    have h1b : (pre ++ cur :: fin :: post)[pre.length + 1]? = some fin := h1
    have hlen : pre.length + 1 < (pre ++ cur :: fin :: post).length := by
      simp
    simp only [List.nil_append, mergeInner, h0, h1b, hcur, hlen, and_self, if_true, hfin,
      false_and, if_false, concatStreams, List.foldl_cons, List.foldl_nil, List.length_nil,
      Nat.add_zero]
  | cons m mids ih =>
    intro pre cur fuel acc hcur hmids hfuel
    obtain ⟨f, rfl⟩ : ∃ f, fuel = f + 1 := ⟨fuel - 1, by simp at hfuel; omega⟩
    have h0 := getElem?_append_cons_length pre cur (m :: mids ++ fin :: post)
    have h1 : (pre ++ cur :: (m :: mids ++ fin :: post))[pre.length + 1]? = some m :=
      getElem?_append_cons_succ pre cur m (mids ++ fin :: post)
    have hm : m.isLast = 0 := hmids m (List.mem_cons_self _ _)
    have hrec := ih (pre ++ [cur]) m f (acc.concat m.messageStream) hm
      (fun p hp => hmids p (List.mem_cons_of_mem _ hp)) (by simp at hfuel; omega)
    have hlen : pre.length + 1 < (pre ++ cur :: (m :: mids ++ fin :: post)).length := by
      simp
    unfold mergeInner
    simp only [h0, hcur, h1, hlen, and_self, if_true]
    have e : pre ++ cur :: (m :: mids ++ fin :: post)
        = (pre ++ [cur]) ++ m :: (mids ++ fin :: post) := by
      simp
    have e2 : pre.length + 1 = (pre ++ [cur]).length := by simp
    rw [e, e2, hrec]
    simp only [concatStreams, List.cons_append, List.foldl_cons, List.length_append,
      List.length_cons, List.length_nil]
    congr 2
    omega

theorem mergeInner_tail :
    ∀ (mids pre : List PresentationDataValueItem) (cur : PresentationDataValueItem)
      (fuel : Nat) (acc : ReadStream),
      cur.isLast = 0 → (∀ p ∈ mids, p.isLast = 0) → mids.length < fuel →
      mergeInner fuel (pre ++ cur :: mids) acc pre.length =
        .ok (concatStreams acc mids, (pre ++ cur :: mids).length) := by
  intro mids
  induction mids with
  | nil =>
    intro pre cur fuel acc hcur _ hfuel
    obtain ⟨f, rfl⟩ : ∃ f, fuel = f + 1 := ⟨fuel - 1, by simp at hfuel; omega⟩
    have h0 := getElem?_append_cons_length pre cur []
    have hlen : ¬ (cur.isLast = 0 ∧ pre.length + 1 < (pre ++ [cur]).length) := by simp
    rw [mergeInner]
    simp only [h0]
    rw [if_neg hlen]
    simp [concatStreams]
  | cons m mids ih =>
    intro pre cur fuel acc hcur hmids hfuel
    obtain ⟨f, rfl⟩ : ∃ f, fuel = f + 1 := ⟨fuel - 1, by simp at hfuel; omega⟩
    have h0 := getElem?_append_cons_length pre cur (m :: mids)
    have h1 := getElem?_append_cons_succ pre cur m mids
    have hm : m.isLast = 0 := hmids m (List.mem_cons_self _ _)
    have hrec := ih (pre ++ [cur]) m f (acc.concat m.messageStream) hm
      (fun p hp => hmids p (List.mem_cons_of_mem _ hp)) (by simp at hfuel; omega)
    have hlen : pre.length + 1 < (pre ++ cur :: m :: mids).length := by simp
    unfold mergeInner
    simp only [h0, hcur, h1, hlen, and_self, if_true]
    have e : pre ++ cur :: m :: mids = (pre ++ [cur]) ++ m :: mids := by simp
    have e2 : pre.length + 1 = (pre ++ [cur]).length := by simp
    rw [e, e2, hrec]
    simp only [concatStreams, List.foldl_cons]

theorem validRun_cases (r : PresentationDataValueItem × List PresentationDataValueItem)
    (h : ValidRun r) :
    (r.2 = [] ∧ r.1.isLast ≠ 0) ∨
      (∃ mids fin, r.2 = mids ++ [fin] ∧ r.1.isLast = 0 ∧ (∀ p ∈ mids, p.isLast = 0) ∧
        fin.isLast ≠ 0) := by
  obtain ⟨pre, fin, he, hpre, hfin⟩ := h
  cases pre with
  | nil =>
    left
    simp at he
    obtain ⟨h1, h2⟩ := he
    exact ⟨h2, h1 ▸ hfin⟩
  | cons a pre =>
    right
    simp at he
    obtain ⟨h1, h2⟩ := he
    exact ⟨pre, fin, h2, h1 ▸ hpre a (List.mem_cons_self _ _),
      fun p hp => hpre p (List.mem_cons_of_mem _ hp), hfin⟩

theorem mergeOuter_runs :
    ∀ (rs : List (PresentationDataValueItem × List PresentationDataValueItem))
      (tail done merges : List PresentationDataValueItem) (fuel : Nat),
      (∀ r ∈ rs, ValidRun r) → (∀ p ∈ tail, p.isLast = 0) →
      (unruns rs ++ tail).length < fuel →
      mergeOuter fuel (done ++ (unruns rs ++ tail)) done.length merges =
        .ok (merges ++ rs.map entryOf ++ tailEntry tail) := by
  intro rs
  induction rs with
  | nil =>
    intro tail done merges fuel _ htail hfuel
    obtain ⟨f, rfl⟩ : ∃ f, fuel = f + 1 := ⟨fuel - 1, by omega⟩
    cases tail with
    | nil =>
      simp [unruns, mergeOuter, tailEntry]
    | cons t ts =>
      have ht : t.isLast = 0 := htail t (List.mem_cons_self _ _)
      have h0 := getElem?_append_cons_length done t ts
      have hin := mergeInner_tail ts done t (f + 1) t.messageStream ht
        (fun p hp => htail p (List.mem_cons_of_mem _ hp)) (by simp [unruns] at hfuel; omega)
      obtain ⟨g, rfl⟩ : ∃ g, f = g + 1 := ⟨f - 1, by simp [unruns] at hfuel; omega⟩
      have hlen : done.length < (done ++ t :: ts).length := by simp
      simp only [unruns, List.map_nil, List.flatten_nil, List.nil_append]
      rw [mergeOuter, if_pos hlen]
      simp only [h0]
      rw [if_pos ht]
      simp only [hin]
      rw [mergeOuter]
      simp [tailEntry, entryOf]
  | cons r rs ih =>
    intro tail done merges fuel hvalid htail hfuel
    obtain ⟨f, rfl⟩ : ∃ f, fuel = f + 1 := ⟨fuel - 1, by omega⟩
    obtain ⟨first, rest⟩ := r
    have hv := hvalid (first, rest) (List.mem_cons_self _ _)
    have hvs : ∀ r ∈ rs, ValidRun r := fun r hr => hvalid r (List.mem_cons_of_mem _ hr)
    have hun : unruns ((first, rest) :: rs) = first :: (rest ++ unruns rs) := by
      simp [unruns]
    rw [hun] at hfuel ⊢
    have h0 := getElem?_append_cons_length done first (rest ++ unruns rs ++ tail)
    have hlen : done.length < (done ++ (first :: (rest ++ unruns rs) ++ tail)).length := by simp
    have hshape : done ++ (first :: (rest ++ unruns rs) ++ tail)
        = done ++ first :: (rest ++ unruns rs ++ tail) := by simp
    rcases validRun_cases _ hv with ⟨hrest, hfin⟩ | ⟨mids, fin, hrest, hfirst, hmids, hfin⟩
    · simp only at hrest hfin
      subst hrest
      rw [mergeOuter, if_pos hlen, hshape]
      simp only [h0]
      rw [if_neg hfin]
      have e : done ++ first :: ([] ++ unruns rs ++ tail)
          = (done ++ [first]) ++ (unruns rs ++ tail) := by
        simp
      have e2 : done.length + 1 = (done ++ [first]).length := by simp
      rw [e, e2, ih tail (done ++ [first]) (merges ++ [first]) f hvs htail
        (by simp at hfuel ⊢; omega)]
      simp [entryOf, concatStreams]
    · simp only at hrest hfirst
      subst hrest
      have hin := mergeInner_run fin (unruns rs ++ tail) hfin mids done first (f + 1)
        first.messageStream hfirst hmids (by simp at hfuel; omega)
      have e0 : done ++ first :: (mids ++ [fin] ++ unruns rs ++ tail)
          = done ++ first :: (mids ++ fin :: (unruns rs ++ tail)) := by simp
      rw [mergeOuter, if_pos hlen, hshape]
      simp only [h0]
      rw [if_pos hfirst, e0]
      simp only [hin]
      have e : done ++ first :: (mids ++ fin :: (unruns rs ++ tail))
          = (done ++ first :: (mids ++ [fin])) ++ (unruns rs ++ tail) := by simp
      have e2 : done.length + mids.length + 2 = (done ++ first :: (mids ++ [fin])).length := by
        simp; omega
      rw [e, e2, ih tail (done ++ first :: (mids ++ [fin])) _ f hvs htail
        (by simp at hfuel ⊢; omega)]
      simp [entryOf]

theorem exists_runs (pdvs : List PresentationDataValueItem) :
    ∃ rs tail, pdvs = unruns rs ++ tail ∧ (∀ r ∈ rs, ValidRun r) ∧
      (∀ p ∈ tail, p.isLast = 0) := by
  induction pdvs with
  | nil => exact ⟨[], [], rfl, by simp, by simp⟩
  | cons p l ih =>
    obtain ⟨rs, tail, hl, hv, ht⟩ := ih
    by_cases hp : p.isLast = 0
    · cases rs with
      | nil =>
        refine ⟨[], p :: tail, by simp [hl, unruns], by simp, ?_⟩
        intro q hq
        rcases List.mem_cons.mp hq with rfl | hq
        · exact hp
        · exact ht q hq
      | cons r rs =>
        obtain ⟨q, qs⟩ := r
        refine ⟨(p, q :: qs) :: rs, tail, by simp [hl, unruns], ?_, ht⟩
        intro r hr
        rcases List.mem_cons.mp hr with rfl | hr
        · obtain ⟨pre, fin, he, hpre, hfin⟩ := hv (q, qs) (List.mem_cons_self _ _)
          refine ⟨p :: pre, fin, by simp at he ⊢; exact he, ?_, hfin⟩
          intro x hx
          rcases List.mem_cons.mp hx with rfl | hx
          · exact hp
          · exact hpre x hx
        · exact hv r (List.mem_cons_of_mem _ hr)
    · refine ⟨(p, []) :: rs, tail, by simp [hl, unruns], ?_, ht⟩
      intro r hr
      rcases List.mem_cons.mp hr with rfl | hr
      · exact ⟨[], p, rfl, by simp, hp⟩
      · exact hv r hr

theorem concatStreams_eq (ps : List PresentationDataValueItem) :
    ∀ acc : ReadStream, concatStreams acc ps =
      { rawBuffer := acc.rawBuffer ++ (ps.map (fun p => p.messageStream.rawBuffer)).flatten
        offset := acc.offset } := by
  induction ps with
  | nil => intro acc; simp [concatStreams]
  | cons p ps ih =>
    intro acc
    have h := ih (acc.concat p.messageStream)
    simp only [concatStreams, List.foldl_cons] at h ⊢
    rw [h]
    simp [ReadStream.concat]

theorem entryOf_eq_mergedEntry (r : PresentationDataValueItem × List PresentationDataValueItem) :
    entryOf r = mergedEntry r := by
  simp [entryOf, mergedEntry, concatStreams_eq]

theorem getLast?_append_cons_mem {α : Type} (xs : List α) (t : α) (ts : List α) (x : α)
    (h : (xs ++ t :: ts).getLast? = some x) : x ∈ t :: ts := by
  rw [List.getLast?_append_of_ne_nil xs (by simp)] at h
  exact List.mem_of_getLast?_eq_some h

theorem unruns_getLast_final :
    ∀ (rs : List (PresentationDataValueItem × List PresentationDataValueItem)),
      (∀ r ∈ rs, ValidRun r) → ∀ x, (unruns rs).getLast? = some x → x.isLast ≠ 0 := by
  intro rs
  induction rs with
  | nil => intro _ x hx; simp [unruns] at hx
  | cons r rs ih =>
    intro hv x hx
    obtain ⟨pre, fin, he, _, hfin⟩ := hv r (List.mem_cons_self _ _)
    have hun : unruns (r :: rs) = (pre ++ [fin]) ++ unruns rs := by
      simp only [unruns, List.map_cons, List.flatten_cons, he]
    rw [hun] at hx
    cases hrs : unruns rs with
    | nil =>
      rw [hrs, List.append_nil, List.getLast?_concat] at hx
      cases hx
      exact hfin
    | cons y ys =>
      rw [hrs] at hx
      have hmem : (unruns rs).getLast? = some x := by
        rw [hrs, ← hx, List.getLast?_append_of_ne_nil _ (by simp)]
      exact ih (fun r hr => hv r (List.mem_cons_of_mem _ hr)) x hmem

theorem unruns_countP :
    ∀ (rs : List (PresentationDataValueItem × List PresentationDataValueItem)),
      (∀ r ∈ rs, ValidRun r) →
      (unruns rs).countP (fun p => decide (p.isLast ≠ 0)) = rs.length := by
  intro rs
  induction rs with
  | nil => intro _; simp [unruns]
  | cons r rs ih =>
    intro hv
    obtain ⟨pre, fin, he, hpre, hfin⟩ := hv r (List.mem_cons_self _ _)
    have hun : unruns (r :: rs) = (pre ++ [fin]) ++ unruns rs := by
      simp only [unruns, List.map_cons, List.flatten_cons, he]
    have hz : pre.countP (fun p => decide (p.isLast ≠ 0)) = 0 := by
      rw [List.countP_eq_zero]
      intro a ha
      simp [hpre a ha]
    rw [hun, List.countP_append, List.countP_append, hz,
      ih (fun r hr => hv r (List.mem_cons_of_mem _ hr))]
    simp [hfin]
    omega

/-! ## Properties of the framing and of `loadPDV` -/

theorem bigEndian_length (w : Nat) : ∀ v, (bigEndian w v).length = w := by
  induction w with
  | zero => intro v; rfl
  | succ w ih => intro v; simp [bigEndian, ih]

theorem beValue_append_singleton (bs : List Nat) (b : Nat) :
    beValue (bs ++ [b]) = beValue bs * 256 + b := by
  simp [beValue, List.foldl_append]

theorem beValue_bigEndian (w : Nat) : ∀ v, beValue (bigEndian w v) = v % 256 ^ w := by
  induction w with
  | zero => intro v; simp [bigEndian, beValue, Nat.mod_one]
  | succ w ih =>
    intro v
    rw [bigEndian, beValue_append_singleton, ih, Nat.pow_succ', Nat.mod_mul]
    omega

mutual
theorem Field.write_length_of_wellFormed (f : Field) (h : f.wellFormed = true) :
    ∃ bytes, Field.write f = .ok bytes ∧ Field.length f = .ok bytes.length :=
  match f, h with
  | .prim l b, h => by
    refine ⟨b, rfl, ?_⟩
    simp [Field.wellFormed] at h
    simp [Field.length, h]
  | .node t lb fs, h => by
    simp only [Field.wellFormed, Bool.and_eq_true, Bool.or_eq_true, decide_eq_true_eq] at h
    obtain ⟨hlb, hfs⟩ := h
    obtain ⟨payload, hw, hl⟩ := writeList_length_of_wellFormed fs hfs
    rcases hlb with rfl | rfl
    · cases t
      all_goals
        simp [Field.write, Field.length, hw, hl, lengthField, tagFields, UInt32Field,
          Field.primBytes, Field.primLength, bigEndian_length, HexField, ReservedField]
        try omega
    · cases t
      all_goals
        simp [Field.write, Field.length, hw, hl, lengthField, tagFields, UInt16Field,
          Field.primBytes, Field.primLength, bigEndian_length, HexField, ReservedField]
        try omega
theorem writeList_length_of_wellFormed (fs : List Field) (h : wellFormedList fs = true) :
    ∃ bytes, writeList fs = .ok bytes ∧ PDU.length fs = .ok bytes.length :=
  match fs, h with
  | [], _ => ⟨[], rfl, rfl⟩
  | f :: fs, h => by
    simp only [wellFormedList, Bool.and_eq_true] at h
    obtain ⟨a, ha, hla⟩ := Field.write_length_of_wellFormed f h.1
    obtain ⟨b, hb, hlb⟩ := writeList_length_of_wellFormed fs h.2
    exact ⟨a ++ b, by simp [writeList, ha, hb], by simp [PDU.length, hla, hlb]⟩
end

theorem loadPDVLoop_declared (fuel : Nat) :
    ∀ (stream : ReadStream) (length bytesRead : Nat) (pdvs0 pdvs : List PresentationDataValueItem)
      (s : ReadStream) (n : Nat),
      loadPDVLoop fuel stream length bytesRead pdvs0 = .ok (pdvs, s, n) →
      length ≤ n ∧ bytesRead ≤ n ∧
        ∀ declared, length ≤ declared → declared ≤ n →
          loadPDVLoop fuel stream declared bytesRead pdvs0 = .ok (pdvs, s, n) := by
  induction fuel with
  | zero => intro stream length bytesRead pdvs0 pdvs s n h; simp [loadPDVLoop] at h
  | succ fuel ih =>
    intro stream length bytesRead pdvs0 pdvs s n h
    rw [loadPDVLoop] at h
    by_cases hlt : bytesRead < length
    · rw [if_pos hlt] at h
      cases h1 : stream.readUInt32 with
      | error e => rw [h1] at h; simp at h
      | ok r1 =>
        obtain ⟨plength, s1⟩ := r1
        rw [h1] at h
        simp only at h
        cases h2 : PresentationDataValueItem.readBytes s1 plength with
        | error e => rw [h2] at h; simp at h
        | ok r2 =>
          obtain ⟨pdv, s2⟩ := r2
          rw [h2] at h
          simp only at h
          obtain ⟨hle, hacc, hdecl⟩ := ih s2 length (bytesRead + (plength + 4)) _ pdvs s n h
          refine ⟨hle, by omega, ?_⟩
          intro declared hd1 hd2
          rw [loadPDVLoop, if_pos (by omega), h1]
          simp only [h2]
          exact hdecl declared hd1 hd2
    · rw [if_neg hlt] at h
      simp only [Except.ok.injEq, Prod.mk.injEq] at h
      obtain ⟨rfl, rfl, rfl⟩ := h
      refine ⟨by omega, le_refl _, ?_⟩
      intro declared _ hd2
      rw [loadPDVLoop, if_neg (by omega)]

theorem readUInt32_error (s : ReadStream) (e : Error) (h : s.readUInt32 = .error e) :
    e = .rangeError := by
  unfold ReadStream.readUInt32 at h
  split at h
  · cases h
  · cases h; rfl

theorem readUInt8_error (s : ReadStream) (e : Error) (h : s.readUInt8 = .error e) :
    e = .rangeError := by
  unfold ReadStream.readUInt8 at h
  split at h
  · cases h
  · cases h; rfl

theorem readBytes_error (s : ReadStream) (length : Nat) (e : Error)
    (h : PresentationDataValueItem.readBytes s length = .error e) : e = .rangeError := by
  unfold PresentationDataValueItem.readBytes at h
  cases h1 : s.readUInt8 with
  | error e1 =>
    rw [h1] at h
    cases h
    exact readUInt8_error s _ h1
  | ok r1 =>
    obtain ⟨c, s1⟩ := r1
    rw [h1] at h
    simp only at h
    cases h2 : s1.readUInt8 with
    | error e2 =>
      rw [h2] at h
      cases h
      exact readUInt8_error s1 _ h2
    | ok r2 =>
      obtain ⟨m, s2⟩ := r2
      rw [h2] at h
      cases h

theorem loadPDVLoop_terminates (fuel : Nat) :
    ∀ (stream : ReadStream) (length bytesRead : Nat) (pdvs0 : List PresentationDataValueItem),
      length - bytesRead < fuel →
      loadPDVLoop fuel stream length bytesRead pdvs0 = .error .rangeError ∨
        ∃ pdvs s n, loadPDVLoop fuel stream length bytesRead pdvs0 = .ok (pdvs, s, n) := by
  induction fuel with
  | zero => intro stream length bytesRead pdvs0 h; omega
  | succ fuel ih =>
    intro stream length bytesRead pdvs0 hfuel
    rw [loadPDVLoop]
    by_cases hlt : bytesRead < length
    · rw [if_pos hlt]
      cases h1 : stream.readUInt32 with
      | error e => left; rw [readUInt32_error stream e h1]
      | ok r1 =>
        obtain ⟨plength, s1⟩ := r1
        simp only
        cases h2 : PresentationDataValueItem.readBytes s1 plength with
        | error e => left; rw [readBytes_error s1 plength e h2]
        | ok r2 =>
          obtain ⟨pdv, s2⟩ := r2
          simp only
          exact ih s2 length (bytesRead + (plength + 4)) _ (by omega)
    · rw [if_neg hlt]
      exact Or.inr ⟨_, _, _, rfl⟩

/-! ## Properties of the cursor and of the tag dispatch -/

theorem classOfType_eq_none (t : Nat) (h : t ∉ registeredTags) : classOfType t = none := by
  simp only [registeredTags, List.mem_cons, List.mem_singleton, not_or, List.mem_nil_iff,
    not_false_eq_true, and_true] at h
  unfold classOfType
  split <;> simp_all

theorem classOfType_isSome (t : Nat) (h : t ∈ registeredTags) :
    ∃ c, classOfType t = some c := by
  simp only [registeredTags, List.mem_cons, List.mem_singleton, List.mem_nil_iff, or_false] at h
  rcases h with h | h | h | h | h | h | h | h | h | h | h | h | h | h <;> subst h <;>
    exact ⟨_, rfl⟩

theorem typeToString_eq_none (t : Nat) (h : t ∉ registeredTags) : typeToString t = none := by
  simp only [registeredTags, List.mem_cons, List.mem_singleton, not_or, List.mem_nil_iff,
    not_false_eq_true, and_true] at h
  unfold typeToString
  split <;> simp_all

theorem typeToString_isSome (t : Nat) (h : t ∈ registeredTags) :
    ∃ name, typeToString t = some name := by
  simp only [registeredTags, List.mem_cons, List.mem_singleton, List.mem_nil_iff, or_false] at h
  rcases h with h | h | h | h | h | h | h | h | h | h | h | h | h | h <;> subst h <;>
    exact ⟨_, rfl⟩

theorem beValue_singleton (b : Nat) : beValue [b] = b := by
  simp [beValue]

theorem take_one_drop {α : Type} (l : List α) (n : Nat) (x : α) (h : l[n]? = some x) :
    (l.drop n).take 1 = [x] := by
  induction l generalizing n with
  | nil => simp at h
  | cons a l ih =>
    cases n with
    | zero => simp at h; simp [h]
    | succ n => simp at h; simpa using ih n h

theorem readUInt8_of_getElem (s : ReadStream) (b : Nat) (h : s.rawBuffer[s.offset]? = some b) :
    s.readUInt8 = .ok (b, { s with offset := s.offset + 1 }) := by
  have hlt : s.offset < s.rawBuffer.length := by
    rcases Nat.lt_or_ge s.offset s.rawBuffer.length with h1 | h1
    · exact h1
    · rw [List.getElem?_eq_none h1] at h; cases h
  unfold ReadStream.readUInt8
  rw [if_pos (by omega), take_one_drop _ _ _ h, beValue_singleton]

theorem isEnd_eq_false_of_getElem (s : ReadStream) (b : Nat)
    (h : s.rawBuffer[s.offset]? = some b) : s.isEnd = false := by
  have hlt : s.offset < s.rawBuffer.length := by
    rcases Nat.lt_or_ge s.offset s.rawBuffer.length with h1 | h1
    · exact h1
    · rw [List.getElem?_eq_none h1] at h; cases h
  simp [ReadStream.isEnd, hlt]

theorem createByStream_unrecognized (fuel : Nat) (stream : ReadStream) (tag : Nat)
    (hbyte : stream.rawBuffer[stream.offset]? = some tag) (htag : tag ∉ registeredTags) :
    createByStream (fuel + 1) stream = .error (.unrecognizedType tag (stream.offset + 1)) := by
  rw [createByStream, isEnd_eq_false_of_getElem stream tag hbyte]
  simp only [Bool.false_eq_true, if_false, ReadStream.readHex,
    readUInt8_of_getElem stream tag hbyte, classOfType_eq_none tag htag]

theorem createByStream_registered (fuel : Nat) (stream : ReadStream) (tag : Nat) (c : PDUClass)
    (hbyte : stream.rawBuffer[stream.offset]? = some tag) (hc : classOfType tag = some c) :
    createByStream (fuel + 1) stream =
      readOfClass (createByStream fuel) fuel c { stream with offset := stream.offset + 1 } := by
  rw [createByStream, isEnd_eq_false_of_getElem stream tag hbyte]
  simp only [Bool.false_eq_true, if_false, ReadStream.readHex,
    readUInt8_of_getElem stream tag hbyte, hc]

theorem increment_back (s : ReadStream) :
    ReadStream.increment { s with offset := s.offset + 1 } (-1) = s := by
  cases s with
  | mk raw off =>
    simp only [ReadStream.increment, ReadStream.mk.injEq, true_and]
    omega

theorem nextItemIs_of_getElem (s : ReadStream) (b pduType : Nat)
    (h : s.rawBuffer[s.offset]? = some b) :
    nextItemIs s pduType = .ok (decide (pduType = b), s) := by
  unfold nextItemIs
  rw [isEnd_eq_false_of_getElem s b h]
  simp only [Bool.false_eq_true, if_false, ReadStream.readHex, readUInt8_of_getElem s b h, bind,
    Except.bind, increment_back, pure, Except.pure]

theorem nextItemIs_of_isEnd (s : ReadStream) (pduType : Nat) (h : s.isEnd = true) :
    nextItemIs s pduType = .ok (false, s) := by
  unfold nextItemIs
  rw [if_pos h]

theorem getMaxSizeLoop_no_item (items : List PDUObject)
    (hitems : ∀ it ∈ items, it.isItem = true)
    (hno : ∀ it ∈ items, ∀ v, it ≠ .MaximumLengthItem v) :
    getMaxSizeLoop items = .ok none := by
  induction items with
  | nil => rfl
  | cons it rest ih =>
    have h1 := hitems it (List.mem_cons_self _ _)
    have h2 := hno it (List.mem_cons_self _ _)
    have hrest := ih (fun x hx => hitems x (List.mem_cons_of_mem _ hx))
      (fun x hx => hno x (List.mem_cons_of_mem _ hx))
    cases it <;> simp [PDUObject.isItem] at h1 <;>
      first
      | exact absurd rfl (h2 _)
      | (simp only [getMaxSizeLoop, PDUObject.type]; rw [if_neg (by decide)]; exact hrest)

theorem getMaxSizeLoop_first (pre post : List PDUObject) (v : Nat)
    (hitems : ∀ it ∈ pre, it.isItem = true)
    (hno : ∀ it ∈ pre, ∀ w, it ≠ .MaximumLengthItem w) :
    getMaxSizeLoop (pre ++ .MaximumLengthItem v :: post) = .ok (some v) := by
  induction pre with
  | nil => simp [getMaxSizeLoop, PDUObject.type]
  | cons it rest ih =>
    have h1 := hitems it (List.mem_cons_self _ _)
    have h2 := hno it (List.mem_cons_self _ _)
    have hrest := ih (fun x hx => hitems x (List.mem_cons_of_mem _ hx))
      (fun x hx => hno x (List.mem_cons_of_mem _ hx))
    cases it <;> simp [PDUObject.isItem] at h1 <;>
      first
      | exact absurd rfl (h2 _)
      | (simp only [List.cons_append, getMaxSizeLoop, PDUObject.type]
         rw [if_neg (by decide)]; exact hrest)
/-! ## Reading at the cursor -/

theorem ReadStream.AtBytes.advance {s : ReadStream} (a r : List Nat) (h : s.AtBytes (a ++ r)) :
    (s.advance a.length).AtBytes r := by
  obtain ⟨h1, h2⟩ := h
  have hlen : (s.rawBuffer.drop s.offset).length = a.length + r.length := by
    rw [h1, List.length_append]
  rw [List.length_drop] at hlen
  refine ⟨?_, ?_⟩
  · simp only [ReadStream.advance]
    rw [← List.drop_drop, h1, List.drop_left]
  · simp only [ReadStream.advance]
    omega

theorem ReadStream.AtBytes.bound {s : ReadStream} (a r : List Nat) (h : s.AtBytes (a ++ r)) :
    s.offset + a.length ≤ s.rawBuffer.length := by
  obtain ⟨h1, h2⟩ := h
  have hlen : (s.rawBuffer.drop s.offset).length = a.length + r.length := by
    rw [h1, List.length_append]
  rw [List.length_drop] at hlen
  omega

theorem ReadStream.AtBytes.take {s : ReadStream} (a r : List Nat) (h : s.AtBytes (a ++ r)) :
    (s.rawBuffer.drop s.offset).take a.length = a := by
  rw [h.1, List.take_left]

theorem ReadStream.AtBytes.start (bytes : List Nat) :
    ReadStream.AtBytes ⟨bytes, 0⟩ bytes :=
  ⟨rfl, Nat.zero_le _⟩

theorem advance_advance (s : ReadStream) (m n : Nat) :
    (s.advance m).advance n = s.advance (m + n) := by
  simp [ReadStream.advance, Nat.add_assoc]

theorem advance_zero (s : ReadStream) : s.advance 0 = s := rfl

theorem increment_ofNat (s : ReadStream) (n : Nat) : s.increment (n : Int) = s.advance n := by
  simp only [ReadStream.increment, ReadStream.advance]
  congr 1

theorem ReadStream.AtBytes.isEnd_nil {s : ReadStream} (h : s.AtBytes []) : s.isEnd = true := by
  obtain ⟨h1, h2⟩ := h
  have := congrArg List.length h1
  rw [List.length_drop] at this
  simp only [List.length_nil] at this
  simp only [ReadStream.isEnd, decide_eq_true_eq]
  omega

theorem ReadStream.AtBytes.getElem {s : ReadStream} (b : Nat) (r : List Nat)
    (h : s.AtBytes (b :: r)) :
    s.rawBuffer[s.offset]? = some b := by
  rw [← List.head?_drop, h.1]
  rfl

theorem ReadStream.AtBytes.readUInt8 {s : ReadStream} (b : Nat) (r : List Nat)
    (h : s.AtBytes (b :: r)) :
    s.readUInt8 = .ok (b, s.advance 1) :=
  readUInt8_of_getElem s b (h.getElem b r)

theorem ReadStream.AtBytes.readHex {s : ReadStream} (b : Nat) (r : List Nat)
    (h : s.AtBytes (b :: r)) :
    s.readHex = .ok (b, s.advance 1) :=
  readUInt8_of_getElem s b (h.getElem b r)

theorem ReadStream.AtBytes.readUInt16 {s : ReadStream} (v : Nat) (r : List Nat)
    (h : s.AtBytes (bigEndian 2 v ++ r)) :
    s.readUInt16 = .ok (v % 65536, s.advance 2) := by
  have hb := h.bound
  have ht := h.take
  rw [bigEndian_length] at hb ht
  unfold ReadStream.readUInt16
  rw [if_pos hb, ht, beValue_bigEndian]
  rfl

theorem ReadStream.AtBytes.readUInt32 {s : ReadStream} (v : Nat) (r : List Nat)
    (h : s.AtBytes (bigEndian 4 v ++ r)) :
    s.readUInt32 = .ok (v % 4294967296, s.advance 4) := by
  have hb := h.bound
  have ht := h.take
  rw [bigEndian_length] at hb ht
  unfold ReadStream.readUInt32
  rw [if_pos hb, ht, beValue_bigEndian]
  rfl

theorem ReadStream.AtBytes.readAscii {s : ReadStream} (a r : List Nat) (h : s.AtBytes (a ++ r)) :
    s.readAscii a.length = .ok (a, s.advance a.length) := by
  unfold ReadStream.readAscii
  rw [if_pos h.bound, h.take]
  rfl

theorem ReadStream.AtBytes.more {s : ReadStream} (a r : List Nat) (h : s.AtBytes (a ++ r)) :
    s.more (a.length : Int) = ({ rawBuffer := a, offset := 0 }, s.advance a.length) := by
  unfold ReadStream.more
  simp only [Int.toNat_ofNat, h.take, ReadStream.advance]
  congr 2

theorem ReadStream.AtBytes.nextItemIs {s : ReadStream} (b : Nat) (r : List Nat) (pduType : Nat)
    (h : s.AtBytes (b :: r)) : nextItemIs s pduType = .ok (decide (pduType = b), s) :=
  nextItemIs_of_getElem s b pduType (h.getElem b r)

theorem ReadStream.AtBytes.nextItemIs_nil {s : ReadStream} (pduType : Nat) (h : s.AtBytes []) :
    Dimse.nextItemIs s pduType = .ok (false, s) :=
  nextItemIs_of_isEnd s pduType h.isEnd_nil

/-! ## Round trip of PDVs -/

theorem bigEndian_one (v : Nat) (h : v < 256) : bigEndian 1 v = [v] := by
  simp [bigEndian, Nat.mod_eq_of_lt h]

theorem RawDataPDV.fragment_length (p : RawDataPDV)
    (h : p.bufferStart + p.bufferLength ≤ p.dataFragmentBuffer.length) :
    p.fragment.length = p.bufferLength := by
  simp only [RawDataPDV.fragment, List.length_take, List.length_drop]
  omega

theorem RawDataPDV.write_getFields (p : RawDataPDV) (hc : p.contextId < 256)
    (h : p.bufferStart + p.bufferLength ≤ p.dataFragmentBuffer.length) :
    Field.write p.getFields = .ok p.wire := by
  have hl := p.fragment_length h
  have hh : bigEndian 1 ((if p.isLast = true then 1 else 0) * 2)
      = [if p.isLast = true then 2 else 0] := by
    cases p.isLast <;> rfl
  simp only [RawDataPDV.getFields, Field.write, PDU.length, Field.length, UInt8Field,
    BufferField, PDV.lengthBytes, lengthField, if_true, UInt32Field, tagFields, List.map_nil,
    List.flatten_nil, List.nil_append, Field.primBytes, writeList, List.append_nil,
    bigEndian_one _ hc, hh, RawDataPDV.wire, hl, Nat.add_zero]
  rw [show 1 + (1 + p.bufferLength) = p.bufferLength + 2 by omega]
  simp [RawDataPDV.fragment]

theorem readBytes_at (s : ReadStream) (c hdr : Nat) (frag r : List Nat)
    (h : s.AtBytes ([c, hdr] ++ frag ++ r)) :
    PresentationDataValueItem.readBytes s (frag.length + 2) =
      .ok ({ type := if hdr % 2 = 1 then DataType.command else DataType.data
             isLast := hdr / 2
             contextId := c
             messageStream := { rawBuffer := frag, offset := 0 } },
           s.advance (frag.length + 2)) := by
  have h1 : s.AtBytes (c :: (hdr :: (frag ++ r))) := by simpa using h
  have h2 : (s.advance 1).AtBytes (hdr :: (frag ++ r)) :=
    ReadStream.AtBytes.advance [c] _ h1
  have h3 : ((s.advance 1).advance 1).AtBytes (frag ++ r) :=
    ReadStream.AtBytes.advance [hdr] _ h2
  have hi : (((frag.length + 2 : Nat) : Int) - 2) = (frag.length : Int) := by
    push_cast; omega
  unfold PresentationDataValueItem.readBytes
  rw [h1.readUInt8]
  simp only
  rw [h2.readUInt8]
  simp only
  rw [hi, h3.more frag r]
  simp only [advance_advance]
  congr 3
  omega

theorem loadPDVLoop_wire :
    ∀ (ps : List RawDataPDV) (fuel : Nat) (s : ReadStream) (length bytesRead : Nat)
      (acc : List PresentationDataValueItem),
      (∀ p ∈ ps, p.fragment.length + 2 < 2 ^ 32) →
      s.AtBytes (ps.map RawDataPDV.wire).flatten →
      length = bytesRead + (ps.map RawDataPDV.wire).flatten.length →
      ps.length < fuel →
      loadPDVLoop fuel s length bytesRead acc =
        .ok (acc ++ ps.map RawDataPDV.decoded,
          s.advance (ps.map RawDataPDV.wire).flatten.length, length) := by
  intro ps
  induction ps with
  | nil =>
    intro fuel s length bytesRead acc _ _ hlen hfuel
    obtain ⟨f, rfl⟩ : ∃ f, fuel = f + 1 := ⟨fuel - 1, by simp at hfuel; omega⟩
    simp only [List.map_nil, List.flatten_nil, List.length_nil, Nat.add_zero] at hlen
    rw [loadPDVLoop, if_neg (by omega)]
    simp [advance_zero, hlen]
  | cons p ps ih =>
    intro fuel s length bytesRead acc hfit hat hlen hfuel
    obtain ⟨f, rfl⟩ : ∃ f, fuel = f + 1 := ⟨fuel - 1, by simp at hfuel; omega⟩
    have hp := hfit p (List.mem_cons_self _ _)
    have hwl : p.wire.length = p.fragment.length + 6 := by
      simp [RawDataPDV.wire, bigEndian_length]; omega
    simp only [List.map_cons, List.flatten_cons, List.length_append] at hat hlen ⊢
    have h1 : s.AtBytes (bigEndian 4 (p.fragment.length + 2) ++
        (([p.contextId, if p.isLast = true then 2 else 0] ++ p.fragment) ++
          (ps.map RawDataPDV.wire).flatten)) := by
      simpa [RawDataPDV.wire] using hat
    have h2 := ReadStream.AtBytes.advance _ _ h1
    rw [bigEndian_length] at h2
    rw [loadPDVLoop, if_pos (by omega), h1.readUInt32]
    simp only
    rw [Nat.mod_eq_of_lt (by simpa using hp),
      readBytes_at (s.advance 4) p.contextId _ p.fragment _ h2]
    simp only
    have h3 := ReadStream.AtBytes.advance _ _ h2
    simp only [advance_advance, List.length_append, List.length_cons, List.length_nil] at h3
    rw [advance_advance, ih f (s.advance (4 + (p.fragment.length + 2))) length _ _
      (fun q hq => hfit q (List.mem_cons_of_mem _ hq))
      (by convert h3 using 2; omega) (by omega) (by simp at hfuel; omega)]
    simp only [advance_advance, List.append_assoc, List.singleton_append]
    congr 3
    · simp only [RawDataPDV.decoded]
      cases p.isLast <;> simp
    · congr 1
      omega

theorem writeList_wire (ps : List RawDataPDV)
    (hps : ∀ p ∈ ps, p.contextId < 256 ∧
      p.bufferStart + p.bufferLength ≤ p.dataFragmentBuffer.length) :
    writeList (ps.map RawDataPDV.getFields) = .ok (ps.map RawDataPDV.wire).flatten := by
  induction ps with
  | nil => rfl
  | cons p ps ih =>
    have hp := hps p (List.mem_cons_self _ _)
    simp only [List.map_cons, writeList, RawDataPDV.write_getFields p hp.1 hp.2,
      ih (fun q hq => hps q (List.mem_cons_of_mem _ hq)), List.flatten_cons]
/-! ## Encoding of objects -/

theorem Encodes.sound {fs : List Field} {bytes : List Nat} (h : Encodes fs bytes) :
    writeList fs = .ok bytes ∧ PDU.length fs = .ok bytes.length := by
  induction h with
  | nil => exact ⟨rfl, rfl⟩
  | cons h1 _ ih =>
    refine ⟨?_, ?_⟩
    · simp only [writeList, h1.1, ih.1]
    · simp only [PDU.length, h1.2, ih.2, List.length_append]

theorem Encodes.append {fs gs : List Field} {a b : List Nat}
    (h1 : Encodes fs a) (h2 : Encodes gs b) : Encodes (fs ++ gs) (a ++ b) := by
  induction h1 with
  | nil => simpa using h2
  | cons hf _ ih =>
    rw [List.cons_append, List.append_assoc]
    exact Encodes.cons hf ih

theorem Encodes.single {f : Field} {a : List Nat} (h : EncodesOne f a) : Encodes [f] a := by
  have := Encodes.cons h Encodes.nil
  simpa using this

theorem EncodesOne.prim (bytes : List Nat) : EncodesOne (.prim bytes.length bytes) bytes :=
  ⟨rfl, rfl⟩

theorem EncodesOne.item {fields : List Field} {payload : List Nat} (type : Nat)
    (htype : type < 256) (h : Encodes fields payload) :
    EncodesOne (.node (some type) Item.lengthBytes fields) (itemBytes type payload) := by
  obtain ⟨hw, hl⟩ := h.sound
  refine ⟨?_, ?_⟩
  · simp [Field.write, hw, hl, lengthField, Item.lengthBytes, UInt16Field, tagFields, HexField,
      ReservedField, Field.primBytes, itemBytes, bigEndian_one _ htype]
  · simp [Field.length, hl, lengthField, Item.lengthBytes, UInt16Field, tagFields, HexField,
      ReservedField, Field.primLength, itemBytes, bigEndian_length]
    omega

theorem EncodesOne.pdu {fields : List Field} {payload : List Nat} (type : Nat)
    (htype : type < 256) (h : Encodes fields payload) :
    EncodesOne (.node (some type) PDU.lengthBytes fields)
      ([type, 0] ++ bigEndian 4 payload.length ++ payload) := by
  obtain ⟨hw, hl⟩ := h.sound
  refine ⟨?_, ?_⟩
  · simp [Field.write, hw, hl, lengthField, PDU.lengthBytes, UInt32Field, tagFields, HexField,
      ReservedField, Field.primBytes, bigEndian_one _ htype]
  · simp [Field.length, hl, lengthField, PDU.lengthBytes, UInt32Field, tagFields, HexField,
      ReservedField, Field.primLength, bigEndian_length]
    omega

theorem encodes_stringItem (type : Nat) (htype : type < 256) (name : List Nat) :
    EncodesOne (.node (some type) Item.lengthBytes [StringField name]) (itemBytes type name) :=
  EncodesOne.item type htype (Encodes.single (EncodesOne.prim name))

theorem encodes_transferSyntaxes (names : List (List Nat)) :
    ∃ nodes, getFieldsList (names.map PDUObject.TransferSyntaxItem) = .ok nodes ∧
      Encodes nodes (names.map (itemBytes ITEM_TYPE_TRANSFER_CONTEXT)).flatten := by
  induction names with
  | nil => exact ⟨[], rfl, Encodes.nil⟩
  | cons n ns ih =>
    obtain ⟨nodes, h1, h2⟩ := ih
    refine ⟨Field.node (some ITEM_TYPE_TRANSFER_CONTEXT) Item.lengthBytes [StringField n]
      :: nodes, ?_, ?_⟩
    · simp only [List.map_cons, getFieldsList, PDUObject.getFields, h1, bind, Except.bind, pure,
        Except.pure]
    · simp only [List.map_cons, List.flatten_cons]
      exact Encodes.cons (encodes_stringItem _ (by decide) n) h2

theorem encodes_context (c : PresentationContextData) (hid : c.presentationContextID < 256) :
    ∃ node, c.build.getFields = .ok node ∧ EncodesOne node c.wire := by
  obtain ⟨nodes, h1, h2⟩ := encodes_transferSyntaxes c.transferSyntaxNames
  refine ⟨Field.node (some ITEM_TYPE_PRESENTATION_CONTEXT) Item.lengthBytes
    ([UInt8Field c.presentationContextID, ReservedField 1, ReservedField 1, ReservedField 1,
      Field.node (some ITEM_TYPE_ABSTRACT_CONTEXT) Item.lengthBytes
        [StringField c.abstractSyntaxName]] ++ nodes), ?_, ?_⟩
  · simp only [PresentationContextData.build, PDUObject.getFields, h1, bind, Except.bind, pure,
      Except.pure]
  · have hfields : Encodes ([UInt8Field c.presentationContextID, ReservedField 1,
        ReservedField 1, ReservedField 1,
        Field.node (some ITEM_TYPE_ABSTRACT_CONTEXT) Item.lengthBytes
          [StringField c.abstractSyntaxName]] ++ nodes)
        (([c.presentationContextID] ++ ([0] ++ ([0] ++ ([0] ++
          (itemBytes ITEM_TYPE_ABSTRACT_CONTEXT c.abstractSyntaxName ++ []))))) ++
          (c.transferSyntaxNames.map (itemBytes ITEM_TYPE_TRANSFER_CONTEXT)).flatten) := by
      refine Encodes.append ?_ h2
      refine Encodes.cons ?_ (Encodes.cons (EncodesOne.prim [0]) (Encodes.cons
        (EncodesOne.prim [0]) (Encodes.cons (EncodesOne.prim [0])
        (Encodes.cons (encodes_stringItem _ (by decide) _) Encodes.nil))))
      have := EncodesOne.prim [c.presentationContextID]
      simpa [UInt8Field, bigEndian_one _ hid] using this
    have := EncodesOne.item ITEM_TYPE_PRESENTATION_CONTEXT (by decide) hfields
    simpa [PresentationContextData.wire] using this

theorem encodes_contexts (cs : List PresentationContextData)
    (hid : ∀ c ∈ cs, c.presentationContextID < 256) :
    ∃ nodes, getFieldsList (cs.map PresentationContextData.build) = .ok nodes ∧
      Encodes nodes (cs.map PresentationContextData.wire).flatten := by
  induction cs with
  | nil => exact ⟨[], rfl, Encodes.nil⟩
  | cons c cs ih =>
    obtain ⟨nodes, h1, h2⟩ := ih (fun x hx => hid x (List.mem_cons_of_mem _ hx))
    obtain ⟨node, h3, h4⟩ := encodes_context c (hid c (List.mem_cons_self _ _))
    refine ⟨node :: nodes, ?_, ?_⟩
    · simp only [List.map_cons, getFieldsList, h3, h1, bind, Except.bind, pure, Except.pure]
    · simp only [List.map_cons, List.flatten_cons]
      exact Encodes.cons h4 h2

theorem encodes_userData (o : PDUObject) (h : o.isUserData = true) :
    ∃ node, o.getFields = .ok node ∧ EncodesOne node (userDataWire o) := by
  cases o with
  | ImplementationClassUIDItem uid => exact ⟨_, rfl, encodes_stringItem _ (by decide) _⟩
  | ImplementationVersionNameItem name => exact ⟨_, rfl, encodes_stringItem _ (by decide) _⟩
  | MaximumLengthItem v =>
    refine ⟨_, rfl, ?_⟩
    have := EncodesOne.item ITEM_TYPE_MAXIMUM_LENGTH (by decide)
      (Encodes.single (EncodesOne.prim (bigEndian 4 v)))
    simpa [MaximumLengthItem.getFields, UInt32Field, userDataWire, bigEndian_length] using this
  | _ => simp [PDUObject.isUserData] at h

theorem encodes_userDataList (os : List PDUObject) (h : ∀ o ∈ os, o.isUserData = true) :
    ∃ nodes, getFieldsList os = .ok nodes ∧ Encodes nodes (os.map userDataWire).flatten := by
  induction os with
  | nil => exact ⟨[], rfl, Encodes.nil⟩
  | cons o os ih =>
    obtain ⟨nodes, h1, h2⟩ := ih (fun x hx => h x (List.mem_cons_of_mem _ hx))
    obtain ⟨node, h3, h4⟩ := encodes_userData o (h o (List.mem_cons_self _ _))
    refine ⟨node :: nodes, ?_, ?_⟩
    · simp only [getFieldsList, h3, h1, bind, Except.bind, pure, Except.pure]
    · simp only [List.map_cons, List.flatten_cons]
      exact Encodes.cons h4 h2

/-! ## Decoding what was encoded -/

theorem item_read_mod (rb : ReadStream → Nat → Except Error (PDUObject × ReadStream))
    (s : ReadStream) (resv n : Nat) (rest : List Nat)
    (h : s.AtBytes (resv :: (bigEndian 2 n ++ rest))) :
    Item.read rb s = rb (s.advance 3) (n % 65536) ∧ (s.advance 3).AtBytes rest := by
  have h1 : (s.advance 1).AtBytes (bigEndian 2 n ++ rest) :=
    ReadStream.AtBytes.advance [resv] (bigEndian 2 n ++ rest) h
  have h2 := ReadStream.AtBytes.advance (bigEndian 2 n) rest h1
  rw [bigEndian_length, advance_advance] at h2
  refine ⟨?_, h2⟩
  unfold Item.read
  simp only [h.readHex, h1.readUInt16, bind, Except.bind, advance_advance]

theorem item_read_at (rb : ReadStream → Nat → Except Error (PDUObject × ReadStream))
    (s : ReadStream) (resv n : Nat) (rest : List Nat)
    (h : s.AtBytes (resv :: (bigEndian 2 n ++ rest))) (hn : n < 65536) :
    Item.read rb s = rb (s.advance 3) n ∧ (s.advance 3).AtBytes rest := by
  have := item_read_mod rb s resv n rest h
  rwa [Nat.mod_eq_of_lt hn] at this

theorem pdu_read_at (rb : ReadStream → Nat → Except Error (PDUObject × ReadStream))
    (s : ReadStream) (resv n : Nat) (rest : List Nat)
    (h : s.AtBytes (resv :: (bigEndian 4 n ++ rest))) :
    PDU.read rb s = rb (s.advance 5) (n % 4294967296) ∧ (s.advance 5).AtBytes rest := by
  have h1 : (s.advance 1).AtBytes (bigEndian 4 n ++ rest) :=
    ReadStream.AtBytes.advance [resv] (bigEndian 4 n ++ rest) h
  have h2 := ReadStream.AtBytes.advance (bigEndian 4 n) rest h1
  rw [bigEndian_length, advance_advance] at h2
  refine ⟨?_, h2⟩
  unfold PDU.read
  simp only [h.readHex, h1.readUInt32, bind, Except.bind, advance_advance]

theorem itemBytes_length (type : Nat) (payload : List Nat) :
    (itemBytes type payload).length = 4 + payload.length := by
  simp [itemBytes, bigEndian_length]; omega

theorem createByStream_stringItem (f : Nat) (s : ReadStream) (type : Nat) (c : PDUClass)
    (mk : List Nat → PDUObject) (name r : List Nat)
    (hc : classOfType type = some c)
    (hrd : ∀ load fuel st, readOfClass load fuel c st =
      Item.read (fun s n => do
        let (x, s1) ← s.readAscii n
        return (mk x, s1)) st)
    (h : s.AtBytes (itemBytes type name ++ r)) (hn : name.length < 65536) :
    createByStream (f + 1) s = .ok (mk name, s.advance (itemBytes type name).length) := by
  have h0 : s.AtBytes (type :: (0 :: (bigEndian 2 name.length ++ (name ++ r)))) := by
    simpa [itemBytes] using h
  have h1 : (s.advance 1).AtBytes (0 :: (bigEndian 2 name.length ++ (name ++ r))) :=
    ReadStream.AtBytes.advance [type] _ h0
  obtain ⟨hread, h2⟩ := item_read_at (fun s n => do
        let (x, s1) ← s.readAscii n
        return (mk x, s1)) (s.advance 1) 0 name.length (name ++ r) h1 hn
  rw [advance_advance] at h2
  rw [createByStream_registered f s type c (h0.getElem _ _) hc]
  change readOfClass (createByStream f) f c (s.advance 1) = _
  rw [hrd, hread]
  simp only [h2.readAscii, bind, Except.bind, pure, Except.pure, advance_advance,
    itemBytes_length]

theorem createByStream_userData (f : Nat) (s : ReadStream) (o : PDUObject) (r : List Nat)
    (ho : o.isUserData = true) (h : s.AtBytes (userDataWire o ++ r)) :
    createByStream (f + 1) s = .ok (o, s.advance (userDataWire o).length) := by
  cases o with
  | ImplementationClassUIDItem uid =>
    exact createByStream_stringItem f s _ .ImplementationClassUIDItem _ uid r rfl
      (fun _ _ _ => rfl) h (by simpa [PDUObject.isUserData] using ho)
  | ImplementationVersionNameItem name =>
    exact createByStream_stringItem f s _ .ImplementationVersionNameItem _ name r rfl
      (fun _ _ _ => rfl) h (by simpa [PDUObject.isUserData] using ho)
  | MaximumLengthItem v =>
    have hv : v < 4294967296 := by simpa [PDUObject.isUserData] using ho
    have h0 : s.AtBytes (ITEM_TYPE_MAXIMUM_LENGTH ::
        (0 :: (bigEndian 2 4 ++ (bigEndian 4 v ++ r)))) := by
      simpa [userDataWire, itemBytes, bigEndian_length] using h
    have h1 : (s.advance 1).AtBytes (0 :: (bigEndian 2 4 ++ (bigEndian 4 v ++ r))) :=
      ReadStream.AtBytes.advance [ITEM_TYPE_MAXIMUM_LENGTH] _ h0
    obtain ⟨hread, h2⟩ := item_read_at MaximumLengthItem.readBytes (s.advance 1) 0 4
      (bigEndian 4 v ++ r) h1 (by decide)
    rw [advance_advance] at h2
    rw [createByStream_registered f s _ .MaximumLengthItem (h0.getElem _ _) rfl]
    change Item.read MaximumLengthItem.readBytes (s.advance 1) = _
    rw [hread]
    simp only [MaximumLengthItem.readBytes, h2.readUInt32, bind, Except.bind, pure, Except.pure,
      advance_advance, Nat.mod_eq_of_lt hv, userDataWire, itemBytes_length, bigEndian_length]
  | _ => simp [PDUObject.isUserData] at ho

theorem loadWhile_list {X : Type} (load : ReadStream → Except Error (PDUObject × ReadStream))
    (type : Nat) (enc : X → List Nat) (obj : X → PDUObject) (P : List Nat → Prop)
    (hPT : ∀ tl, P (type :: tl)) :
    ∀ (xs : List X) (fuel : Nat) (s : ReadStream) (acc : List PDUObject) (r : List Nat),
      xs ≠ [] →
      (∀ x ∈ xs, ∃ tl, enc x = type :: tl) →
      (∀ x ∈ xs, ∀ st r1, P r1 → st.AtBytes (enc x ++ r1) →
        load st = .ok (obj x, st.advance (enc x).length)) →
      P r → r.head? ≠ some type →
      s.AtBytes ((xs.map enc).flatten ++ r) →
      xs.length ≤ fuel →
      loadWhile load type fuel s acc =
        .ok (acc ++ xs.map obj, s.advance (xs.map enc).flatten.length) := by
  intro xs
  induction xs with
  | nil => intro fuel s acc r h; exact absurd rfl h
  | cons x xs ih =>
    intro fuel s acc r _ henc hload hPr hr hat hfuel
    obtain ⟨f, rfl⟩ : ∃ f, fuel = f + 1 := ⟨fuel - 1, by simp at hfuel; omega⟩
    have hat1 : s.AtBytes (enc x ++ ((xs.map enc).flatten ++ r)) := by
      simpa using hat
    have hnext := ReadStream.AtBytes.advance _ _ hat1
    cases xs with
    | nil =>
      have hl := hload x (List.mem_cons_self _ _) s r hPr (by simpa using hat)
      have hnx : nextItemIs (s.advance (enc x).length) type
          = .ok (false, s.advance (enc x).length) := by
        simp only [List.map_nil, List.flatten_nil, List.nil_append] at hnext
        cases r with
        | nil => exact hnext.nextItemIs_nil type
        | cons b tl =>
          rw [hnext.nextItemIs b tl type]
          have : type ≠ b := by
            intro e
            apply hr
            rw [e]
            rfl
          simp [this]
      rw [loadWhile]
      simp only [hl, hnx, bind, Except.bind, pure, Except.pure, Bool.false_eq_true, if_false,
        List.map_cons, List.map_nil, List.flatten_cons, List.flatten_nil, List.append_nil]
    | cons y ys =>
      obtain ⟨tl, htl⟩ := henc y (List.mem_cons_of_mem _ (List.mem_cons_self _ _))
      have hP1 : P ((((y :: ys).map enc).flatten) ++ r) := by
        simp only [List.map_cons, List.flatten_cons, htl, List.cons_append]
        exact hPT _
      have hl := hload x (List.mem_cons_self _ _) s _ hP1 hat1
      have hnx : nextItemIs (s.advance (enc x).length) type
          = .ok (true, s.advance (enc x).length) := by
        have hnext2 : (s.advance (enc x).length).AtBytes
            (type :: (tl ++ ((ys.map enc).flatten ++ r))) := by
          simpa [htl] using hnext
        rw [hnext2.nextItemIs _ _ type]
        simp
      have hrec := ih f (s.advance (enc x).length) (acc ++ [obj x]) r (by simp)
        (fun z hz => henc z (List.mem_cons_of_mem _ hz))
        (fun z hz => hload z (List.mem_cons_of_mem _ hz)) hPr hr hnext
        (by simp at hfuel ⊢; omega)
      rw [loadWhile]
      simp only [hl, hnx, bind, Except.bind, if_true, hrec, advance_advance]
      simp only [List.map_cons, List.flatten_cons, List.length_append, List.append_assoc,
        List.singleton_append]

theorem ReadStream.AtBytes.step {s : ReadStream} {m : Nat} (a r : List Nat) (k : Nat)
    (h : (s.advance m).AtBytes (a ++ r)) (hk : m + a.length = k) :
    (s.advance k).AtBytes r := by
  have := ReadStream.AtBytes.advance a r h
  rwa [advance_advance, hk] at this

theorem increment_one (s : ReadStream) : s.increment 1 = s.advance 1 :=
  increment_ofNat s 1

theorem increment_two (s : ReadStream) : s.increment 2 = s.advance 2 :=
  increment_ofNat s 2

theorem increment_thirtyTwo (s : ReadStream) : s.increment 32 = s.advance 32 :=
  increment_ofNat s 32

theorem createByStream_at_end (f : Nat) (s : ReadStream) (h : s.AtBytes []) :
    createByStream (f + 1) s = .ok (.null, s) := by
  rw [createByStream, h.isEnd_nil]
  rfl

theorem context_wire_eq (c : PresentationContextData) (r : List Nat) :
    c.wire ++ r = ITEM_TYPE_PRESENTATION_CONTEXT :: (0 :: (bigEndian 2
      ([c.presentationContextID, 0, 0, 0] ++
        itemBytes ITEM_TYPE_ABSTRACT_CONTEXT c.abstractSyntaxName ++
        (c.transferSyntaxNames.map (itemBytes ITEM_TYPE_TRANSFER_CONTEXT)).flatten).length ++
      (c.presentationContextID :: ([0, 0, 0] ++
        (itemBytes ITEM_TYPE_ABSTRACT_CONTEXT c.abstractSyntaxName ++
          ((c.transferSyntaxNames.map (itemBytes ITEM_TYPE_TRANSFER_CONTEXT)).flatten
            ++ r)))))) := by
  simp [PresentationContextData.wire, itemBytes]

theorem context_wire_length (c : PresentationContextData) :
    c.wire.length = 8 + (itemBytes ITEM_TYPE_ABSTRACT_CONTEXT c.abstractSyntaxName).length +
      (c.transferSyntaxNames.map (itemBytes ITEM_TYPE_TRANSFER_CONTEXT)).flatten.length := by
  simp only [PresentationContextData.wire, itemBytes_length, List.length_append,
    List.length_cons, List.length_nil]
  omega

theorem createByStream_context (g : Nat) (s : ReadStream) (c : PresentationContextData)
    (r : List Nat)
    (habs : c.abstractSyntaxName.length < 65536)
    (htr : ∀ n ∈ c.transferSyntaxNames, n.length < 65536)
    (hne : c.transferSyntaxNames ≠ [])
    (hr : r.head? ≠ some ITEM_TYPE_TRANSFER_CONTEXT)
    (hfuel : c.transferSyntaxNames.length ≤ g + 1)
    (h : s.AtBytes (c.wire ++ r)) :
    createByStream (g + 2) s = .ok (c.build, s.advance c.wire.length) := by
  rw [context_wire_eq] at h
  have h1 : (s.advance 1).AtBytes (0 :: (bigEndian 2 _ ++ _)) :=
    ReadStream.AtBytes.advance [ITEM_TYPE_PRESENTATION_CONTEXT] _ h
  obtain ⟨hread, h2⟩ := item_read_mod
    (PresentationContextItem.readBytes (createByStream (g + 1)) (g + 1)) (s.advance 1) 0 _ _ h1
  rw [advance_advance] at h2 hread
  have h3 : (s.advance 5).AtBytes ([0, 0, 0] ++
      (itemBytes ITEM_TYPE_ABSTRACT_CONTEXT c.abstractSyntaxName ++
        ((c.transferSyntaxNames.map (itemBytes ITEM_TYPE_TRANSFER_CONTEXT)).flatten ++ r))) :=
    ReadStream.AtBytes.step [c.presentationContextID] _ 5 h2 rfl
  have h4 : (s.advance 8).AtBytes
      (itemBytes ITEM_TYPE_ABSTRACT_CONTEXT c.abstractSyntaxName ++
        ((c.transferSyntaxNames.map (itemBytes ITEM_TYPE_TRANSFER_CONTEXT)).flatten ++ r)) :=
    ReadStream.AtBytes.step [0, 0, 0] _ 8 h3 rfl
  have h5 := ReadStream.AtBytes.step _ _
    (8 + (itemBytes ITEM_TYPE_ABSTRACT_CONTEXT c.abstractSyntaxName).length) h4 rfl
  have habsLoad := createByStream_stringItem g (s.advance 8) ITEM_TYPE_ABSTRACT_CONTEXT
    .AbstractSyntaxItem PDUObject.AbstractSyntaxItem
    c.abstractSyntaxName _ rfl (fun _ _ _ => rfl) h4 habs
  have hloop := loadWhile_list (createByStream (g + 1)) ITEM_TYPE_TRANSFER_CONTEXT
    (itemBytes ITEM_TYPE_TRANSFER_CONTEXT) PDUObject.TransferSyntaxItem (fun _ => True)
    (fun _ => trivial) c.transferSyntaxNames (g + 1) _ [] r hne
    (fun x _ => ⟨_, rfl⟩)
    (fun x hx st r1 _ hst => createByStream_stringItem g st ITEM_TYPE_TRANSFER_CONTEXT
      .TransferSyntaxItem PDUObject.TransferSyntaxItem x r1 rfl
      (fun _ _ _ => rfl) hst (htr x hx))
    trivial hr h5 hfuel
  rw [advance_advance] at habsLoad hloop
  rw [createByStream_registered (g + 1) s _ .PresentationContextItem (h.getElem _ _) rfl]
  change Item.read (PresentationContextItem.readBytes (createByStream (g + 1)) (g + 1))
    (s.advance 1) = _
  rw [hread]
  simp only [PresentationContextItem.readBytes, h2.readUInt8, bind, Except.bind, pure,
    Except.pure, advance_advance, increment_one, Nat.reduceAdd, habsLoad, hloop,
    List.nil_append, context_wire_length, PresentationContextData.build, Nat.add_assoc]

theorem isNull_of_isUserData (o : PDUObject) (h : o.isUserData = true) : o.isNull = false := by
  cases o <;> simp [PDUObject.isUserData, PDUObject.isNull] at h ⊢

theorem createByStream_userInformation (g : Nat) (s : ReadStream) (u : PDUObject)
    (us : List PDUObject) (hu : ∀ o ∈ u :: us, o.isUserData = true)
    (h : s.AtBytes (itemBytes ITEM_TYPE_USER_INFORMATION ((u :: us).map userDataWire).flatten)) :
    ∃ s1, createByStream (g + 2) s = .ok (.UserInformationItem [u], s1) := by
  have h0 : s.AtBytes (ITEM_TYPE_USER_INFORMATION :: (0 :: (bigEndian 2
      (((u :: us).map userDataWire).flatten).length ++
      (userDataWire u ++ (us.map userDataWire).flatten)))) := by
    simpa [itemBytes] using h
  have h1 : (s.advance 1).AtBytes (0 :: (bigEndian 2 _ ++ _)) :=
    ReadStream.AtBytes.advance [ITEM_TYPE_USER_INFORMATION] _ h0
  obtain ⟨hread, h2⟩ := item_read_mod
    (UserInformationItem.readBytes (createByStream (g + 1)) (g + 1)) (s.advance 1) 0 _ _ h1
  rw [advance_advance] at h2 hread
  have hload := createByStream_userData g _ u _ (hu u (List.mem_cons_self _ _)) h2
  have h3 := ReadStream.AtBytes.advance _ _ h2
  have hnull := isNull_of_isUserData u (hu u (List.mem_cons_self _ _))
  rw [createByStream_registered (g + 1) s _ .UserInformationItem (h0.getElem _ _) rfl]
  have key : readOfClass (createByStream (g + 1)) (g + 1) PDUClass.UserInformationItem
      { s with offset := s.offset + 1 } =
      Item.read (UserInformationItem.readBytes (createByStream (g + 1)) (g + 1))
        (s.advance 1) := rfl
  rw [key, hread]
  cases us with
  | nil =>
    have h4 : ((s.advance (1 + 3)).advance (userDataWire u).length).AtBytes [] := by
      simpa using h3
    refine ⟨(s.advance (1 + 3)).advance (userDataWire u).length, ?_⟩
    simp only [UserInformationItem.readBytes, UserInformationItem.pushLoop, hload,
      createByStream_at_end g _ h4, hnull, bind, Except.bind, pure, Except.pure,
      Bool.false_and, Bool.false_eq_true, if_false, List.nil_append]
  | cons v vs =>
    have h4 : ((s.advance (1 + 3)).advance (userDataWire u).length).AtBytes
        (userDataWire v ++ (vs.map userDataWire).flatten) := by
      simpa using h3
    have hload2 := createByStream_userData g _ v _
      (hu v (List.mem_cons_of_mem _ (List.mem_cons_self _ _))) h4
    refine ⟨((s.advance (1 + 3)).advance (userDataWire u).length).advance
      (userDataWire v).length, ?_⟩
    simp only [UserInformationItem.readBytes, UserInformationItem.pushLoop, hload,
      hload2, hnull, bind, Except.bind, pure, Except.pure,
      Bool.false_and, Bool.false_eq_true, if_false, List.nil_append]

/-! ## The request PDU: encoding and decoding -/

theorem padTitle_length (t : List Nat) (h : t.length ≤ 16) : (padTitle t).length = 16 := by
  simp only [padTitle, List.length_append, List.length_replicate]
  omega

theorem encodesOne_filled (t : List Nat) (h : t.length ≤ 16) :
    EncodesOne (FilledField t 16) (padTitle t) := by
  have := EncodesOne.prim (padTitle t)
  rw [padTitle_length t h] at this
  exact this

theorem encodesOne_uint16 (v : Nat) : EncodesOne (UInt16Field v) (bigEndian 2 v) :=
  ⟨rfl, by simp [UInt16Field, Field.length, bigEndian_length]⟩

theorem encodesOne_reserved (n : Nat) : EncodesOne (ReservedField n) (List.replicate n 0) :=
  ⟨rfl, by simp [ReservedField, Field.length]⟩

theorem associateRQ_buffer (version : Nat) (called calling app : List Nat)
    (cs : List PresentationContextData) (us : List PDUObject)
    (hcalled : called.length ≤ 16) (hcalling : calling.length ≤ 16)
    (hid : ∀ c ∈ cs, c.presentationContextID < 256)
    (hus : ∀ o ∈ us, o.isUserData = true) :
    PDUObject.buffer (AssociateRQ.build version called calling (.ApplicationContextItem app)
      (cs.map PresentationContextData.build) (.UserInformationItem us)) =
      .ok (AssociateRQ.wire version called calling app cs us) := by
  obtain ⟨cnodes, hc1, hc2⟩ := encodes_contexts cs hid
  obtain ⟨unodes, hu1, hu2⟩ := encodes_userDataList us hus
  have happ := encodes_stringItem ITEM_TYPE_APPLICATION_CONTEXT (by decide) app
  have huser := EncodesOne.item ITEM_TYPE_USER_INFORMATION (by decide) hu2
  have hall : Encodes (UInt16Field version :: ReservedField 2 :: FilledField called 16 ::
      FilledField calling 16 :: ReservedField 32 ::
      Field.node (some ITEM_TYPE_APPLICATION_CONTEXT) Item.lengthBytes [StringField app] ::
      (cnodes ++ [Field.node (some ITEM_TYPE_USER_INFORMATION) Item.lengthBytes unodes]))
      (AssociateRQ.payload version called calling app cs us) :=
    Encodes.cons (encodesOne_uint16 _) (Encodes.cons (encodesOne_reserved 2)
      (Encodes.cons (encodesOne_filled _ hcalled) (Encodes.cons (encodesOne_filled _ hcalling)
        (Encodes.cons (encodesOne_reserved 32) (Encodes.cons happ
          (Encodes.append hc2 (Encodes.single huser)))))))
  simp only [PDUObject.buffer, AssociateRQ.build, PDUObject.getFields, titleField, hc1, hu1,
    bind, Except.bind, pure, Except.pure, UserInformationItem.getFields]
  exact (EncodesOne.pdu ITEM_TYPE_PDU_ASSOCIATE_RQ (by decide) hall).1

theorem createByStream_associateRQ (g : Nat) (s : ReadStream) (version : Nat)
    (called calling app : List Nat) (cs : List PresentationContextData)
    (u : PDUObject) (us : List PDUObject)
    (hv : version < 65536) (hcalled : called.length ≤ 16) (hcalling : calling.length ≤ 16)
    (happ : app.length < 65536) (hcs : cs ≠ [])
    (habs : ∀ c ∈ cs, c.abstractSyntaxName.length < 65536)
    (htr : ∀ c ∈ cs, ∀ n ∈ c.transferSyntaxNames, n.length < 65536)
    (hne : ∀ c ∈ cs, c.transferSyntaxNames ≠ [])
    (hus : ∀ o ∈ u :: us, o.isUserData = true)
    (hf1 : cs.length ≤ g + 2) (hf2 : ∀ c ∈ cs, c.transferSyntaxNames.length ≤ g + 1)
    (h : s.AtBytes (AssociateRQ.wire version called calling app cs (u :: us))) :
    ∃ s1, createByStream (g + 3) s = .ok (.AssociateRQ ITEM_TYPE_PDU_ASSOCIATE_RQ version
      (some (padTitle called)) (some (padTitle calling)) (.ApplicationContextItem app)
      (cs.map PresentationContextData.build) (.UserInformationItem [u]), s1) := by
  have h0 : s.AtBytes (ITEM_TYPE_PDU_ASSOCIATE_RQ :: (0 :: (bigEndian 4
      (AssociateRQ.payload version called calling app cs (u :: us)).length ++
      AssociateRQ.payload version called calling app cs (u :: us)))) := by
    simpa [AssociateRQ.wire] using h
  have h1 : (s.advance 1).AtBytes (0 :: (bigEndian 4 _ ++ _)) :=
    ReadStream.AtBytes.advance [ITEM_TYPE_PDU_ASSOCIATE_RQ] _ h0
  obtain ⟨hread, h2⟩ := pdu_read_at
    (AssociateRQ.readBytes (createByStream (g + 2)) (g + 2)) (s.advance 1) 0 _ _ h1
  rw [advance_advance] at h2 hread
  unfold AssociateRQ.payload at h2
  have h3 := ReadStream.AtBytes.step _ _ 8 h2 (by rw [bigEndian_length])
  have h4 := ReadStream.AtBytes.step [0, 0] _ 10 h3 rfl
  have h5 := ReadStream.AtBytes.step _ _ 26 h4 (by rw [padTitle_length _ hcalled])
  have h6 := ReadStream.AtBytes.step _ _ 42 h5 (by rw [padTitle_length _ hcalling])
  have h7 := ReadStream.AtBytes.step _ _ 74 h6 (by rw [List.length_replicate])
  have h8 := ReadStream.AtBytes.step _ _
    (74 + (itemBytes ITEM_TYPE_APPLICATION_CONTEXT app).length) h7 rfl
  have h9 := ReadStream.AtBytes.step _ _
    (74 + (itemBytes ITEM_TYPE_APPLICATION_CONTEXT app).length +
      (cs.map PresentationContextData.wire).flatten.length) h8 rfl
  have r1 := h2.readUInt16
  rw [Nat.mod_eq_of_lt hv, advance_advance] at r1
  have r2 := h4.readAscii
  rw [padTitle_length _ hcalled, advance_advance] at r2
  have r3 := h5.readAscii
  rw [padTitle_length _ hcalling, advance_advance] at r3
  have r4 := createByStream_stringItem (g + 1) (s.advance 74) ITEM_TYPE_APPLICATION_CONTEXT
    .ApplicationContextItem PDUObject.ApplicationContextItem app _ rfl (fun _ _ _ => rfl)
    h7 happ
  rw [advance_advance] at r4
  have r5 := loadWhile_list (createByStream (g + 2)) ITEM_TYPE_PRESENTATION_CONTEXT
    PresentationContextData.wire PresentationContextData.build
    (fun r => r.head? ≠ some ITEM_TYPE_TRANSFER_CONTEXT)
    (fun _ hh => by cases hh) cs (g + 2) _ [] _ hcs
    (fun x _ => ⟨_, rfl⟩)
    (fun x hx st r1 hr1 hst => createByStream_context g st x r1 (habs x hx) (htr x hx)
      (hne x hx) hr1 (hf2 x hx) hst)
    (by simp [itemBytes, ITEM_TYPE_USER_INFORMATION, ITEM_TYPE_TRANSFER_CONTEXT])
    (by simp [itemBytes, ITEM_TYPE_USER_INFORMATION, ITEM_TYPE_PRESENTATION_CONTEXT])
    h8 hf1
  rw [advance_advance] at r5
  obtain ⟨s1, r6⟩ := createByStream_userInformation g _ u us hus h9
  refine ⟨s1, ?_⟩
  rw [createByStream_registered (g + 2) s _ .AssociateRQ (h0.getElem _ _) rfl]
  have key : readOfClass (createByStream (g + 2)) (g + 2) PDUClass.AssociateRQ
      { s with offset := s.offset + 1 } =
      PDU.read (AssociateRQ.readBytes (createByStream (g + 2)) (g + 2)) (s.advance 1) := rfl
  rw [key, hread]
  simp only [AssociateRQ.readBytes, r1, bind, Except.bind, pure, Except.pure, advance_advance,
    increment_two, increment_thirtyTwo, Nat.reduceAdd, r2, r3, r4, r5, r6, List.nil_append]

/-! ## The slices tile the range -/

theorem slicesLoop_chain (maxSize total : Nat) (hm : 0 < maxSize) :
    ∀ (fuel start index : Nat), total - start < fuel →
      ∃ slices, slicesLoop fuel maxSize total start index = some slices ∧
        Slice.Chain start index slices ∧
        (slices.map Slice.length).sum = total - start ∧
        ∀ s ∈ slices, s.length ≤ maxSize := by
  intro fuel
  induction fuel with
  | zero => intro start index h; omega
  | succ fuel ih =>
    intro start index hfuel
    unfold slicesLoop
    by_cases hlt : start < total
    · simp only [hlt, if_true]
      by_cases hshort : total - start < maxSize
      · simp only [hshort, if_true]
        obtain ⟨rest, h1, h2, h3, h4⟩ := ih (start + (total - start)) (index + 1) (by omega)
        refine ⟨_, by rw [h1], ?_, ?_, ?_⟩
        · simp only [Slice.Chain, true_and]
          exact ⟨by omega, h2⟩
        · simp only [List.map_cons, List.sum_cons, h3]
          omega
        · intro s hs
          rcases List.mem_cons.mp hs with rfl | hs
          · simp only; omega
          · exact h4 s hs
      · simp only [hshort, if_false]
        obtain ⟨rest, h1, h2, h3, h4⟩ := ih (start + maxSize) (index + 1) (by omega)
        refine ⟨_, by rw [h1], ?_, ?_, ?_⟩
        · simp only [Slice.Chain, true_and]
          exact ⟨hm, h2⟩
        · simp only [List.map_cons, List.sum_cons, h3]
          omega
        · intro s hs
          rcases List.mem_cons.mp hs with rfl | hs
          · exact Nat.le_refl _
          · exact h4 s hs
    · simp only [hlt, if_false]
      exact ⟨[], rfl, trivial, by simp; omega, by simp⟩

theorem Slice.Chain.at_index : ∀ (slices : List Slice) (start index : Nat),
    Slice.Chain start index slices → ∀ (i : Nat) (s : Slice), slices[i]? = some s →
      s.index = index + i ∧ 0 < s.length ∧
        s.start = start + ((slices.take i).map Slice.length).sum := by
  intro slices
  induction slices with
  | nil => intro start index _ i s h; simp at h
  | cons x rest ih =>
    intro start index hc i s h
    obtain ⟨h1, h2, h3, h4⟩ := hc
    cases i with
    | zero =>
      simp only [List.getElem?_cons_zero, Option.some.injEq] at h
      subst h
      exact ⟨h2, h3, by simp [h1]⟩
    | succ i =>
      simp only [List.getElem?_cons_succ] at h
      obtain ⟨k1, k2, k3⟩ := ih _ _ h4 i s h
      refine ⟨by omega, k2, ?_⟩
      simp only [List.take_succ_cons, List.map_cons, List.sum_cons, k3]
      omega

theorem Slice.Chain.next : ∀ (slices : List Slice) (start index : Nat),
    Slice.Chain start index slices → ∀ (i : Nat) (a b : Slice), slices[i]? = some a →
      slices[i + 1]? = some b → b.start = a.start + a.length := by
  intro slices
  induction slices with
  | nil => intro start index _ i a b h; simp at h
  | cons x rest ih =>
    intro start index hc i a b ha hb
    obtain ⟨h1, h2, h3, h4⟩ := hc
    simp only [List.getElem?_cons_succ] at hb
    cases i with
    | zero =>
      simp only [List.getElem?_cons_zero, Option.some.injEq] at ha
      subst ha
      obtain ⟨_, _, k3⟩ := Slice.Chain.at_index rest _ _ h4 0 b hb
      simp only [List.take_zero, List.map_nil, List.sum_nil, Nat.add_zero] at k3
      rw [k3, h1]
    | succ i =>
      simp only [List.getElem?_cons_succ] at ha
      exact ih _ _ h4 i a b ha hb

/-! ## The size of the PDVs of `generatePDatas` -/

theorem emittedPDVs_emitSlices (context : Nat) (bufferOrFile : List Nat) (slices : List Slice) :
    emittedPDVs (emitSlices context bufferOrFile slices) =
      slices.map (fun s => RawDataPDV.new context
        (Buffer.slice bufferOrFile s.start s.length) 0 s.length s.isLast) := by
  induction slices with
  | nil => rfl
  | cons s rest ih =>
    cases rest with
    | nil => rfl
    | cons t rest =>
      simp only [emitSlices, emittedPDVs, List.isEmpty_cons, Bool.false_eq_true, if_false,
        List.map_cons, List.cons.injEq, true_and] at ih ⊢
      exact ih

theorem RawDataPDV.length_getFields (p : RawDataPDV) :
    Field.length p.getFields = .ok (6 + p.bufferLength) := by
  simp only [RawDataPDV.getFields, Field.length, PDU.length, UInt8Field, BufferField,
    lengthField, PDV.lengthBytes, if_true, tagFields, List.map_nil, List.sum_nil, UInt32Field,
    Field.primLength]
  congr 1
  omega

theorem RawDataPDV.totalLength_getFields (ps : List RawDataPDV) :
    PDataTF.totalLength (ps.map RawDataPDV.getFields) =
      .ok ((ps.map (fun p => 6 + p.bufferLength)).sum) := by
  unfold PDataTF.totalLength
  induction ps with
  | nil => rfl
  | cons p ps ih =>
    simp only [List.map_cons, PDU.length, RawDataPDV.length_getFields, ih, List.sum_cons]

theorem RawDataPDV.write_length_le (p : RawDataPDV) :
    ∃ bytes, Field.write p.getFields = .ok bytes ∧ bytes.length ≤ 6 + p.bufferLength := by
  refine ⟨bigEndian 4 (1 + (1 + (p.bufferLength + 0))) ++ ([p.contextId % 256] ++
    ([(if p.isLast then 1 else 0) * 2 % 256] ++
      ((p.dataFragmentBuffer.drop p.bufferStart).take p.bufferLength ++ []))), ?_, ?_⟩
  · simp [RawDataPDV.getFields, Field.write, PDU.length, Field.length, writeList, UInt8Field,
      BufferField, lengthField, PDV.lengthBytes, tagFields, UInt32Field, Field.primBytes,
      bigEndian]
  · simp only [List.length_append, bigEndian_length, List.length_singleton, List.length_take,
      List.length_nil]
    omega

/-! ## The loop of `UserInformationItem.prototype.readBytes` at the end of the data -/

theorem pushLoop_null_at_end (load : ReadStream → Except Error (PDUObject × ReadStream))
    (s : ReadStream) (hload : load s = .ok (.null, s)) :
    ∀ (fuel : Nat) (items : List PDUObject),
      UserInformationItem.pushLoop load .null fuel s items = .error .outOfFuel := by
  intro fuel
  induction fuel with
  | zero => intro items; rfl
  | succ fuel ih =>
    intro items
    rw [UserInformationItem.pushLoop]
    simp only [hload, bind, Except.bind, PDUObject.isNull, Bool.and_self, if_true, ih]

/-! ## The claims -/

set_option maxRecDepth 4000

/-- C1: for every association PDU and every list of presentation contexts it holds,
`allAccepted()` returns true if and only if every context in the list has result code
0; it returns true on the empty list, and false as soon as one context, at any
position `i`, has a result code other than 0. -/
theorem allAccepted_iff_all_result_zero (pdu : AssociateRQ) :
    (pdu.allAccepted = true ↔
        ∀ item ∈ pdu.presentationContextItems, item.resultReason = some 0) ∧
      (pdu.presentationContextItems = [] → pdu.allAccepted = true) ∧
      (∀ (i : Nat) (item : PresentationContextItem),
        pdu.presentationContextItems[i]? = some item → item.resultReason ≠ some 0 →
          pdu.allAccepted = false) := by
  refine ⟨allAcceptedLoop_iff _, ?_, ?_⟩
  · intro h
    simp [AssociateRQ.allAccepted, h, allAcceptedLoop]
  · intro i item hi hne
    have hmem : item ∈ pdu.presentationContextItems := List.getElem?_mem hi
    cases hall : pdu.allAccepted with
    | false => rfl
    | true => exact absurd ((allAcceptedLoop_iff _).mp hall item hmem) hne

/-- C2: for `M > 6` and at least one byte to split, with `L = total - (metaLength + 144)`:
the slice loop of `generatePDatas` finishes, the number of slices is the ceiling of
`L / (M - 6)`, every slice but the last has length `M - 6`, and the last has length
`L mod (M - 6)`, or `M - 6` when that remainder is zero. -/
theorem generatePDatas_slice_lengths (fuel total metaLength M : Nat)
    (hM : 6 < M) (hL : metaLength + 144 < total)
    (hfuel : total - (metaLength + 144) < fuel) :
    ∃ slices : List Slice,
      generateSlices fuel total metaLength M = some slices ∧
      slices.length = (total - (metaLength + 144) + (M - 6) - 1) / (M - 6) ∧
      (slices.length - 1) * (M - 6) < total - (metaLength + 144) ∧
      total - (metaLength + 144) ≤ slices.length * (M - 6) ∧
      (∀ i, i + 1 < slices.length → slices[i]?.map Slice.length = some (M - 6)) ∧
      slices.getLast?.map Slice.length =
        some (if (total - (metaLength + 144)) % (M - 6) = 0 then M - 6
              else (total - (metaLength + 144)) % (M - 6)) := by
  have hm : 0 < M - 6 := by omega
  have hL0 : 0 < total - (metaLength + 144) := by omega
  obtain ⟨hn1, hsum⟩ := ceilDiv_spec (total - (metaLength + 144)) (M - 6) hm hL0
  have hr := Nat.mod_lt (total - (metaLength + 144)) hm
  refine ⟨_, generateSlices_eq fuel total metaLength M hM hfuel, ?_, ?_, ?_, ?_, ?_⟩
  · simp
  · simp only [List.length_map, List.length_range]
    split at hsum <;> omega
  · simp only [List.length_map, List.length_range]
    generalize (total - (metaLength + 144) + (M - 6) - 1) / (M - 6) = n at hn1 hsum
    have := pred_mul_add n (M - 6) hn1
    split at hsum <;> omega
  · intro i hi
    simp only [List.length_map, List.length_range] at hi
    generalize (total - (metaLength + 144) + (M - 6) - 1) / (M - 6) = n at hn1 hsum hi
    have hle : (i + 1) * (M - 6) ≤ (n - 1) * (M - 6) :=
      Nat.mul_le_mul_right _ (by omega)
    rw [Nat.succ_mul] at hle
    have hnot : ¬ total - (metaLength + 144 + i * (M - 6)) < M - 6 := by
      split at hsum <;> omega
    have hi2 : i < n := by omega
    simp [List.getElem?_map, List.getElem?_range hi2, sliceAt, hnot]
  · rw [List.getLast?_eq_getElem?]
    simp only [List.length_map, List.length_range]
    generalize (total - (metaLength + 144) + (M - 6) - 1) / (M - 6) = n at hn1 hsum
    have hi2 : n - 1 < n := by omega
    by_cases h0 : (total - (metaLength + 144)) % (M - 6) = 0
    · rw [if_pos h0] at hsum
      have hnot : ¬ total - (metaLength + 144 + (n - 1) * (M - 6)) < M - 6 := by omega
      simp [List.getElem?_map, List.getElem?_range hi2, sliceAt, h0, hnot]
    · rw [if_neg h0] at hsum
      have hlt : total - (metaLength + 144 + (n - 1) * (M - 6)) < M - 6 := by omega
      simp only [List.getElem?_map, List.getElem?_range hi2, Option.map, sliceAt, if_pos hlt,
        if_neg h0, Option.some.injEq]
      omega

/-- Witness of C2: a buffer of 1,000,000 bytes, `metaLength` 0 and `M = 16384` give 62
slices, of which the first 61 have length 16378; the last has length 798. -/
theorem generatePDatas_slice_lengths_witness :
    ∃ slices : List Slice,
      generateSlices 1000000 1000000 0 16384 = some slices ∧
      slices.length = 62 ∧
      (∀ i, i + 1 < 62 → slices[i]?.map Slice.length = some 16378) ∧
      slices.getLast?.map Slice.length = some 798 := by
  obtain ⟨slices, h1, h2, _, _, h3, h4⟩ :=
    generatePDatas_slice_lengths 1000000 1000000 0 16384 (by decide) (by decide) (by decide)
  have h2n : slices.length = 62 := by rw [h2]
  refine ⟨slices, h1, h2n, ?_, ?_⟩
  · intro i hi
    exact h3 i (by omega)
  · rw [h4]; rfl

/-- C3, at total length 32900, `metaLength` 0 and maximum size 16384 (two full slices of
16378 bytes): the slices computed are the two below, and neither has `isLast = true`. -/
theorem generatePDatas_exact_multiple_has_no_last_slice :
    generateSlices 3 32900 0 16384 =
      some [{ start := 144, length := 16378, isLast := false, index := 0 },
            { start := 16522, length := 16378, isLast := false, index := 1 }] := by
  decide

/-- C4 as stated fails: 16 bytes to split with maximum size 16 (non-zero, at most
`maxSize`) give two slices, the first of which is not marked `isLast`. -/
theorem generatePDatas_at_most_maxSize_two_slices :
    0 < 160 - (0 + 144) ∧ 160 - (0 + 144) ≤ 16 ∧
      generateSlices 17 160 0 16 =
        some [{ start := 144, length := 10, isLast := false, index := 0 },
              { start := 154, length := 6, isLast := true, index := 1 }] := by
  decide

/-- C4, amended: whenever the payload length to split is non-zero and less than
`maxSize - 6`, the slice loop produces exactly one slice, which covers the whole
payload and is marked `isLast`. -/
theorem generatePDatas_single_slice (fuel total metaLength M : Nat)
    (hpos : metaLength + 144 < total)
    (hlt : total - (metaLength + 144) < M - 6)
    (hfuel : total - (metaLength + 144) < fuel) :
    generateSlices fuel total metaLength M =
      some [{ start := metaLength + 144, length := total - (metaLength + 144),
              isLast := true, index := 0 }] := by
  rw [generateSlices_eq fuel total metaLength M (by omega) hfuel]
  have h1 : (total - (metaLength + 144) + (M - 6) - 1) / (M - 6) = 1 := by
    apply Nat.div_eq_of_lt_le <;> omega
  rw [h1]
  simp [List.range_succ, sliceAt, hlt]

/-- Witness of C4, amended: 6 bytes to split with maximum size 16384. -/
theorem generatePDatas_single_slice_witness :
    generateSlices 7 150 0 16384 =
      some [{ start := 0 + 144, length := 150 - (0 + 144), isLast := true, index := 0 }] :=
  generatePDatas_single_slice 7 150 0 16384 (by decide) (by decide) (by decide)

/-- C5, at a buffer of 150 bytes (byte `i` has value `i`), context 1, maximum size
16384 and `metaLength` 0: the one slice has `start = 144` and `length = 6`; the PDV
emitted for it holds `bufferOrFile.slice(144, 6)`, which is empty, where the claim has
the bytes 144 to 149 of the buffer, and it encodes to its length field, context ID and
header, with no byte of the buffer. -/
theorem generatePDatas_fragment_is_not_the_slice :
    generateSlices 7 150 0 16384 =
        some [{ start := 144, length := 6, isLast := true, index := 0 }] ∧
      generatePDatas 7 1 (List.range 150) 16384 0 0 =
        some [Event.pdv { isLast := true, dataFragmentBuffer := [], bufferStart := 0,
                          bufferLength := 6, contextId := 1 },
              Event.finished] ∧
      ((List.range 150).drop 144).take 6 = [144, 145, 146, 147, 148, 149] ∧
      Field.write (RawDataPDV.getFields (RawDataPDV.new 1 [] 0 6 true))
        = .ok [0, 0, 0, 8, 1, 2] := by
  decide

/-- C6, at the same buffer of 150 bytes, context 1, maximum size 16384 and `metaLength`
0: splitting, encoding, decoding and merging gives one logical message, and it holds no
byte at all, where the bytes that were split are the bytes 144 to 149 of the buffer. -/
theorem split_merge_does_not_return_the_bytes :
    splitEncodeDecodeMerge 7 1 (List.range 150) 16384 0 0 =
        .ok [{ type := .data, isLast := 1, contextId := 1, messageStream := ⟨[], 0⟩ }] ∧
      (List.range 150).drop (0 + 144) = [144, 145, 146, 147, 148, 149] := by
  decide

/-- C7: for every PDV sequence whose last element is a final fragment, `mergePDVs`
returns: the sequence is made of runs `rs`, each a first PDV `r.1` and the PDVs `r.2`
after it, the run being non-final fragments followed by one final fragment; the result
has one entry per run, in the order of the runs; the entry is the first PDV of the run
with a message stream holding the data regions of all the fragments of the run in
arrival order; and a final PDV with no fragment before it is returned as it is. -/
theorem mergePDVs_one_entry_per_run (fuel : Nat) (pdvs : List PresentationDataValueItem)
    (hfuel : pdvs.length < fuel)
    (hlast : ∃ fin, pdvs.getLast? = some fin ∧ fin.isLast ≠ 0) :
    ∃ rs : List (PresentationDataValueItem × List PresentationDataValueItem),
      pdvs = (rs.map (fun r => r.1 :: r.2)).flatten ∧
      (∀ r ∈ rs, ∃ pre fin, r.1 :: r.2 = pre ++ [fin] ∧ (∀ p ∈ pre, p.isLast = 0) ∧
        fin.isLast ≠ 0) ∧
      mergePDVs fuel pdvs = .ok (rs.map mergedEntry) ∧
      (∀ r ∈ rs, r.2 = [] → mergedEntry r = r.1) := by
  obtain ⟨rs, tail, hp, hv, ht⟩ := exists_runs pdvs
  obtain ⟨fin, hfin, hfinal⟩ := hlast
  have htail : tail = [] := by
    cases tail with
    | nil => rfl
    | cons t ts =>
      rw [hp] at hfin
      exact absurd (ht fin (getLast?_append_cons_mem _ t ts fin hfin)) hfinal
  subst htail
  rw [List.append_nil] at hp
  refine ⟨rs, hp, hv, ?_, ?_⟩
  · have h := mergeOuter_runs rs [] [] [] fuel hv (by simp)
      (by rw [List.append_nil, ← hp]; exact hfuel)
    simp only [List.append_nil, List.nil_append, List.length_nil, tailEntry] at h
    rw [mergePDVs, hp, h]
    congr 1
    apply List.map_congr_left
    intro r _
    exact entryOf_eq_mergedEntry r
  · intro r _ h2
    simp [mergedEntry, h2]

/-- Witness of C7: the five PDVs of `examplePDVs` are merged into three entries. -/
theorem mergePDVs_one_entry_per_run_witness :
    examplePDVs.length < 6 ∧
      mergePDVs 6 examplePDVs =
        .ok [{ type := .data, isLast := 0, contextId := 1, messageStream := ⟨[1, 2, 3, 4], 0⟩ },
             { type := .command, isLast := 1, contextId := 3, messageStream := ⟨[5], 0⟩ },
             { type := .data, isLast := 3, contextId := 1, messageStream := ⟨[6, 7], 0⟩ }] ∧
      ∃ rs : List (PresentationDataValueItem × List PresentationDataValueItem),
        examplePDVs = (rs.map (fun r => r.1 :: r.2)).flatten ∧
        mergePDVs 6 examplePDVs = .ok (rs.map mergedEntry) := by
  obtain ⟨rs, h1, _, h3, _⟩ :=
    mergePDVs_one_entry_per_run 6 examplePDVs (by decide) ⟨_, rfl, by decide⟩
  exact ⟨by decide, by decide, rs, h1, h3⟩

/-- C8 as stated fails: a sequence of one non-final fragment has no PDV with `isLast`
set, and `mergePDVs` returns one entry for it. -/
theorem mergePDVs_entry_for_trailing_fragment :
    mergePDVs 2 [{ type := .data, isLast := 0, contextId := 1, messageStream := ⟨[7], 0⟩ }]
        = .ok [{ type := .data, isLast := 0, contextId := 1, messageStream := ⟨[7], 0⟩ }] ∧
      ([{ type := .data, isLast := 0, contextId := 1, messageStream := ⟨[7], 0⟩ }] :
        List PresentationDataValueItem).countP (fun p => decide (p.isLast ≠ 0)) = 0 := by
  decide

/-- C8, amended: for every PDV sequence, `mergePDVs` returns, and the number of entries
it returns is the number of PDVs of the sequence with `isLast` set, plus one when the
sequence ends with a PDV that has `isLast` not set. -/
theorem mergePDVs_count_of_entries (fuel : Nat) (pdvs : List PresentationDataValueItem)
    (hfuel : pdvs.length < fuel) :
    ∃ merges, mergePDVs fuel pdvs = .ok merges ∧
      merges.length = pdvs.countP (fun p => decide (p.isLast ≠ 0)) +
        (match pdvs.getLast? with
          | some p => if p.isLast = 0 then 1 else 0
          | none => 0) := by
  obtain ⟨rs, tail, hp, hv, ht⟩ := exists_runs pdvs
  have h := mergeOuter_runs rs tail [] [] fuel hv ht (by rw [← hp]; exact hfuel)
  simp only [List.nil_append, List.length_nil] at h
  refine ⟨_, by rw [mergePDVs, hp]; exact h, ?_⟩
  have hz : tail.countP (fun p => decide (p.isLast ≠ 0)) = 0 := by
    rw [List.countP_eq_zero]
    intro a ha
    simp [ht a ha]
  rw [hp, List.countP_append, unruns_countP rs hv, hz, List.length_append, List.length_map]
  cases tail with
  | nil =>
    simp only [tailEntry, List.length_nil, List.append_nil, Nat.add_zero]
    cases hl : (unruns rs).getLast? with
    | none => rfl
    | some x => simp [unruns_getLast_final rs hv x hl]
  | cons t ts =>
    cases hl : (unruns rs ++ t :: ts).getLast? with
    | none => simp at hl
    | some x =>
      have hx := ht x (getLast?_append_cons_mem _ t ts x hl)
      simp [tailEntry, hx]

/-- Witness of C8, amended: three entries for the three final fragments of
`examplePDVs`. -/
theorem mergePDVs_count_of_entries_witness :
    ∃ merges, mergePDVs 6 examplePDVs = .ok merges ∧ merges.length = 3 + 0 :=
  mergePDVs_count_of_entries 6 examplePDVs (by decide)

/-- C9: for every node (a PDU, an item or a PDV, at any depth) whose primitive fields
report the number of bytes they write, whose `lengthBytes` are 4 or 2 and whose payload
fits its length field: encoding succeeds, the bytes are the tag and reserved byte (if
the node has a type), then the length field on `lengthBytes` bytes, then the payload;
the value of the length field is the number of bytes of the payload; each member of the
payload, a nested item included, contributes all the bytes of its own encoding; and
`lengthBytes` is 4 for PDUs and PDVs and 2 for items. -/
theorem length_field_counts_payload_bytes (type : Option Nat) (lengthBytes : Nat)
    (fields : List Field)
    (hwf : (Field.node type lengthBytes fields).wellFormed = true)
    (hfit : ∃ n, PDU.length fields = .ok n ∧ n < 256 ^ lengthBytes) :
    ∃ payload : List Nat,
      writeList fields = .ok payload ∧
      PDU.buffer type lengthBytes fields =
        .ok (tagBytes type ++ bigEndian lengthBytes payload.length ++ payload) ∧
      (bigEndian lengthBytes payload.length).length = lengthBytes ∧
      beValue (bigEndian lengthBytes payload.length) = payload.length ∧
      (∀ child ∈ fields, ∃ bytes, Field.write child = .ok bytes ∧
        Field.length child = .ok bytes.length) ∧
      (lengthBytes = PDU.lengthBytes ∨ lengthBytes = PDV.lengthBytes ∨
        lengthBytes = Item.lengthBytes) ∧
      PDU.lengthBytes = 4 ∧ PDV.lengthBytes = 4 ∧ Item.lengthBytes = 2 := by
  have hwf2 := hwf
  simp only [Field.wellFormed, Bool.and_eq_true, Bool.or_eq_true, decide_eq_true_eq] at hwf2
  obtain ⟨hlb, hfs⟩ := hwf2
  obtain ⟨payload, hw, hl⟩ := writeList_length_of_wellFormed fields hfs
  obtain ⟨n, hn, hlt⟩ := hfit
  rw [hl] at hn
  cases hn
  refine ⟨payload, hw, ?_, bigEndian_length _ _, ?_, ?_, ?_, rfl, rfl, rfl⟩
  · rcases hlb with rfl | rfl
    · simp [PDU.buffer, Field.write, hl, hw, lengthField, UInt32Field, Field.primBytes, tagBytes]
    · simp [PDU.buffer, Field.write, hl, hw, lengthField, UInt16Field, Field.primBytes, tagBytes]
  · rw [beValue_bigEndian, Nat.mod_eq_of_lt hlt]
  · intro child hchild
    have : child.wellFormed = true := by
      clear hw hl hlt hwf
      induction fields with
      | nil => simp at hchild
      | cons f fs ih =>
        simp only [wellFormedList, Bool.and_eq_true] at hfs
        rcases List.mem_cons.mp hchild with rfl | h
        · exact hfs.1
        · exact ih hfs.2 h
    exact Field.write_length_of_wellFormed child this
  · rcases hlb with rfl | rfl
    · left; rfl
    · right; right; rfl

/-- Witness of C9: a User-Information item holding a Maximum-Length item of value
16384. -/
theorem length_field_counts_payload_bytes_witness :
    PDU.buffer (some ITEM_TYPE_USER_INFORMATION) Item.lengthBytes
        [MaximumLengthItem.getFields 16384]
        = .ok [0x50, 0, 0, 8, 0x51, 0, 0, 4, 0, 0, 0x40, 0] ∧
      ∃ payload : List Nat,
        writeList [MaximumLengthItem.getFields 16384] = .ok payload ∧
        PDU.buffer (some ITEM_TYPE_USER_INFORMATION) Item.lengthBytes
            [MaximumLengthItem.getFields 16384]
          = .ok (tagBytes (some ITEM_TYPE_USER_INFORMATION) ++
              bigEndian Item.lengthBytes payload.length ++ payload) ∧
        beValue (bigEndian Item.lengthBytes payload.length) = payload.length := by
  obtain ⟨payload, h1, h2, _, h4, _⟩ :=
    length_field_counts_payload_bytes (some ITEM_TYPE_USER_INFORMATION) Item.lengthBytes
      [MaximumLengthItem.getFields 16384] (by decide) ⟨8, by decide, by decide⟩
  exact ⟨by decide, payload, h1, h2, h4⟩

/-- C10 as stated fails: a payload holding one PDV with length prefix 3 (7 bytes with
the prefix), decoded for the declared payload length 5, gives a PDV list and no
error. -/
theorem loadPDV_returns_list_on_mismatch :
    PDataTF.readBytes 2 ⟨[0, 0, 0, 3, 1, 2, 9], 0⟩ 5
        = .ok ([{ type := .data, isLast := 1, contextId := 1, messageStream := ⟨[9], 0⟩ }],
            ⟨[0, 0, 0, 3, 1, 2, 9], 7⟩) ∧
      3 + 4 ≠ 5 := by
  decide

/-- C10, amended: for a stream that is not at its end and any `fuel` above the
declared payload length, `loadPDV` either raises the range error of a read past the end
of the data, or returns the PDV list: it reads PDVs until the count `n` of bytes read
(the sum of the PDV length prefixes, each counted with its 4 prefix bytes) reaches or
passes the declared length. The declared length is then at most `n`, and decoding for
any declared length from there up to `n` returns the same list: a declared length
below the count raises no framing error. -/
theorem loadPDV_mismatch_tolerated (fuel : Nat) (stream : ReadStream) (length : Nat)
    (hfuel : length < fuel) (hne : stream.isEnd = false) :
    loadPDV fuel stream length = .error .rangeError ∨
      ∃ pdvs s n, loadPDVLoop fuel stream length 0 [] = .ok (pdvs, s, n) ∧ length ≤ n ∧
        ∀ declared, length ≤ declared → declared ≤ n →
          loadPDV fuel stream declared = .ok (some pdvs, s) ∧
          PDataTF.readBytes fuel stream declared = .ok (pdvs, s) := by
  rcases loadPDVLoop_terminates fuel stream length 0 [] (by omega) with h | ⟨pdvs, s, n, h⟩
  · left
    simp [loadPDV, hne, h]
  · right
    obtain ⟨hle, _, hdecl⟩ := loadPDVLoop_declared fuel stream length 0 [] pdvs s n h
    refine ⟨pdvs, s, n, h, hle, ?_⟩
    intro declared hd1 hd2
    have h2 := hdecl declared hd1 hd2
    have h3 : loadPDV fuel stream declared = .ok (some pdvs, s) := by
      simp [loadPDV, hne, h2]
    exact ⟨h3, by simp [PDataTF.readBytes, h3]⟩

/-- Witness of C10, amended: one PDV with length prefix 3, decoded for the declared
lengths 5, 6 and 7. -/
theorem loadPDV_mismatch_tolerated_witness :
    (6 : Nat) ≤ 7 ∧
      PDataTF.readBytes 6 ⟨[0, 0, 0, 3, 1, 2, 9], 0⟩ 5
        = .ok ([{ type := .data, isLast := 1, contextId := 1, messageStream := ⟨[9], 0⟩ }],
            ⟨[0, 0, 0, 3, 1, 2, 9], 7⟩) ∧
      PDataTF.readBytes 6 ⟨[0, 0, 0, 3, 1, 2, 9], 0⟩ 6
        = .ok ([{ type := .data, isLast := 1, contextId := 1, messageStream := ⟨[9], 0⟩ }],
            ⟨[0, 0, 0, 3, 1, 2, 9], 7⟩) ∧
      PDataTF.readBytes 6 ⟨[0, 0, 0, 3, 1, 2, 9], 0⟩ 7
        = .ok ([{ type := .data, isLast := 1, contextId := 1, messageStream := ⟨[9], 0⟩ }],
            ⟨[0, 0, 0, 3, 1, 2, 9], 7⟩) := by
  rcases loadPDV_mismatch_tolerated 6 ⟨[0, 0, 0, 3, 1, 2, 9], 0⟩ 5 (by decide) (by decide) with
    h | ⟨pdvs, s, n, h1, _, h3⟩
  · exact absurd h (by decide)
  · have e : loadPDVLoop 6 ⟨[0, 0, 0, 3, 1, 2, 9], 0⟩ 5 0 []
        = .ok ([{ type := .data, isLast := 1, contextId := 1, messageStream := ⟨[9], 0⟩ }],
            ⟨[0, 0, 0, 3, 1, 2, 9], 7⟩, 7) := by decide
    rw [e] at h1
    simp only [Except.ok.injEq, Prod.mk.injEq] at h1
    obtain ⟨rfl, rfl, rfl⟩ := h1
    exact ⟨by decide, (h3 5 (by decide) (by decide)).2, (h3 6 (by decide) (by decide)).2,
      (h3 7 (by decide) (by decide)).2⟩

/-- C11 as stated fails: on the ten bytes that a `ReleaseRQ` encodes to (tag `0x05`,
not registered), `PDU.createByStream` throws with the cursor at offset 1, after the tag
byte only, not at offset 2. -/
theorem createByStream_unknown_tag_cursor_after_one_byte :
    PDUObject.ReleaseRQ.buffer = .ok [5, 0, 0, 0, 0, 4, 0, 0, 0, 0] ∧
      createByStream 1 ⟨[5, 0, 0, 0, 0, 4, 0, 0, 0, 0], 0⟩ = .error (.unrecognizedType 5 1) ∧
      (1 : Nat) ≠ 0 + 2 := by
  refine ⟨by decide, by rfl, by decide⟩

/-- C11, amended: for every stream that is not at its end and whose next byte is none
of the registered tags, `PDU.createByStream` fails with the unrecognized-type error
that carries this tag, it returns no object, and the cursor is left immediately after
the tag byte, one byte past where decoding started (the reserved byte is not read). -/
theorem createByStream_unknown_tag (fuel : Nat) (stream : ReadStream) (tag : Nat)
    (hfuel : 0 < fuel)
    (hbyte : stream.rawBuffer[stream.offset]? = some tag)
    (htag : tag ∉ registeredTags) :
    stream.isEnd = false ∧
      createByStream fuel stream = .error (.unrecognizedType tag (stream.offset + 1)) := by
  obtain ⟨f, rfl⟩ : ∃ f, fuel = f + 1 := ⟨fuel - 1, by omega⟩
  exact ⟨isEnd_eq_false_of_getElem stream tag hbyte,
    createByStream_unrecognized f stream tag hbyte htag⟩

/-- Witness of C11, amended: the tag `0xFF` after two bytes already read. -/
theorem createByStream_unknown_tag_witness :
    (⟨[1, 2, 0xFF, 0, 0, 0], 2⟩ : ReadStream).isEnd = false ∧
      createByStream 3 ⟨[1, 2, 0xFF, 0, 0, 0], 2⟩ = .error (.unrecognizedType 0xFF (2 + 1)) :=
  createByStream_unknown_tag 3 ⟨[1, 2, 0xFF, 0, 0, 0], 2⟩ 0xFF (by decide) (by decide)
    (by decide)

/-- C12, at a User-Information item holding a Maximum-Length item (16384) and an
Implementation-Class-UID item (`1.2`): it encodes to 19 bytes, and decoding them gives
a User-Information item with the Maximum-Length item only; the second sub-item is read
and dropped. With a third sub-item (Implementation-Version-Name `v`, 24 bytes) the
result is the same and the cursor stops at offset 19, before the third sub-item. -/
theorem userInformation_decodes_first_subitem_only :
    (PDUObject.UserInformationItem
        [.MaximumLengthItem 16384, .ImplementationClassUIDItem (ascii "1.2")]).buffer
        = .ok [0x50, 0, 0, 15, 0x51, 0, 0, 4, 0, 0, 0x40, 0, 0x52, 0, 0, 3, 49, 46, 50] ∧
      createByStream 3
          ⟨[0x50, 0, 0, 15, 0x51, 0, 0, 4, 0, 0, 0x40, 0, 0x52, 0, 0, 3, 49, 46, 50], 0⟩
        = .ok (.UserInformationItem [.MaximumLengthItem 16384],
            ⟨[0x50, 0, 0, 15, 0x51, 0, 0, 4, 0, 0, 0x40, 0, 0x52, 0, 0, 3, 49, 46, 50], 19⟩) ∧
      (PDUObject.UserInformationItem
        [.MaximumLengthItem 16384, .ImplementationClassUIDItem (ascii "1.2"),
         .ImplementationVersionNameItem (ascii "v")]).buffer
        = .ok [0x50, 0, 0, 20, 0x51, 0, 0, 4, 0, 0, 0x40, 0, 0x52, 0, 0, 3, 49, 46, 50,
               0x55, 0, 0, 1, 118] ∧
      createByStream 3
          ⟨[0x50, 0, 0, 20, 0x51, 0, 0, 4, 0, 0, 0x40, 0, 0x52, 0, 0, 3, 49, 46, 50,
            0x55, 0, 0, 1, 118], 0⟩
        = .ok (.UserInformationItem [.MaximumLengthItem 16384],
            ⟨[0x50, 0, 0, 20, 0x51, 0, 0, 4, 0, 0, 0x40, 0, 0x52, 0, 0, 3, 49, 46, 50,
              0x55, 0, 0, 1, 118], 19⟩) := by
  refine ⟨by decide, by rfl, by decide, by rfl⟩

/-- C13: for every `AssociateAC` whose User-Information item holds the sub-items
`items` (objects of item classes), `getMaxSize()` returns; it returns the value of the
first Maximum-Length item among the sub-items, and it returns `null` if and only if no
sub-item is a Maximum-Length item. -/
theorem getMaxSize_first_maximum_length (type protocolVersion : Nat)
    (calledAETitle callingAETitle : Option (List Nat)) (applicationContextItem : PDUObject)
    (presentationContextItems items : List PDUObject)
    (hitems : ∀ it ∈ items, it.isItem = true) :
    (∃ size, (PDUObject.AssociateAC type protocolVersion calledAETitle callingAETitle
        applicationContextItem presentationContextItems
        (.UserInformationItem items)).getMaxSize = .ok size) ∧
      (∀ pre v post, items = pre ++ .MaximumLengthItem v :: post →
        (∀ it ∈ pre, ∀ w, it ≠ .MaximumLengthItem w) →
        (PDUObject.AssociateAC type protocolVersion calledAETitle callingAETitle
          applicationContextItem presentationContextItems
          (.UserInformationItem items)).getMaxSize = .ok (some v)) ∧
      ((PDUObject.AssociateAC type protocolVersion calledAETitle callingAETitle
          applicationContextItem presentationContextItems
          (.UserInformationItem items)).getMaxSize = .ok none ↔
        ∀ it ∈ items, ∀ v, it ≠ .MaximumLengthItem v) := by
  have hfirst : ∀ pre v post, items = pre ++ .MaximumLengthItem v :: post →
      (∀ it ∈ pre, ∀ w, it ≠ .MaximumLengthItem w) →
      getMaxSizeLoop items = .ok (some v) := by
    intro pre v post he hpre
    rw [he]
    exact getMaxSizeLoop_first pre post v
      (fun it hit => hitems it (by rw [he]; exact List.mem_append_left _ hit)) hpre
  have hsplit : (∀ it ∈ items, ∀ v, it ≠ .MaximumLengthItem v) ∨
      ∃ pre v post, items = pre ++ .MaximumLengthItem v :: post ∧
        ∀ it ∈ pre, ∀ w, it ≠ .MaximumLengthItem w := by
    clear hfirst hitems
    induction items with
    | nil => left; simp
    | cons it rest ih =>
      by_cases hit : ∃ v, it = .MaximumLengthItem v
      · obtain ⟨v, rfl⟩ := hit
        exact Or.inr ⟨[], v, rest, rfl, by simp⟩
      · rcases ih with hno | ⟨pre, v, post, he, hpre⟩
        · left
          intro x hx w
          rcases List.mem_cons.mp hx with rfl | hx
          · exact fun e => hit ⟨w, e⟩
          · exact hno x hx w
        · refine Or.inr ⟨it :: pre, v, post, by rw [he]; rfl, ?_⟩
          intro x hx w
          rcases List.mem_cons.mp hx with rfl | hx
          · exact fun e => hit ⟨w, e⟩
          · exact hpre x hx w
  refine ⟨?_, hfirst, ?_⟩
  · rcases hsplit with hno | ⟨pre, v, post, he, hpre⟩
    · exact ⟨none, getMaxSizeLoop_no_item items hitems hno⟩
    · exact ⟨some v, hfirst pre v post he hpre⟩
  · constructor
    · intro h
      rcases hsplit with hno | ⟨pre, v, post, he, hpre⟩
      · exact hno
      · have h2 := hfirst pre v post he hpre
        simp only [PDUObject.getMaxSize] at h
        rw [h2] at h
        cases h
    · intro hno
      exact getMaxSizeLoop_no_item items hitems hno

/-- Witness of C13: an Implementation-Class-UID item, then two Maximum-Length items. -/
theorem getMaxSize_first_maximum_length_witness :
    (PDUObject.AssociateAC ITEM_TYPE_PDU_ASSOCIATE_AC 1 none none .null []
      (.UserInformationItem [.ImplementationClassUIDItem (ascii "1.2"),
        .MaximumLengthItem 16384, .MaximumLengthItem 5])).getMaxSize = .ok (some 16384) :=
  (getMaxSize_first_maximum_length ITEM_TYPE_PDU_ASSOCIATE_AC 1 none none .null []
    [.ImplementationClassUIDItem (ascii "1.2"), .MaximumLengthItem 16384, .MaximumLengthItem 5]
    (by decide)).2.1 [.ImplementationClassUIDItem (ascii "1.2")] 16384 [.MaximumLengthItem 5]
    rfl (by
      intro it hit w
      rw [List.mem_singleton] at hit
      subst hit
      exact PDUObject.noConfusion)

/-- C14, at the accept PDU of the example of the spec (`exampleAssociateAC`, built with
the constructor and the setters, Maximum-Length 16384): its encoding starts with the
byte `0x01`, not `0x02`; `PDU.createByStream` makes an `AssociateRQ` of it, and
`getMaxSize()` is not a method of that object (a type error). -/
theorem associateAC_encodes_with_request_tag :
    ∃ bytes s,
      exampleAssociateAC.buffer = .ok bytes ∧
      bytes.head? = some 0x01 ∧
      createByStream 4 ⟨bytes, 0⟩ =
        .ok (.AssociateRQ ITEM_TYPE_PDU_ASSOCIATE_RQ 1 (some (ascii "STORAGE_SCP     "))
              (some (ascii "STORAGE_SCU     "))
              (.ApplicationContextItem (ascii "1.2.840.10008.3.1.1.1"))
              [.PresentationContextItem 1 none (.AbstractSyntaxItem (ascii "1.2.840.10008.1.1"))
                [.TransferSyntaxItem (ascii "1.2.840.10008.1.2")]]
              (.UserInformationItem [.MaximumLengthItem 16384]), s) ∧
      (PDUObject.AssociateRQ ITEM_TYPE_PDU_ASSOCIATE_RQ 1 (some (ascii "STORAGE_SCP     "))
          (some (ascii "STORAGE_SCU     "))
          (.ApplicationContextItem (ascii "1.2.840.10008.3.1.1.1"))
          [.PresentationContextItem 1 none (.AbstractSyntaxItem (ascii "1.2.840.10008.1.1"))
            [.TransferSyntaxItem (ascii "1.2.840.10008.1.2")]]
          (.UserInformationItem [.MaximumLengthItem 16384])).getMaxSize = .error .typeError :=
  ⟨_, _, rfl, rfl, rfl, rfl⟩

/-- C16, at a P-DATA-TF holding one PDV (`examplePDataTF`): before `buffer()` the list
`presentationDataValueItems` has one member and `totalLength()` is 9; after the call
the list has four members (tag, reserved and length fields in front of the PDV) and
`totalLength()` is 15; a second call of `buffer()` returns other bytes than the
first. -/
theorem pDataTF_buffer_changes_the_object :
    examplePDataTF.presentationDataValueItems.length = 1 ∧
      PDataTF.totalLength examplePDataTF.presentationDataValueItems = .ok 9 ∧
      ∃ after again,
        PDataTF.buffer examplePDataTF
          = .ok ([4, 0, 0, 0, 0, 9, 0, 0, 0, 5, 1, 2, 10, 20, 30], after) ∧
        after.presentationDataValueItems.length = 4 ∧
        PDataTF.totalLength after.presentationDataValueItems = .ok 15 ∧
        PDataTF.buffer after
          = .ok ([4, 0, 0, 0, 0, 15, 4, 0, 0, 0, 0, 9, 0, 0, 0, 5, 1, 2, 10, 20, 30], again) :=
  ⟨rfl, rfl, _, _, rfl, rfl, rfl, rfl⟩

/-- C17: for every stream and expected tag, `nextItemIs` returns with the cursor (and
the rest of the stream) as it was before the call; it returns true if and only if the
stream is not at its end and the byte at the cursor equals the expected tag. -/
theorem nextItemIs_keeps_cursor (stream : ReadStream) (pduType : Nat) :
    ∃ b, nextItemIs stream pduType = .ok (b, stream) ∧
      (b = true ↔
        stream.isEnd = false ∧ stream.rawBuffer[stream.offset]? = some pduType) := by
  cases hb : stream.rawBuffer[stream.offset]? with
  | none =>
    have hend : stream.isEnd = true := by
      rw [List.getElem?_eq_none_iff] at hb
      simp [ReadStream.isEnd, hb]
    exact ⟨false, nextItemIs_of_isEnd stream pduType hend, by simp [hend]⟩
  | some b =>
    refine ⟨decide (pduType = b), nextItemIs_of_getElem stream b pduType hb, ?_⟩
    rw [isEnd_eq_false_of_getElem stream b hb]
    simp only [decide_eq_true_eq, true_and, Option.some.injEq]
    exact eq_comm

/-- C19, at the header byte 4 (bit 1 clear, bit 2 set): `readBytes` stores
`isLast = 4 >> 1 = 2`, which is truthy, so the PDV counts as a final fragment; for the
header byte 5 the classification is command and `isLast` is 2 as well. -/
theorem readBytes_header_four_is_last :
    PresentationDataValueItem.readBytes ⟨[1, 4, 9], 0⟩ 3
        = .ok ({ type := .data, isLast := 2, contextId := 1, messageStream := ⟨[9], 0⟩ },
            ⟨[1, 4, 9], 3⟩) ∧
      PresentationDataValueItem.readBytes ⟨[1, 5, 9], 0⟩ 3
        = .ok ({ type := .command, isLast := 2, contextId := 1, messageStream := ⟨[9], 0⟩ },
            ⟨[1, 5, 9], 3⟩) ∧
      4 / 2 % 2 = 0 ∧ (2 : Nat) ≠ 0 := by
  decide

/-- C20: the `switch` of `PDU.createByStream` makes an object exactly for the fourteen
registered tags: on a stream whose next byte is one of them the object of the class of
the tag is made and reads itself, and for every other byte, the 242 other values, the
unrecognized-type error is raised; the tag of `ReleaseRQ`, the first byte of its
encoding, is among these. `PDU.typeToString` returns a name for exactly the same
fourteen tags and `null` for every other. -/
theorem createByStream_fourteen_tags :
    registeredTags.length = 14 ∧
      ((List.range 256).filter (fun t => decide (t ∉ registeredTags))).length = 242 ∧
      (∀ t, (∃ c, classOfType t = some c) ↔ t ∈ registeredTags) ∧
      (∀ (fuel : Nat) (stream : ReadStream) (t : Nat),
        stream.rawBuffer[stream.offset]? = some t → t ∈ registeredTags →
        ∃ c, classOfType t = some c ∧
          createByStream (fuel + 1) stream =
            readOfClass (createByStream fuel) fuel c
              { stream with offset := stream.offset + 1 }) ∧
      (∀ (fuel : Nat) (stream : ReadStream) (t : Nat),
        stream.rawBuffer[stream.offset]? = some t → t ∉ registeredTags →
        createByStream (fuel + 1) stream
          = .error (.unrecognizedType t (stream.offset + 1))) ∧
      ITEM_TYPE_PDU_RELEASE_RQ ∉ registeredTags ∧
      (PDUObject.ReleaseRQ.buffer).map List.head?
        = .ok (some ITEM_TYPE_PDU_RELEASE_RQ) ∧
      (∀ t, (∃ name, typeToString t = some name) ↔ t ∈ registeredTags) := by
  refine ⟨by decide, by decide, ?_, ?_, ?_, by decide, by decide, ?_⟩
  · intro t
    constructor
    · rintro ⟨c, hc⟩
      by_contra hn
      rw [classOfType_eq_none t hn] at hc
      cases hc
    · exact classOfType_isSome t
  · intro fuel stream t hbyte ht
    obtain ⟨c, hc⟩ := classOfType_isSome t ht
    exact ⟨c, hc, createByStream_registered fuel stream t c hbyte hc⟩
  · intro fuel stream t hbyte ht
    exact createByStream_unrecognized fuel stream t hbyte ht
  · intro t
    constructor
    · rintro ⟨c, hc⟩
      by_contra hn
      rw [typeToString_eq_none t hn] at hc
      cases hc
    · exact typeToString_isSome t

/-- C18: for PDVs `ps` made by `RawDataPDV` with a context ID in 0..255, a byte range
inside the buffer and a length that fits the 4-byte length field: each encodes, with no
tag or reserved byte, to the 4-byte big-endian value `len(b) + 2`, then the context ID,
then the header byte (2 if `isLast`, else 0), then the byte range `b`; and decoding the
payload made of these encodings, for its length, with `loadPDV` (through
`PDataTF.prototype.readBytes`) returns in order one PDV per encoding, with the same
context ID, `isLast` set exactly when it was, the data classification and a message
stream equal to `b`, and leaves the cursor at the end of the payload. -/
theorem rawDataPDV_encoding_and_loadPDV (ps : List RawDataPDV) (fuel : Nat)
    (hps : ∀ p ∈ ps, p.contextId < 256 ∧
      p.bufferStart + p.bufferLength ≤ p.dataFragmentBuffer.length ∧
      p.bufferLength + 2 < 2 ^ 32)
    (hfuel : ps.length < fuel) :
    (∀ p ∈ ps,
      Field.write p.getFields =
        .ok (bigEndian 4 (p.fragment.length + 2) ++
          [p.contextId, if p.isLast then 2 else 0] ++ p.fragment) ∧
      p.fragment.length = p.bufferLength ∧
      p.decoded.contextId = p.contextId ∧
      (p.decoded.isLast ≠ 0 ↔ p.isLast = true) ∧
      p.decoded.type = DataType.data ∧
      p.decoded.messageStream = { rawBuffer := p.fragment, offset := 0 }) ∧
    ∃ payload : List Nat,
      writeList (ps.map RawDataPDV.getFields) = .ok payload ∧
      PDataTF.readBytes fuel { rawBuffer := payload, offset := 0 } payload.length =
        .ok (ps.map RawDataPDV.decoded, { rawBuffer := payload, offset := payload.length }) ∧
      (ps ≠ [] →
        loadPDV fuel { rawBuffer := payload, offset := 0 } payload.length =
          .ok (some (ps.map RawDataPDV.decoded),
            { rawBuffer := payload, offset := payload.length })) := by
  have hps2 : ∀ p ∈ ps, p.contextId < 256 ∧
      p.bufferStart + p.bufferLength ≤ p.dataFragmentBuffer.length :=
    fun p hp => ⟨(hps p hp).1, (hps p hp).2.1⟩
  have hfit : ∀ p ∈ ps, p.fragment.length + 2 < 2 ^ 32 := by
    intro p hp
    rw [p.fragment_length (hps p hp).2.1]
    exact (hps p hp).2.2
  refine ⟨?_, (ps.map RawDataPDV.wire).flatten, writeList_wire ps hps2, ?_⟩
  · intro p hp
    refine ⟨RawDataPDV.write_getFields p (hps p hp).1 (hps p hp).2.1,
      p.fragment_length (hps p hp).2.1, rfl, ?_, rfl, rfl⟩
    simp only [RawDataPDV.decoded]
    cases p.isLast <;> simp
  · have hloop := loadPDVLoop_wire ps fuel ⟨(ps.map RawDataPDV.wire).flatten, 0⟩
      (ps.map RawDataPDV.wire).flatten.length 0 [] hfit
      (ReadStream.AtBytes.start _) (by simp) hfuel
    simp only [List.nil_append, ReadStream.advance, Nat.zero_add] at hloop
    cases ps with
    | nil =>
      refine ⟨?_, fun h => absurd rfl h⟩
      simp [PDataTF.readBytes, loadPDV, ReadStream.isEnd]
    | cons p ps =>
      have hne : (ReadStream.mk ((p :: ps).map RawDataPDV.wire).flatten 0).isEnd = false := by
        simp [ReadStream.isEnd, RawDataPDV.wire, bigEndian]
      have hl : loadPDV fuel ⟨((p :: ps).map RawDataPDV.wire).flatten, 0⟩
          ((p :: ps).map RawDataPDV.wire).flatten.length =
          .ok (some ((p :: ps).map RawDataPDV.decoded),
            ⟨((p :: ps).map RawDataPDV.wire).flatten,
              ((p :: ps).map RawDataPDV.wire).flatten.length⟩) := by
        simp only [loadPDV, hne, Bool.false_eq_true, if_false, hloop]
      exact ⟨by simp only [PDataTF.readBytes, hl], fun _ => hl⟩

/-- Witness of C18: a non-final PDV for the bytes 1 and 2 of a buffer and a final PDV
for its bytes 3, 4 and 5. -/
theorem rawDataPDV_encoding_and_loadPDV_witness :
    writeList ([RawDataPDV.new 1 [0, 10, 20, 30, 40, 50] 1 2 false,
        RawDataPDV.new 3 [0, 10, 20, 30, 40, 50] 3 3 true].map RawDataPDV.getFields)
      = .ok [0, 0, 0, 4, 1, 0, 10, 20, 0, 0, 0, 5, 3, 2, 30, 40, 50] ∧
    ∃ payload : List Nat,
      writeList ([RawDataPDV.new 1 [0, 10, 20, 30, 40, 50] 1 2 false,
          RawDataPDV.new 3 [0, 10, 20, 30, 40, 50] 3 3 true].map RawDataPDV.getFields)
        = .ok payload ∧
      PDataTF.readBytes 3 { rawBuffer := payload, offset := 0 } payload.length =
        .ok ([{ type := .data, isLast := 0, contextId := 1, messageStream := ⟨[10, 20], 0⟩ },
              { type := .data, isLast := 1, contextId := 3,
                messageStream := ⟨[30, 40, 50], 0⟩ }],
          { rawBuffer := payload, offset := payload.length }) := by
  obtain ⟨_, payload, h1, h2, _⟩ := rawDataPDV_encoding_and_loadPDV
    [RawDataPDV.new 1 [0, 10, 20, 30, 40, 50] 1 2 false,
      RawDataPDV.new 3 [0, 10, 20, 30, 40, 50] 3 3 true] 3 (by decide) (by decide)
  exact ⟨by decide, payload, h1, h2⟩

/-- C15: an `AssociateRQ` built with a protocol version that fits two bytes, titles of
at most 16 bytes, names that fit the two-byte item length, at least one presentation
context (each with a one-byte context ID, one abstract syntax and at least one transfer
syntax) and a User-Information item with at least one sub-item encodes to bytes, and
`PDU.createByStream` on these bytes, with fuel above the number of contexts and of
transfer syntaxes of a context, returns an `AssociateRQ` with the same protocol
version, the two titles blank-padded to 16 bytes, the same application-context name and
the same presentation contexts in the same order, each with the same context ID,
abstract syntax name and transfer syntax names in the same order. (The decoded
User-Information item holds the first sub-item only.) -/
theorem associateRQ_round_trip (fuel version : Nat) (called calling app : List Nat)
    (contexts : List PresentationContextData) (u : PDUObject) (us : List PDUObject)
    (hversion : version < 65536)
    (hcalled : called.length ≤ 16) (hcalling : calling.length ≤ 16)
    (happ : app.length < 65536)
    (hcontexts : contexts ≠ [])
    (hid : ∀ c ∈ contexts, c.presentationContextID < 256)
    (habs : ∀ c ∈ contexts, c.abstractSyntaxName.length < 65536)
    (hne : ∀ c ∈ contexts, c.transferSyntaxNames ≠ [])
    (htr : ∀ c ∈ contexts, ∀ n ∈ c.transferSyntaxNames, n.length < 65536)
    (hus : ∀ o ∈ u :: us, o.isUserData = true)
    (hfuel1 : contexts.length + 1 ≤ fuel)
    (hfuel2 : ∀ c ∈ contexts, c.transferSyntaxNames.length + 2 ≤ fuel) :
    ∃ bytes s1,
      PDUObject.buffer (AssociateRQ.build version called calling
        (.ApplicationContextItem app) (contexts.map PresentationContextData.build)
        (.UserInformationItem (u :: us))) = .ok bytes ∧
      createByStream fuel ⟨bytes, 0⟩ = .ok (.AssociateRQ ITEM_TYPE_PDU_ASSOCIATE_RQ version
        (some (padTitle called)) (some (padTitle calling)) (.ApplicationContextItem app)
        (contexts.map PresentationContextData.build) (.UserInformationItem [u]), s1) := by
  obtain ⟨c, cs, rfl⟩ := List.exists_cons_of_ne_nil hcontexts
  have hc := hfuel2 c (List.mem_cons_self _ _)
  have hc1 : 0 < c.transferSyntaxNames.length :=
    List.length_pos.mpr (hne c (List.mem_cons_self _ _))
  obtain ⟨g, rfl⟩ : ∃ g, fuel = g + 3 := ⟨fuel - 3, by omega⟩
  obtain ⟨s1, hs1⟩ := createByStream_associateRQ g
    ⟨AssociateRQ.wire version called calling app (c :: cs) (u :: us), 0⟩ version called
    calling app (c :: cs) u us hversion hcalled hcalling happ hcontexts habs htr hne hus
    (by omega) (fun x hx => by have := hfuel2 x hx; omega) (ReadStream.AtBytes.start _)
  exact ⟨_, s1, associateRQ_buffer version called calling app (c :: cs) (u :: us) hcalled
    hcalling hid hus, hs1⟩

/-- Witness of C15: the request of the example of the spec, with two transfer syntaxes
and two sub-items of the User-Information item. -/
theorem associateRQ_round_trip_witness :
    ∃ bytes s1,
      PDUObject.buffer (AssociateRQ.build 1 (ascii "STORAGE_SCP") (ascii "STORAGE_SCU")
        (.ApplicationContextItem (ascii "1.2.840.10008.3.1.1.1"))
        ([⟨1, ascii "1.2.840.10008.1.1",
          [ascii "1.2.840.10008.1.2", ascii "1.2.840.10008.1.2.1"]⟩].map
          PresentationContextData.build)
        (.UserInformationItem [.MaximumLengthItem 16384,
          .ImplementationClassUIDItem (ascii "1.2.3")])) = .ok bytes ∧
      createByStream 4 ⟨bytes, 0⟩ = .ok (.AssociateRQ ITEM_TYPE_PDU_ASSOCIATE_RQ 1
        (some (padTitle (ascii "STORAGE_SCP"))) (some (padTitle (ascii "STORAGE_SCU")))
        (.ApplicationContextItem (ascii "1.2.840.10008.3.1.1.1"))
        ([⟨1, ascii "1.2.840.10008.1.1",
          [ascii "1.2.840.10008.1.2", ascii "1.2.840.10008.1.2.1"]⟩].map
          PresentationContextData.build)
        (.UserInformationItem [.MaximumLengthItem 16384]), s1) :=
  associateRQ_round_trip 4 1 (ascii "STORAGE_SCP") (ascii "STORAGE_SCU")
    (ascii "1.2.840.10008.3.1.1.1")
    [⟨1, ascii "1.2.840.10008.1.1", [ascii "1.2.840.10008.1.2", ascii "1.2.840.10008.1.2.1"]⟩]
    (.MaximumLengthItem 16384) [.ImplementationClassUIDItem (ascii "1.2.3")]
    (by decide) (by decide) (by decide) (by decide) (by decide) (by decide) (by decide)
    (by decide) (by decide) (by decide) (by decide) (by decide)

/-- C21: for every maximum size `M > 6` and enough fuel for the slice loop: each slice
has a length of at most `M - 6`, and a PDV made for it as `generatePDatas` does, with
`new RawDataPDV(context, buffer, 0, slice.length, slice.isLast)` for any `buffer` (a
chunk of the file, or a piece of the buffer), encodes to at most `M` bytes, and a
P-DATA-TF carrying this PDV has `totalLength()` `6 + slice.length`, at most `M`;
`generatePDatas` on a buffer returns events whose PDVs are of this kind. For every list
of PDVs `totalLength()` of a P-DATA-TF holding them is the sum over the PDVs of 6 plus
the length of the fragment (the length that the PDV was made with). -/
theorem generatePDatas_pdv_at_most_maxSize (fuel context : Nat) (bufferOrFile : List Nat)
    (M length metaLength total : Nat) (hM : 6 < M)
    (htotal : total = if length ≠ 0 then length else bufferOrFile.length)
    (hfuel : total - (metaLength + 144) < fuel) :
    (∃ slices, generateSlices fuel total metaLength M = some slices ∧
      (∀ s ∈ slices, ∀ buffer : List Nat, ∃ bytes,
        s.length ≤ M - 6 ∧
        Field.write (RawDataPDV.new context buffer 0 s.length s.isLast).getFields
          = .ok bytes ∧
        bytes.length ≤ M ∧
        PDataTF.totalLength [(RawDataPDV.new context buffer 0 s.length s.isLast).getFields]
          = .ok (6 + s.length) ∧
        6 + s.length ≤ M) ∧
      ∃ events,
        generatePDatas fuel context bufferOrFile M length metaLength = some events ∧
        emittedPDVs events = slices.map (fun s => RawDataPDV.new context
          (Buffer.slice bufferOrFile s.start s.length) 0 s.length s.isLast) ∧
        ∀ p ∈ emittedPDVs events, ∃ bytes,
          Field.write p.getFields = .ok bytes ∧ bytes.length ≤ M ∧
          PDataTF.totalLength [p.getFields] = .ok (6 + p.bufferLength) ∧
          6 + p.bufferLength ≤ M) ∧
    (∀ ps : List RawDataPDV,
      PDataTF.totalLength (ps.map RawDataPDV.getFields) =
        .ok ((ps.map (fun p => 6 + p.bufferLength)).sum)) := by
  obtain ⟨slices, h1, _, _, h4⟩ :=
    slicesLoop_chain (M - 6) total (by omega) fuel (metaLength + 144) 0 hfuel
  have hpdv : ∀ s ∈ slices, ∀ buffer : List Nat, ∃ bytes,
      s.length ≤ M - 6 ∧
      Field.write (RawDataPDV.new context buffer 0 s.length s.isLast).getFields
        = .ok bytes ∧
      bytes.length ≤ M ∧
      PDataTF.totalLength [(RawDataPDV.new context buffer 0 s.length s.isLast).getFields]
        = .ok (6 + s.length) ∧
      6 + s.length ≤ M := by
    intro s hs buffer
    have hle := h4 s hs
    obtain ⟨bytes, hw, hb⟩ :=
      RawDataPDV.write_length_le (RawDataPDV.new context buffer 0 s.length s.isLast)
    have ht := RawDataPDV.totalLength_getFields
      [RawDataPDV.new context buffer 0 s.length s.isLast]
    simp only [List.map_cons, List.map_nil, List.sum_cons, List.sum_nil, Nat.add_zero] at ht
    have hlen : (RawDataPDV.new context buffer 0 s.length s.isLast).bufferLength = s.length :=
      rfl
    rw [hlen] at hb ht
    exact ⟨bytes, hle, hw, by omega, ht, by omega⟩
  refine ⟨⟨slices, h1, hpdv, emitSlices context bufferOrFile slices, ?_,
    emittedPDVs_emitSlices _ _ _, ?_⟩, RawDataPDV.totalLength_getFields⟩
  · simp only [generatePDatas, ← htotal]
    rw [show generateSlices fuel total metaLength M = some slices from h1]
  · intro p hp
    rw [emittedPDVs_emitSlices, List.mem_map] at hp
    obtain ⟨s, hs, rfl⟩ := hp
    obtain ⟨bytes, _, hw, hb, ht, hm⟩ :=
      hpdv s hs (Buffer.slice bufferOrFile s.start s.length)
    exact ⟨bytes, hw, hb, ht, hm⟩

/-- Witness of C21: a buffer of 160 bytes split with maximum size 16, that is 16 bytes
in slices of at most 10. -/
theorem generatePDatas_pdv_at_most_maxSize_witness :
    ∃ events,
      generatePDatas 100 1 (List.range 160) 16 0 0 = some events ∧
      ∀ p ∈ emittedPDVs events, ∃ bytes,
        Field.write p.getFields = .ok bytes ∧ bytes.length ≤ 16 ∧
        PDataTF.totalLength [p.getFields] = .ok (6 + p.bufferLength) ∧
        6 + p.bufferLength ≤ 16 := by
  obtain ⟨⟨_, _, _, events, h1, _, h2⟩, _⟩ :=
    generatePDatas_pdv_at_most_maxSize 100 1 (List.range 160) 16 0 0 160 (by decide)
      (by decide) (by decide)
  exact ⟨events, h1, h2⟩

/-- C22, at a User-Information item that is the last thing in the stream (tag `0x50`,
a reserved byte and a two-byte length, declared length 0 included, and then the end of
the data): `PDU.createByStream` does not return and raises no error, whatever the
number of steps it is given. `readBytes` loads `null` at the end of the data, and the
loop `do { items.push(pdu); } while (pdu === this.load(stream))` goes on for ever,
since every further `load` returns `null` as well. -/
theorem createByStream_userInformation_at_end_never_returns (fuel : Nat)
    (stream : ReadStream) (reserved declared : Nat)
    (h : stream.AtBytes (ITEM_TYPE_USER_INFORMATION :: (reserved :: bigEndian 2 declared))) :
    createByStream fuel stream = .error .outOfFuel := by
  cases fuel with
  | zero => rfl
  | succ f =>
    have h1 : (stream.advance 1).AtBytes (reserved :: (bigEndian 2 declared ++ [])) := by
      rw [List.append_nil]
      exact ReadStream.AtBytes.advance [ITEM_TYPE_USER_INFORMATION] _ h
    obtain ⟨hread, h2⟩ := item_read_mod
      (UserInformationItem.readBytes (createByStream f) f) (stream.advance 1) reserved
      declared [] h1
    rw [createByStream_registered f stream _ .UserInformationItem (h.getElem _ _) rfl]
    have key : readOfClass (createByStream f) f PDUClass.UserInformationItem
        { stream with offset := stream.offset + 1 } =
        Item.read (UserInformationItem.readBytes (createByStream f) f)
          (stream.advance 1) := rfl
    rw [key, hread]
    cases f with
    | zero => rfl
    | succ g =>
      have hload := createByStream_at_end g _ h2
      simp only [UserInformationItem.readBytes, hload, bind, Except.bind,
        pushLoop_null_at_end (createByStream (g + 1)) _ hload]

/-- Witness of C22: the four bytes `50 00 00 00`, a User-Information item of declared
length 0 and nothing after it, with a million steps. -/
theorem createByStream_userInformation_at_end_never_returns_witness :
    createByStream 1000000 ⟨[0x50, 0, 0, 0], 0⟩ = .error .outOfFuel :=
  createByStream_userInformation_at_end_never_returns 1000000 ⟨[0x50, 0, 0, 0], 0⟩ 0 0
    (ReadStream.AtBytes.start _)

/-- C23: for every total length, `metaLength` and maximum size `M > 6` the slice loop of
`generatePDatas` finishes (within any number of iterations above the number of bytes to
split), and its slices tile the range: the first slice starts at `metaLength + 144`,
each following slice starts where the previous one ends, every slice has a positive
length, the lengths sum to `total - (metaLength + 144)` (there is no slice when
`total` is not above `metaLength + 144`), and the `i`-th slice has index `i`. -/
theorem generateSlices_tile_the_range (fuel total metaLength M : Nat) (hM : 6 < M)
    (hfuel : total - (metaLength + 144) < fuel) :
    ∃ slices, generateSlices fuel total metaLength M = some slices ∧
      (∀ s : Slice, slices.head? = some s → s.start = metaLength + 144) ∧
      (∀ (i : Nat) (a b : Slice), slices[i]? = some a → slices[i + 1]? = some b →
        b.start = a.start + a.length) ∧
      (∀ s ∈ slices, 0 < s.length) ∧
      (slices.map Slice.length).sum = total - (metaLength + 144) ∧
      (total ≤ metaLength + 144 → slices = []) ∧
      (∀ (i : Nat) (s : Slice), slices[i]? = some s → s.index = i) := by
  obtain ⟨slices, h1, h2, h3, _⟩ :=
    slicesLoop_chain (M - 6) total (by omega) fuel (metaLength + 144) 0 hfuel
  refine ⟨slices, h1, ?_, Slice.Chain.next slices _ _ h2, ?_, h3, ?_, ?_⟩
  · intro s hs
    rw [List.head?_eq_getElem?] at hs
    have := (Slice.Chain.at_index slices _ _ h2 0 s hs).2.2
    simpa using this
  · intro s hs
    obtain ⟨i, hi⟩ := List.getElem?_of_mem hs
    exact (Slice.Chain.at_index slices _ _ h2 i s hi).2.1
  · intro hle
    cases slices with
    | nil => rfl
    | cons s rest =>
      have hpos := (Slice.Chain.at_index (s :: rest) _ _ h2 0 s
        (by simp)).2.1
      simp only [List.map_cons, List.sum_cons] at h3
      omega
  · intro i s hs
    have := (Slice.Chain.at_index slices _ _ h2 i s hs).1
    omega

/-- Witness of C23: 1000 bytes, no meta header, maximum size 106: the 856 bytes from
offset 144 on are tiled by the slices. -/
theorem generateSlices_tile_the_range_witness :
    ∃ slices, generateSlices 1000 1000 0 106 = some slices ∧
      (∀ s : Slice, slices.head? = some s → s.start = 0 + 144) ∧
      (∀ (i : Nat) (a b : Slice), slices[i]? = some a → slices[i + 1]? = some b →
        b.start = a.start + a.length) ∧
      (∀ s ∈ slices, 0 < s.length) ∧
      (slices.map Slice.length).sum = 1000 - (0 + 144) ∧
      (1000 ≤ 0 + 144 → slices = []) ∧
      (∀ (i : Nat) (s : Slice), slices[i]? = some s → s.index = i) :=
  generateSlices_tile_the_range 1000 1000 0 106 (by decide) (by decide)

end Dimse
